import Mathlib

/-!
# Broker routing core of gazette: a shallow embedding

The definitions below embed `pkg/broker/router.go`, `pkg/broker/dialer.go` and
`pkg/broker/http.go`, and model the left-join iterator and the assignment order of
`pkg/v3.allocator`, of which only the tests are at hand.  Go pointers to replicas are
addresses into an explicit heap, a Go panic (index or slice out of range) is the `none`
of an `Option`, and the outcome of every external effect (a transport dial, a random
draw, a peer's stream) is an explicit argument.
-/

namespace Gazette

/-! ## Protocol data model (`pkg/protocol`) -/

/-- Journal name, the Go type `pb.Journal` (a string). -/
abbrev Journal := String

/-- Endpoint URL, the Go type `pb.Endpoint` (a string). -/
abbrev Endpoint := String

/-- Broker identity `pb.BrokerSpec_ID`. -/
structure BrokerSpec_ID where
  Zone : String
  Suffix : String
deriving DecidableEq, Repr

/-- Broker specification `pb.BrokerSpec`; only the endpoint is consulted here. -/
structure BrokerSpec where
  Endpoint : Endpoint
deriving DecidableEq, Repr

/-- Status enumeration `pb.Status`: the enumerators named by the sources and the spec. -/
inductive Status where
  | OK
  | JOURNAL_NOT_FOUND
  | NO_JOURNAL_PRIMARY_BROKER
  | NO_JOURNAL_BROKERS
  | NOT_JOURNAL_PRIMARY_BROKER
  | NOT_JOURNAL_BROKER
  | REPLICATION_FAILED
  | OFFSET_NOT_YET_AVAILABLE
  | WRONG_ROUTE_REVISION
deriving DecidableEq, Repr

/-- Route `pb.Route`: brokers in assignment order, the index of the primary (or -1) and
the parallel endpoints.  `Primary` is a Go `int32`; no arithmetic is done on it. -/
structure Route where
  Brokers : List BrokerSpec_ID
  Primary : Int
  Endpoints : List Endpoint
deriving DecidableEq, Repr

/-! ## Allocator keyspace (`pkg/keyspace`, `pkg/v3.allocator`) -/

/-- Raw Etcd key/value `mvccpb.KeyValue`: the key and its modification revision. -/
structure RawKeyValue where
  Key : String
  ModRevision : Int
deriving DecidableEq, Repr

/-- Allocator item `v3_allocator.Item`. -/
structure Item where
  ID : String
deriving DecidableEq, Repr

/-- Allocator member `v3_allocator.Member`, its value being a `*pb.BrokerSpec`. -/
structure Member where
  Zone : String
  Suffix : String
  MemberValue : BrokerSpec
deriving DecidableEq, Repr

/-- Allocator assignment `v3_allocator.Assignment`. -/
structure Assignment where
  ItemID : String
  MemberZone : String
  MemberSuffix : String
  Slot : Int
deriving DecidableEq, Repr

/-- Decoded key/value `keyspace.KeyValue`, typed by what it decodes to. -/
structure KeyValue (α : Type) where
  Raw : RawKeyValue
  Decoded : α
deriving DecidableEq, Repr

/-- Key space `keyspace.KeySpace`: the decoded entries of the three subtrees
`items/`, `members/` and `assign/`, each in key order. -/
structure KeySpace where
  Root : String
  Items : List (KeyValue Item)
  Members : List (KeyValue Member)
  Assignments : List (KeyValue Assignment)
deriving DecidableEq, Repr

/-- String prefix test on the characters of the key. -/
def hasPrefix (key pre : String) : Bool :=
  pre.data.isPrefixOf key.data

/-- Modelled from the spec: `v3_allocator.ItemKey` is not among the sources; the key of an
item is `<root>/items/<id>`, as the keys of the allocator test fixture show. -/
def ItemKey (ks : KeySpace) (id : String) : String :=
  ks.Root ++ "/items/" ++ id

/-- Modelled from the spec: `v3_allocator.MemberKey` is not among the sources; a member is
keyed `<root>/members/<zone>/<suffix>`. -/
def MemberKey (ks : KeySpace) (zone suffix : String) : String :=
  ks.Root ++ "/members/" ++ zone ++ "/" ++ suffix

/-- Modelled from the spec: `v3_allocator.ItemAssignmentsPrefix` is not among the sources;
the assignments of an item are the entries prefixed by `<root>/assign/<id>/`. -/
def ItemAssignmentsPrefix (ks : KeySpace) (id : String) : String :=
  ks.Root ++ "/assign/" ++ id ++ "/"

/-- Modelled from the spec: `v3_allocator.LookupItem` is not among the sources; it finds
the item entry stored under the item key. -/
def LookupItem (ks : KeySpace) (id : String) : Option (KeyValue Item) :=
  ks.Items.find? (fun kv => kv.Raw.Key == ItemKey ks id)

/-- Modelled from the spec: `v3_allocator.LookupMember` is not among the sources; it finds
the member entry stored under the member key. -/
def LookupMember (ks : KeySpace) (zone suffix : String) : Option (KeyValue Member) :=
  ks.Members.find? (fun kv => kv.Raw.Key == MemberKey ks zone suffix)

/-- Modelled from the spec: `KeyValues.Prefixed` is not among the sources; it is the run of
entries whose key starts with the prefix, in key order. -/
def Prefixed (kvs : List (KeyValue Assignment)) (pre : String) : List (KeyValue Assignment) :=
  kvs.filter (fun kv => hasPrefix kv.Raw.Key pre)

/-! ## Route operations (`pkg/protocol`, modelled from the spec) -/

/-- Index of the slot-0 assignment counted from `i`, or -1 if there is none. -/
def primaryIndex : List (KeyValue Assignment) → Int → Int
  | [], _ => -1
  | kv :: rest, i => if kv.Decoded.Slot = 0 then i else primaryIndex rest (i + 1)

/-- Modelled from the spec: `Route.Init` is not among the sources.  The route has one
broker per assignment, in assignment order, `Primary` is the index of the slot-0
assignment or -1 if none exists, and no endpoints are attached. -/
def Route.Init (assignments : List (KeyValue Assignment)) : Route :=
  { Brokers := assignments.map
      (fun kv => { Zone := kv.Decoded.MemberZone, Suffix := kv.Decoded.MemberSuffix }),
    Primary := primaryIndex assignments 0,
    Endpoints := [] }

/-- Modelled from the spec: `Route.AttachEndpoints` is not among the sources.  It attaches
one endpoint per broker from the members subtree, so that afterwards
`len(Endpoints) == len(Brokers)`; a broker without a member entry gets the empty endpoint. -/
def Route.AttachEndpoints (m : Route) (ks : KeySpace) : Route :=
  { m with Endpoints := m.Brokers.map (fun b =>
      match LookupMember ks b.Zone b.Suffix with
      | some member => member.Decoded.MemberValue.Endpoint
      | none => "") }

/-- Modelled from the spec: `Route.Equivalent` is not among the sources.  Two routes are
equivalent iff they have identical broker identities in identical order and the same
primary. -/
def Route.Equivalent (m other : Route) : Bool :=
  decide (m.Brokers = other.Brokers) && decide (m.Primary = other.Primary)

/-- Modelled from the spec: `Route.Copy` is not among the sources; a deep copy has the
same value. -/
def Route.Copy (m : Route) : Route := m

/-- Modelled from the spec: `Route.RandomReplica` is not among the sources.  It picks
among the brokers of the preferred zone if any exist, else among all brokers; `rnd` is
the random draw.  On a route without brokers there is nothing to pick (a Go panic). -/
def Route.RandomReplica (m : Route) (preferredZone : String) (rnd : Nat) :
    Option BrokerSpec_ID :=
  match m.Brokers.filter (fun b => b.Zone == preferredZone) with
  | [] => m.Brokers[rnd % m.Brokers.length]?
  | b :: bs => (b :: bs)[rnd % (b :: bs).length]?

/-- The Route invariant of the data model: `Primary ∈ [-1, len(Brokers))`. -/
def Route.Valid (m : Route) : Prop :=
  -1 ≤ m.Primary ∧ m.Primary < m.Brokers.length

instance (m : Route) : Decidable m.Valid := by
  unfold Route.Valid; infer_instance

/-! ## Replicas and the router state (`pkg/broker`) -/

/-- Replica `replica`: the journal item, the local assignment entry, the route, and the
handle of its cancellation context, which a copy of the replica shares. -/
structure replica where
  journal : KeyValue Item
  assignment : KeyValue Assignment
  route : Route
  ctx : Nat
deriving DecidableEq, Repr

/-- Modelled from the spec: `replica.isPrimary` is not among the sources; the primary is
the replica whose assignment has slot 0. -/
def replica.isPrimary (r : replica) : Bool :=
  decide (r.assignment.Decoded.Slot = 0)

/-- Modelled from the spec: `newReplica` is not among the sources.  A fresh replica has
zero journal and assignment entries, the route without brokers (whose `Primary` is -1 by
the Route invariant) and a cancellation context of its own. -/
def newReplica (ctx : Nat) : replica :=
  { journal := { Raw := { Key := "", ModRevision := 0 }, Decoded := { ID := "" } },
    assignment := { Raw := { Key := "", ModRevision := 0 },
                    Decoded := { ItemID := "", MemberZone := "", MemberSuffix := "", Slot := 0 } },
    route := { Brokers := [], Primary := -1, Endpoints := [] },
    ctx := ctx }

/-- Transport connection `*grpc.ClientConn`, identified by its handle. -/
abbrev ClientConn := Nat

/-- Eviction callback of the LRU cache: its effect on the log of closed connections. -/
abbrev EvictCallback := BrokerSpec_ID → ClientConn → List ClientConn → List ClientConn

/-- LRU cache of `hashicorp/golang-lru` keyed by broker identity: the capacity, the
entries from most to least recently used, the eviction callback (`none` for `lru.New`),
and the log of the connections that were closed. -/
structure Cache where
  size : Nat
  entries : List (BrokerSpec_ID × ClientConn)
  onEvicted : Option EvictCallback
  closed : List ClientConn

/-- Router state `Router`.  `replicas` is the Go map from journal to `*replica` as an
association list of addresses; `heap` gives the replica value stored at each address and
`brk` is the first address not yet allocated; `cancelled` are the cancellation contexts
cancelled so far and `nextCtx` the first context handle not yet used. -/
structure Router where
  ks : KeySpace
  id : BrokerSpec_ID
  connCache : Cache
  replicas : List (Journal × Nat)
  heap : Nat → replica
  brk : Nat
  cancelled : List Nat
  nextCtx : Nat

/-- Map lookup `m[name]` on the association list. -/
def mapGet (m : List (Journal × Nat)) (name : Journal) : Option Nat :=
  (m.find? (fun e => e.1 == name)).map Prod.snd

/-- Resolution `resolution`: the route, the target broker and the address of the local
replica (`none` is the nil pointer). -/
structure resolution where
  route : Route
  broker : BrokerSpec_ID
  replica : Option Nat
deriving DecidableEq, Repr

/-- Indexing `Brokers[Primary]` with a Go `int32` index: out of range panics (`none`). -/
def brokerAt (m : Route) : Option BrokerSpec_ID :=
  if 0 ≤ m.Primary then m.Brokers[m.Primary.toNat]? else none

/-- The zero broker identity `pb.BrokerSpec_ID{}`. -/
def zeroID : BrokerSpec_ID := { Zone := "", Suffix := "" }

/-- Line 266 of `Router.resolve`:
`res.replica != nil && (!requirePrimary || res.replica.isPrimary())`. -/
def Router.localSatisfies (rtr : Router) (res : resolution) (requirePrimary : Bool) : Bool :=
  match res.replica with
  | some p => !requirePrimary || (rtr.heap p).isPrimary
  | none => false

/-- Lines 241-246 of `Router.resolve`: the route initialised from the assignments under
the journal's assignments prefix, with endpoints attached. -/
def Router.keyspaceRoute (rtr : Router) (journal : Journal) : Route :=
  let assignments := Prefixed rtr.ks.Assignments (ItemAssignmentsPrefix rtr.ks journal)
  (Route.Init assignments).AttachEndpoints rtr.ks

/-- Embedding of `Router.resolve`.  First part, lines 232-254: the route, target and local
replica before any check, and whether the journal was found. -/
def Router.lookup (rtr : Router) (journal : Journal) : resolution × Bool :=
  match mapGet rtr.replicas journal with
  | some p =>
    -- Journal is locally replicated.
    ({ route := (rtr.heap p).route, broker := rtr.id, replica := some p }, true)
  | none =>
    let ok := (LookupItem rtr.ks journal).isSome
    ({ route := rtr.keyspaceRoute journal, broker := zeroID, replica := none }, ok)

/-- Embedding of `Router.resolve`.  `rnd` is the random draw of `RandomReplica`; the result
is `none` when the Go code panics on an out-of-range index. -/
def Router.resolve (rtr : Router) (journal : Journal) (requirePrimary mayProxy : Bool)
    (rnd : Nat) : Option (resolution × Status) :=
  let (res, ok) := rtr.lookup journal
  if !ok then
    some (res, Status.JOURNAL_NOT_FOUND)
  else if requirePrimary && decide (res.route.Primary = -1) then
    some (res, Status.NO_JOURNAL_PRIMARY_BROKER)
  else if res.route.Brokers.length == 0 then
    some (res, Status.NO_JOURNAL_BROKERS)
  else
    -- If the local replica can satisfy the request, we're done.
    if rtr.localSatisfies res requirePrimary then
      some (res, Status.OK)
    else
      let res := { res with replica := none, broker := zeroID }
      if !mayProxy then
        if requirePrimary then
          some (res, Status.NOT_JOURNAL_PRIMARY_BROKER)
        else
          some (res, Status.NOT_JOURNAL_BROKER)
      else if requirePrimary then
        (brokerAt res.route).map (fun b => ({ res with broker := b }, Status.OK))
      else
        (res.route.RandomReplica rtr.id.Zone rnd).map
          (fun b => ({ res with broker := b }, Status.OK))

/-! ## Errors and the connection caches -/

/-- Errors of the request paths: the three built by `fmt.Errorf` in the sources, with the
values they are formatted from, and the errors that external calls return. -/
inductive Error where
  /-- The error `no such Broker in Route (id: %s, route: %s)`. -/
  | noSuchBrokerInRoute (id : BrokerSpec_ID) (route : Route)
  /-- The error `missing Route Endpoints (id: %s, route: %s)`. -/
  | missingRouteEndpoints (id : BrokerSpec_ID) (route : Route)
  /-- The error `no BrokerSpec found for (%s)`. -/
  | noBrokerSpecFound (id : BrokerSpec_ID)
  /-- An error returned by a transport, stream or validation call. -/
  | external (msg : String)
deriving DecidableEq, Repr

/-- The method `lru.Cache.Get`: a hit returns the value and makes the entry the most
recently used. -/
def Cache.Get (c : Cache) (key : BrokerSpec_ID) : Option ClientConn × Cache :=
  match c.entries.find? (fun e => e.1 == key) with
  | some e => (some e.2, { c with entries := e :: c.entries.filter (fun x => x.1 != key) })
  | none => (none, c)

/-- The LRU step `removeOldest`: drops the least recently used entry and runs the eviction
callback on it, if one is installed. -/
def Cache.removeOldest (c : Cache) : Cache :=
  match c.entries.getLast? with
  | none => c
  | some e =>
    { c with
      entries := c.entries.dropLast,
      closed := match c.onEvicted with
        | some f => f e.1 e.2 c.closed
        | none => c.closed }

/-- The method `lru.Cache.Add`: an existing key is updated and becomes the most recently
used; a new key is pushed in front, and the oldest entry is evicted when the capacity is
exceeded. -/
def Cache.Add (c : Cache) (key : BrokerSpec_ID) (value : ClientConn) : Cache :=
  if c.entries.any (fun e => e.1 == key) then
    { c with entries := (key, value) :: c.entries.filter (fun x => x.1 != key) }
  else
    let c1 := { c with entries := (key, value) :: c.entries }
    if c1.entries.length > c.size then c1.removeOldest else c1

/-- The constructor `lru.New(size)`: no eviction callback. -/
def lruNew (size : Nat) : Cache :=
  { size := size, entries := [], onEvicted := none, closed := [] }

/-- The constructor `lru.NewWithEvict(size, onEvicted)`. -/
def lruNewWithEvict (size : Nat) (onEvicted : EvictCallback) : Cache :=
  { size := size, entries := [], onEvicted := some onEvicted, closed := [] }

/-- Route-scoped dialer `dialer`. -/
structure dialer where
  cache : Cache

/-- Embedding of `newDialer` for a positive size: the eviction callback closes the evicted
connection.  For size 0 `lru.NewWithEvict` reports an error, which the Go `newDialer`
returns in place of a usable dialer; the model covers the positive sizes only. -/
def newDialer (size : Nat) : dialer :=
  { cache := lruNewWithEvict size (fun _ value closed => value :: closed) }

/-- The loop of `dialer.dial`:
`for ind = 0; ind != len(route.Brokers) && route.Brokers[ind] != id; ind++`,
started at `ind` on the brokers from `ind` on. -/
def scanBrokers : List BrokerSpec_ID → BrokerSpec_ID → Nat → Nat
  | [], _, ind => ind
  | b :: rest, id, ind => if b ≠ id then scanBrokers rest id (ind + 1) else ind

/-- Embedding of `dialer.dial`.  `urlHost` is `Endpoint.URL().Host` and `grpcDial` gives
the outcome of `grpc.DialContext` on a host.  Returns the connection or the error, and
the dialer with its cache as the call leaves it. -/
def dialer.dial (d : dialer) (id : BrokerSpec_ID) (route : Route)
    (urlHost : Endpoint → String) (grpcDial : String → Except Error ClientConn) :
    Except Error ClientConn × dialer :=
  let ind := scanBrokers route.Brokers id 0
  if ind = route.Brokers.length then
    (.error (.noSuchBrokerInRoute id route), d)
  else if route.Endpoints.length ≠ route.Brokers.length then
    (.error (.missingRouteEndpoints id route), d)
  else
    -- The cache check comes after examining the route.
    match d.cache.Get id with
    | (some v, cache) => (.ok v, { cache := cache })
    | (none, cache) =>
      match grpcDial (urlHost (route.Endpoints.getD ind "")) with
      | .ok conn => (.ok conn, { cache := cache.Add id conn })
      | .error err => (.error err, { cache := cache })

/-- Embedding of `NewRouter`: an empty router whose connection cache is `lru.New(1024)`.
No replica is allocated yet; the heap holds a fresh replica value at every address. -/
def NewRouter (ks : KeySpace) (id : BrokerSpec_ID) : Router :=
  { ks := ks, id := id, connCache := lruNew 1024, replicas := [],
    heap := fun _ => newReplica 0, brk := 0, cancelled := [], nextCtx := 0 }

/-- Embedding of `Router.peerConn`. -/
def Router.peerConn (rtr : Router) (id : BrokerSpec_ID)
    (urlHost : Endpoint → String) (grpcDial : String → Except Error ClientConn) :
    Except Error ClientConn × Router :=
  match rtr.connCache.Get id with
  | (some v, cache) => (.ok v, { rtr with connCache := cache })
  | (none, cache) =>
    match LookupMember rtr.ks id.Zone id.Suffix with
    | none => (.error (.noBrokerSpecFound id), { rtr with connCache := cache })
    | some member =>
      match grpcDial (urlHost member.Decoded.MemberValue.Endpoint) with
      | .ok conn => (.ok conn, { rtr with connCache := cache.Add id conn })
      | .error err => (.error err, { rtr with connCache := cache })

/-- A sequence of `peerConn` calls, each with the dial outcomes of its moment. -/
def Router.peerConns (rtr : Router) (urlHost : Endpoint → String) :
    List (BrokerSpec_ID × (String → Except Error ClientConn)) → Router
  | [] => rtr
  | (id, grpcDial) :: rest => ((rtr.peerConn id urlHost grpcDial).2).peerConns urlHost rest

/-! ## The Read RPC (`Router.Read`, `Router.proxyRead`) -/

/-- Read request `pb.ReadRequest`. -/
structure ReadRequest where
  Journal : Journal
  Offset : Int
  Block : Bool
  DoNotProxy : Bool
  MetadataOnly : Bool
deriving DecidableEq, Repr

/-- Fragment `pb.Fragment` as the gateway sees it: the result of `ContentName()` and the
modification time in seconds, zero being the zero time. -/
structure Fragment where
  ContentName : String
  ModTime : Int
deriving DecidableEq, Repr

/-- Read response `pb.ReadResponse`; `Route` is a pointer and may be nil (`none`). -/
structure ReadResponse where
  Status : Status
  Route : Option Route
  WriteHead : Int
  Fragment : Option Fragment
  FragmentUrl : String
  Content : String
deriving DecidableEq, Repr

/-- Server side of a Read stream `pb.Broker_ReadServer`: the responses handed to `Send`
so far, and the error (if any) that the n-th call of `Send` returns. -/
structure ReadServer where
  sent : List ReadResponse
  sendErr : Nat → Option Error

/-- The method `srv.Send`. -/
def ReadServer.Send (srv : ReadServer) (resp : ReadResponse) : Option Error × ReadServer :=
  (srv.sendErr srv.sent.length, { srv with sent := srv.sent ++ [resp] })

/-- What a peer does with a proxied Read: the error of opening the stream, the error of
`CloseSend`, the responses it delivers, and the error that ends the stream (`none` is
`io.EOF`). -/
structure PeerRead where
  openErr : Option Error
  closeSendErr : Option Error
  responses : List ReadResponse
  finalErr : Option Error

/-- The forwarding loop of `Router.proxyRead`. -/
def forwardReads : List ReadResponse → Option Error → ReadServer → Option Error × ReadServer
  | [], finalErr, srv => (finalErr, srv)
  | resp :: rest, finalErr, srv =>
    match srv.Send resp with
    | (some err, srv1) => (some err, srv1)
    | (none, srv1) => forwardReads rest finalErr srv1

/-- Embedding of `Router.proxyRead`. -/
def Router.proxyRead (rtr : Router) (req : ReadRequest) (toID : BrokerSpec_ID) (srv : ReadServer)
    (urlHost : Endpoint → String) (grpcDial : String → Except Error ClientConn)
    (peerRead : ClientConn → ReadRequest → PeerRead) : Option Error × ReadServer × Router :=
  match rtr.peerConn toID urlHost grpcDial with
  | (.error err, rtr1) => (some err, srv, rtr1)
  | (.ok conn, rtr1) =>
    let client := peerRead conn req
    match client.openErr with
    | some err => (some err, srv, rtr1)
    | none =>
      match client.closeSendErr with
      | some err => (some err, srv, rtr1)
      | none =>
        let (err, srv1) := forwardReads client.responses client.finalErr srv
        (err, srv1, rtr1)

/-- Embedding of `Router.Read`.  `validate` is `req.Validate`, and `read` is the local read
path of a replica; neither is among the sources.  The result is `none` when the Go code
panics. -/
def Router.Read (rtr : Router) (req : ReadRequest) (srv : ReadServer)
    (validate : ReadRequest → Option Error) (rnd : Nat)
    (urlHost : Endpoint → String) (grpcDial : String → Except Error ClientConn)
    (peerRead : ClientConn → ReadRequest → PeerRead)
    (read : Nat → ReadRequest → ReadServer → Option Error × ReadServer) :
    Option (Option Error × ReadServer × Router) :=
  match validate req with
  | some err => some (some err, srv, rtr)
  | none =>
    match rtr.resolve req.Journal false (!req.DoNotProxy) rnd with
    | none => none
    | some (res, status) =>
      if status ≠ Status.OK then
        let (err, srv1) := srv.Send
          { Status := status, Route := some res.route, WriteHead := 0, Fragment := none,
            FragmentUrl := "", Content := "" }
        some (err, srv1, rtr)
      else
        match res.replica with
        | none => some (rtr.proxyRead req res.broker srv urlHost grpcDial peerRead)
        | some p =>
          let (err, srv1) := read p req srv
          some (err, srv1, rtr)

/-! ## The HTTP gateway (`pkg/broker/http.go`) -/

/-- Append response `pb.AppendResponse`. -/
structure AppendResponse where
  Status : Status
  Route : Option Route
  FirstOffset : Int
  LastOffset : Int
  WriteHead : Int
deriving DecidableEq, Repr

/-- A call made on an `http.ResponseWriter`. -/
inductive WriterCall where
  | headerSet (key value : String)
  | headerAdd (key value : String)
  | writeHeader (code : Nat)
  | write (body : String)
deriving DecidableEq, Repr

/-- The writer `http.ResponseWriter`, as the calls made on it, in order. -/
abbrev ResponseWriter := List WriterCall

/-- The function `http.Error` of `net/http`. -/
def httpError (w : ResponseWriter) (error : String) (code : Nat) : ResponseWriter :=
  w ++ [.headerSet "Content-Type" "text/plain; charset=utf-8",
        .headerSet "X-Content-Type-Options" "nosniff",
        .writeHeader code,
        .write (error ++ "\n")]

/-- The method `Status.String`: the name of the enumerator. -/
def Status.String : Status → String
  | .OK => "OK"
  | .JOURNAL_NOT_FOUND => "JOURNAL_NOT_FOUND"
  | .NO_JOURNAL_PRIMARY_BROKER => "NO_JOURNAL_PRIMARY_BROKER"
  | .NO_JOURNAL_BROKERS => "NO_JOURNAL_BROKERS"
  | .NOT_JOURNAL_PRIMARY_BROKER => "NOT_JOURNAL_PRIMARY_BROKER"
  | .NOT_JOURNAL_BROKER => "NOT_JOURNAL_BROKER"
  | .REPLICATION_FAILED => "REPLICATION_FAILED"
  | .OFFSET_NOT_YET_AVAILABLE => "OFFSET_NOT_YET_AVAILABLE"
  | .WRONG_ROUTE_REVISION => "WRONG_ROUTE_REVISION"

def FragmentLastModifiedHeader : String := "X-Fragment-Last-Modified"
def FragmentLocationHeader : String := "X-Fragment-Location"
def FragmentNameHeader : String := "X-Fragment-Name"
def RouteTokenHeader : String := "X-Route-Token"
def WriteHeadHeader : String := "X-Write-Head"
def FirstOffsetHeader : String := "X-First-Offset"
def LastOffsetHeader : String := "X-Last-Offset"

/-- Adds the header `key` with the decimal form of `v` when `v` is not zero. -/
def addOffsetHeader (w : ResponseWriter) (key : String) (v : Int) : ResponseWriter :=
  if v ≠ 0 then w ++ [.headerAdd key (toString v)] else w

/-- The header part of `HTTPAPI.writeAppendResponse` (lines 209-220).  `compactText` is
`proto.CompactTextString`. -/
def writeAppendHeaders (compactText : Route → String) (w : ResponseWriter)
    (resp : AppendResponse) : ResponseWriter :=
  let w := match resp.Route with
    | some route => w ++ [.headerSet RouteTokenHeader (compactText route)]
    | none => w
  let w := addOffsetHeader w FirstOffsetHeader resp.FirstOffset
  let w := addOffsetHeader w LastOffsetHeader resp.LastOffset
  addOffsetHeader w WriteHeadHeader resp.WriteHead

/-- Embedding of `HTTPAPI.writeAppendResponse`: the headers, then the switch on the
status. -/
def writeAppendResponse (compactText : Route → String) (w : ResponseWriter)
    (resp : AppendResponse) : ResponseWriter :=
  let w := writeAppendHeaders compactText w resp
  match resp.Status with
  | .OK => w ++ [.writeHeader 204]
  | .JOURNAL_NOT_FOUND => w ++ [.writeHeader 404]
  | .REPLICATION_FAILED => httpError w resp.Status.String 503
  | _ => httpError w resp.Status.String 500

/-- The header part of `HTTPAPI.writeReadResponse` (lines 235-250).  `compactText` is
`proto.CompactTextString` and `formatTime` is `ModTime.Format(http.TimeFormat)`. -/
def writeReadHeaders (compactText : Route → String) (formatTime : Int → String)
    (w : ResponseWriter) (resp : ReadResponse) : ResponseWriter :=
  let w := match resp.Route with
    | some route => w ++ [.headerSet RouteTokenHeader (compactText route)]
    | none => w
  let w := match resp.Fragment with
    | some fragment =>
      let w := w ++ [.headerAdd FragmentNameHeader fragment.ContentName]
      let w := if fragment.ModTime ≠ 0 then
          w ++ [.headerAdd FragmentLastModifiedHeader (formatTime fragment.ModTime)]
        else w
      if resp.FragmentUrl ≠ "" then
        w ++ [.headerAdd FragmentLocationHeader resp.FragmentUrl]
      else w
    | none => w
  addOffsetHeader w WriteHeadHeader resp.WriteHead

/-- Embedding of `HTTPAPI.writeReadResponse`: the headers, then the switch on the status. -/
def writeReadResponse (compactText : Route → String) (formatTime : Int → String)
    (w : ResponseWriter) (resp : ReadResponse) : ResponseWriter :=
  let w := writeReadHeaders compactText formatTime w resp
  match resp.Status with
  | .OK => w ++ [.writeHeader 206]
  | .JOURNAL_NOT_FOUND => httpError w resp.Status.String 404
  | .NO_JOURNAL_BROKERS => httpError w resp.Status.String 503
  | .OFFSET_NOT_YET_AVAILABLE => httpError w resp.Status.String 416
  | _ => httpError w resp.Status.String 500

/-- The status codes handed to `WriteHeader`, in order. -/
def writtenCodes (w : ResponseWriter) : List Nat :=
  w.filterMap (fun c => match c with | .writeHeader code => some code | _ => none)

/-- Status mapping of Read as the spec words it: OK→206, JournalNotFound→404,
NoJournalBrokers→503, OffsetNotYetAvailable→416, else 500. -/
def specReadCode (s : Status) : Nat :=
  if s = .OK then 206
  else if s = .JOURNAL_NOT_FOUND then 404
  else if s = .NO_JOURNAL_BROKERS then 503
  else if s = .OFFSET_NOT_YET_AVAILABLE then 416
  else 500

/-- Status mapping of Append as the spec words it: OK→204, JournalNotFound→404,
ReplicationFailed→503, else 500. -/
def specAppendCode (s : Status) : Nat :=
  if s = .OK then 204
  else if s = .JOURNAL_NOT_FOUND then 404
  else if s = .REPLICATION_FAILED then 503
  else 500

/-! ## The replica index update (`Router.UpdateLocalItems`) -/

/-- Local item `v3_allocator.LocalItem`: the item entry, all its assignment entries and the
index of the local one among them. -/
structure LocalItem where
  Item : KeyValue Item
  Assignments : List (KeyValue Assignment)
  Index : Int
deriving DecidableEq, Repr

/-- A background task started with `go`. -/
inductive Spawned where
  | watchStores (name : Journal) (addr : Nat)
  | issueEmptyWrite (conn : ClientConn) (name : Journal)
deriving DecidableEq, Repr

/-- Indexing a Go slice with an `int`: out of range panics (`none`). -/
def indexAt {α : Type} (xs : List α) (i : Int) : Option α :=
  if 0 ≤ i then xs[i.toNat]? else none

/-- Map store `m[name] = p` on the association list. -/
def mapSet (m : List (Journal × Nat)) (name : Journal) (p : Nat) : List (Journal × Nat) :=
  (name, p) :: m.filter (fun e => e.1 != name)

/-- State of the loop of `UpdateLocalItems`: the router (heap, allocation marks and
connection cache evolve; its `replicas` are still the previous map), the map `next` and
the background tasks started so far. -/
structure UpdateState where
  rtr : Router
  next : List (Journal × Nat)
  spawned : List Spawned

/-- Allocation of a replica value at the first free address. -/
def Router.alloc (rtr : Router) (v : replica) : Nat × Router :=
  (rtr.brk, { rtr with heap := Function.update rtr.heap rtr.brk v, brk := rtr.brk + 1 })

/-- Lines 306-310: `r, ok = prev[name]`; a missing replica is built by `newReplica` and
its store watcher is started. -/
def obtainReplica (prev : List (Journal × Nat)) (st : UpdateState) (name : Journal) :
    Nat × UpdateState :=
  match mapGet prev name with
  | some p => (p, st)
  | none =>
    let (p, rtr1) := st.rtr.alloc (newReplica st.rtr.nextCtx)
    (p, { st with rtr := { rtr1 with nextCtx := rtr1.nextCtx + 1 },
                  spawned := st.spawned ++ [.watchStores name p] })

/-- Lines 315-328: transition if the item, the local assignment or the route have changed.
The clone is a new allocation holding a copy of `*r` with the three fields replaced. -/
def transition (st : UpdateState) (r : Nat) (la : LocalItem) (assignment : KeyValue Assignment)
    (route : Route) (routeChanged : Bool) : Nat × UpdateState :=
  if (st.rtr.heap r).journal.Raw.ModRevision ≠ la.Item.Raw.ModRevision ∨
      (st.rtr.heap r).assignment.Raw.ModRevision ≠ assignment.Raw.ModRevision ∨
      routeChanged = true then
    let (clone, rtr1) := st.rtr.alloc (st.rtr.heap r)
    let updated : replica :=
      { (rtr1.heap clone) with
        journal := la.Item,
        assignment := assignment,
        route := route.Copy.AttachEndpoints rtr1.ks }
    let rtr2 := { rtr1 with heap := Function.update rtr1.heap clone updated }
    (clone, { st with rtr := rtr2 })
  else
    (r, st)

/-- Lines 330-338: when the route changed and the replica is primary, an empty write is
issued over the loopback connection; a failure to obtain the connection is only logged. -/
def nudge (st : UpdateState) (r : Nat) (name : Journal) (routeChanged : Bool)
    (urlHost : Endpoint → String) (grpcDial : String → Except Error ClientConn) : UpdateState :=
  if routeChanged && (st.rtr.heap r).isPrimary then
    match st.rtr.peerConn st.rtr.id urlHost grpcDial with
    | (.ok conn, rtr1) => { st with rtr := rtr1, spawned := st.spawned ++ [.issueEmptyWrite conn name] }
    | (.error _, rtr1) => { st with rtr := rtr1 }
  else
    st

/-- The body of the loop of `UpdateLocalItems` for one local item; `none` is the panic of
`la.Assignments[la.Index]` out of range. -/
def updateItem (prev : List (Journal × Nat)) (urlHost : Endpoint → String)
    (grpcDial : String → Except Error ClientConn) (st : UpdateState) (la : LocalItem) :
    Option UpdateState :=
  let name := la.Item.Decoded.ID
  match indexAt la.Assignments la.Index with
  | none => none
  | some assignment =>
    let route := Route.Init la.Assignments
    let (r, st1) := obtainReplica prev st name
    let routeChanged := !((st1.rtr.heap r).route.Equivalent route)
    let (r2, st2) := transition st1 r la assignment route routeChanged
    let st3 := nudge st2 r2 name routeChanged urlHost grpcDial
    some { st3 with next := mapSet st3.next name r2 }

/-- The loop `for _, la := range items`. -/
def updateItems (prev : List (Journal × Nat)) (urlHost : Endpoint → String)
    (grpcDial : String → Except Error ClientConn) :
    List LocalItem → UpdateState → Option UpdateState
  | [], st => some st
  | la :: rest, st =>
    match updateItem prev urlHost grpcDial st la with
    | none => none
    | some st1 => updateItems prev urlHost grpcDial rest st1

/-- The loop `for name, journal := range prev` that cancels the prior replicas not
included in `next`. -/
def cancelRemoved (heap : Nat → replica) (next : List (Journal × Nat)) :
    List (Journal × Nat) → List Nat → List Nat
  | [], cancelled => cancelled
  | (name, p) :: rest, cancelled =>
    if (mapGet next name).isNone then
      cancelRemoved heap next rest ((heap p).ctx :: cancelled)
    else
      cancelRemoved heap next rest cancelled

/-- Embedding of `Router.UpdateLocalItems`: the router after the call and the background
tasks it started, or `none` when the Go code panics. -/
def Router.UpdateLocalItems (rtr : Router) (items : List LocalItem)
    (urlHost : Endpoint → String) (grpcDial : String → Except Error ClientConn) :
    Option (Router × List Spawned) :=
  let prev := rtr.replicas
  match updateItems prev urlHost grpcDial items { rtr := rtr, next := [], spawned := [] } with
  | none => none
  | some st =>
    -- Swap out the replicas map, then cancel the prior replicas that are gone.
    let rtr1 := { st.rtr with replicas := st.next }
    some ({ rtr1 with cancelled := cancelRemoved rtr1.heap st.next prev rtr1.cancelled },
          st.spawned)

/-- Every address stored in the replica map has been allocated: Go pointers point at
replicas that exist. -/
def Router.WF (rtr : Router) : Prop :=
  ∀ e ∈ rtr.replicas, e.2 < rtr.brk

/-- Router `b` extends router `a`: the same key space, identity, replica map and cancelled
contexts, and a heap that agrees with that of `a` on every address allocated in `a`. -/
def Router.Extends (a b : Router) : Prop :=
  a.brk ≤ b.brk ∧ (∀ p, p < a.brk → b.heap p = a.heap p) ∧ b.ks = a.ks ∧ b.id = a.id ∧
    b.replicas = a.replicas ∧ b.cancelled = a.cancelled

/-- The transition test of `UpdateLocalItems` (lines 315-317) fails: the Item's
ModRevision, the local Assignment's ModRevision and the Route (up to equivalence) are
those of the replica. -/
def replica.Unchanged (r : replica) (la : LocalItem) (assignment : KeyValue Assignment) :
    Prop :=
  r.journal.Raw.ModRevision = la.Item.Raw.ModRevision ∧
  r.assignment.Raw.ModRevision = assignment.Raw.ModRevision ∧
  r.route.Equivalent (Route.Init la.Assignments) = true

/-- The value of the copy that a transition stores: the replica with the journal, the
assignment and the route replaced by the new ones, endpoints attached. -/
def replica.transitioned (r : replica) (la : LocalItem) (assignment : KeyValue Assignment)
    (ks : KeySpace) : replica :=
  { r with
    journal := la.Item,
    assignment := assignment,
    route := (Route.Init la.Assignments).AttachEndpoints ks }

/-- The cancellation contexts of the replica map are in order: replicas of different
journals have different contexts, and every context in use was handed out before
`nextCtx`. -/
def Router.ContextsWF (rtr : Router) : Prop :=
  (∀ e1 ∈ rtr.replicas, ∀ e2 ∈ rtr.replicas,
    (rtr.heap e1.2).ctx = (rtr.heap e2.2).ctx → e1.1 = e2.1) ∧
  (∀ e ∈ rtr.replicas, (rtr.heap e.2).ctx < rtr.nextCtx)

/-- The contexts that the call cancels: those of the entries of the previous map whose
journal is absent from the new map. -/
def cancelledByCall (rtr rtr' : Router) (c : Nat) : Prop :=
  ∃ e ∈ rtr.replicas, mapGet rtr'.replicas e.1 = none ∧ (rtr.heap e.2).ctx = c

/-- Invariant of the loop of `UpdateLocalItems` started on router `rtr0`, after the local
items `seen`: the heap only grew, `next` has one allocated entry per journal seen, and the
context of each entry is that of the journal's previous replica, or a new one when the
journal had none. -/
def UpdateState.Inv (rtr0 : Router) (seen : List LocalItem) (st : UpdateState) : Prop :=
  rtr0.Extends st.rtr ∧ rtr0.nextCtx ≤ st.rtr.nextCtx ∧
  (st.next.map Prod.fst).Nodup ∧
  (∀ e ∈ st.next, e.2 < st.rtr.brk ∧
    (∃ la ∈ seen, la.Item.Decoded.ID = e.1) ∧
    ((∃ p, mapGet rtr0.replicas e.1 = some p ∧
        (st.rtr.heap e.2).ctx = (rtr0.heap p).ctx) ∨
      (mapGet rtr0.replicas e.1 = none ∧ rtr0.nextCtx ≤ (st.rtr.heap e.2).ctx))) ∧
  (∀ la ∈ seen, ∃ q, mapGet st.next la.Item.Decoded.ID = some q)

/-! ## The left-join iterator (`pkg/v3.allocator`) -/

/-- Cursor `cursor` of the left-join: a left index and the range of right indices joined
to it. -/
structure cursor where
  left : Nat
  rightBegin : Nat
  rightEnd : Nat
deriving DecidableEq, Repr

/-- Left-join iterator `leftJoin`: the lengths of both sides, the comparator of a left with
a right index, and the embedded cursor (the state of the iteration). -/
structure leftJoin where
  lenL : Nat
  lenR : Nat
  compare : Nat → Nat → Int
  cur : cursor

/-- A right index stepped forward from `i`, at most `fuel` times, while it is not `lenR`
and `p` holds of it. -/
def stepWhile (p : Nat → Bool) (lenR : Nat) : Nat → Nat → Nat
  | 0, i => i
  | fuel + 1, i => if i != lenR && p i then stepWhile p lenR fuel (i + 1) else i

/-- Modelled from the spec: `leftJoin.next` is not among the sources, only its test
`TestLeftJoin` is.  For the current left index `l` the iterator steps `rightBegin` forward
while `compare(l, rightBegin) > 0`, lets `rightEnd` be at least `rightBegin` and steps it
forward while `compare(l, rightEnd) == 0`, so that `[rightBegin, rightEnd)` is the maximal
range of right indices with `compare(l, r) == 0`; it returns that cursor and moves on to
the next left index.  Past the last left index it returns `ok = false` (`none`). -/
def leftJoin.next (j : leftJoin) : Option cursor × leftJoin :=
  if j.lenL ≤ j.cur.left then
    (none, j)
  else
    let l := j.cur.left
    let rightBegin := stepWhile (fun r => decide (j.compare l r > 0)) j.lenR
      (j.lenR - j.cur.rightBegin) j.cur.rightBegin
    let rightEnd0 := if j.cur.rightEnd < rightBegin then rightBegin else j.cur.rightEnd
    let rightEnd := stepWhile (fun r => decide (j.compare l r = 0)) j.lenR
      (j.lenR - rightEnd0) rightEnd0
    (some { left := l, rightBegin := rightBegin, rightEnd := rightEnd },
     { j with cur := { left := l + 1, rightBegin := rightBegin, rightEnd := rightEnd } })

/-- Calls of `next` until it reports exhaustion, at most `fuel` of them: the cursors
returned, in order, and the iterator as the last call leaves it. -/
def leftJoin.drain : Nat → leftJoin → List cursor × leftJoin
  | 0, j => ([], j)
  | fuel + 1, j =>
    match j.next with
    | (none, j1) => ([], j1)
    | (some c, j1) => ((c :: (leftJoin.drain fuel j1).1), (leftJoin.drain fuel j1).2)

/-- A new iterator `leftJoin{lenL: lenL, lenR: lenR, compare: compare}`. -/
def newLeftJoin (lenL lenR : Nat) (compare : Nat → Nat → Int) : leftJoin :=
  { lenL := lenL, lenR := lenR, compare := compare,
    cur := { left := 0, rightBegin := 0, rightEnd := 0 } }

/-- Three-way comparison of two integers, as -1, 0 or 1. -/
def compareInt (a b : Int) : Int :=
  if a < b then -1 else if a = b then 0 else 1

/-- The integer portions of the list `L1` of `TestLeftJoin`. -/
def testLeftJoinL1 : List Int := [1, 1, 3, 4, 4, 5, 7, 9, 9]

/-- The integer portions of the list `L2` of `TestLeftJoin`. -/
def testLeftJoinL2 : List Int := [1, 4, 4, 4, 5, 5, 6, 6, 7]

/-- The comparator of `TestLeftJoin`: it compares the integer portions of `L1[l]` and
`L2[r]`. -/
def testLeftJoinCompare (l r : Nat) : Int :=
  compareInt (testLeftJoinL1.getD l 0) (testLeftJoinL2.getD r 0)

/-- The comparator is monotone on the index ranges: it does not decrease along the left
indices and does not increase along the right indices, as the comparator of two sorted
lists is. -/
def MonotoneCompare (lenL lenR : Nat) (compare : Nat → Nat → Int) : Prop :=
  (∀ l l' r, l ≤ l' → l' < lenL → r < lenR → 0 < compare l r → 0 < compare l' r) ∧
  (∀ l l' r, l ≤ l' → l' < lenL → r < lenR → 0 ≤ compare l r → 0 ≤ compare l' r) ∧
  (∀ l r r', r ≤ r' → r' < lenR → l < lenL → compare l r ≤ 0 → compare l r' ≤ 0) ∧
  (∀ l r r', r ≤ r' → r' < lenR → l < lenL → compare l r < 0 → compare l r' < 0)

/-- Invariant of the iterator between two calls of `next`: the right range is well formed,
every right index before `rightBegin` orders before all remaining left indices, and no
right index before `rightEnd` orders after any of them. -/
def leftJoin.Inv (j : leftJoin) : Prop :=
  j.cur.rightBegin ≤ j.cur.rightEnd ∧ j.cur.rightEnd ≤ j.lenR ∧
  (∀ r, r < j.cur.rightBegin → ∀ l, j.cur.left ≤ l → l < j.lenL → 0 < j.compare l r) ∧
  (∀ r, r < j.cur.rightEnd → ∀ l, j.cur.left ≤ l → l < j.lenL → 0 ≤ j.compare l r)

/-- The law of one cursor: `rightBegin ≤ rightEnd ≤ lenR`, and the right indices that
compare equal to the cursor's left index are exactly those of `[rightBegin, rightEnd)`. -/
def cursor.Joins (c : cursor) (lenR : Nat) (compare : Nat → Nat → Int) : Prop :=
  c.rightBegin ≤ c.rightEnd ∧ c.rightEnd ≤ lenR ∧
  ∀ r, r < lenR → (compare c.left r = 0 ↔ c.rightBegin ≤ r ∧ r < c.rightEnd)

/-! ## Assignment order (`compareAssignment`) -/

/-- Three-way comparison of two character strings in byte order, as -1, 0 or 1. -/
def compareChars : List Char → List Char → Int
  | [], [] => 0
  | [], _ :: _ => -1
  | _ :: _, [] => 1
  | a :: as, b :: bs =>
    if a.toNat < b.toNat then -1
    else if b.toNat < a.toNat then 1
    else compareChars as bs

/-- Three-way comparison of two strings in byte order, the order of Etcd keys and of Go's
string comparison. -/
def compareString (a b : String) : Int :=
  compareChars a.data b.data

/-- Modelled from the spec: `compareAssignment` is not among the sources, only its test
`TestAssignmentCompare` is.  It is the three-way lexicographic comparison of
`(ItemID, MemberZone, MemberSuffix)`; the slot and the assignment value do not take part. -/
def compareAssignment (l r : Assignment) : Int :=
  if compareString l.ItemID r.ItemID ≠ 0 then compareString l.ItemID r.ItemID
  else if compareString l.MemberZone r.MemberZone ≠ 0 then
    compareString l.MemberZone r.MemberZone
  else compareString l.MemberSuffix r.MemberSuffix

/-- Modelled from the spec: `v3_allocator.AssignmentKey` is not among the sources; an
assignment is keyed `<root>/assign/<item>/<zone>/<suffix>/<slot>`, as the keys of the
allocator test fixture show. -/
def AssignmentKey (ks : KeySpace) (a : Assignment) : String :=
  ks.Root ++ "/assign/" ++ a.ItemID ++ "/" ++ a.MemberZone ++ "/" ++ a.MemberSuffix ++ "/" ++
    toString a.Slot

/-- The pairs of key fields on which the separator `/` of the key does not disturb the
order: when one field is a proper prefix of the other, the byte that continues the longer
one is above `/` (0x2F), so not `-` or `.`.  Fields of which neither is a proper prefix of
the other are always safe. -/
def separatorSafe : List Char → List Char → Bool
  | [], [] => true
  | [], c :: _ => decide ('/'.toNat < c.toNat)
  | c :: _, [] => decide ('/'.toNat < c.toNat)
  | a :: as, b :: bs => if a = b then separatorSafe as bs else true

/-! ## Request parsing of the HTTP gateway -/

/-- HTTP request `*http.Request`, as far as the gateway reads it: the method, the URL path
and the raw query. -/
structure Request where
  Method : String
  Path : String
  RawQuery : String
deriving DecidableEq, Repr

/-- Append request `pb.AppendRequest`: the metadata frame names the journal, the following
frames carry content only. -/
structure AppendRequest where
  Journal : Journal
  Content : String
deriving DecidableEq, Repr

/-- The Go slice expression `s[1:]` on a string: it panics (`none`) when the string is
empty.  Go drops the first byte; the model drops the first character, which is the same on
every path whose first character is a single byte, as the leading `/` of a URL path is. -/
def sliceFrom1 (s : String) : Option String :=
  match s.data with
  | [] => none
  | _ :: rest => some ⟨rest⟩

/-- Embedding of `HTTPAPI.parseAppendRequest`.  `decode` is `r.ParseForm()` followed by
`h.decoder.Decode(&schema, r.Form)` on the empty schema, `validate` is `req.Validate`.
The result is `none` when the Go code panics. -/
def parseAppendRequest (decode : Request → Option Error)
    (validate : AppendRequest → Option Error) (r : Request) :
    Option (AppendRequest × Option Error) :=
  let err := decode r
  match sliceFrom1 r.Path with
  | none => none
  | some journal =>
    let req : AppendRequest := { Journal := journal, Content := "" }
    let err := match err with
      | none => validate req
      | some e => some e
    some (req, err)

/-- Embedding of `HTTPAPI.parseReadRequest`.  `decode` is `r.ParseForm()` followed by
`h.decoder.Decode(&schema, r.Form)`: it gives the decoded `Offset` and `Block` and the
error, if any; `validate` is `req.Validate`.  The result is `none` when the Go code
panics. -/
def parseReadRequest (decode : Request → (Int × Bool) × Option Error)
    (validate : ReadRequest → Option Error) (r : Request) :
    Option (ReadRequest × Option Error) :=
  let (schema, err) := decode r
  match sliceFrom1 r.Path with
  | none => none
  | some journal =>
    let req : ReadRequest :=
      { Journal := journal, Offset := schema.1, Block := schema.2, DoNotProxy := false,
        MetadataOnly := r.Method == "HEAD" }
    let err := match err with
      | none => validate req
      | some e => some e
    some (req, err)

/-! ## Runs of the route-scoped dialer -/

/-- The method `lru.Cache.Peek`: the value cached for the key, if any, without a change of
the cache. -/
def Cache.Peek (c : Cache) (key : BrokerSpec_ID) : Option ClientConn :=
  (c.entries.find? (fun e => e.1 == key)).map Prod.snd

/-- A transport that allocates connections: a dial of `host` fails with `fails host`, or
succeeds with the connection of handle `n`, a handle that no earlier dial returned. -/
def freshDial (fails : String → Option Error) (n : Nat) : String → Except Error ClientConn :=
  fun host =>
    match fails host with
    | some err => .error err
    | none => .ok n

/-- One call `d.dial(ctx, id, route)`, with the dial failures of its moment. -/
structure DialCall where
  id : BrokerSpec_ID
  route : Route
  fails : String → Option Error

/-- A sequence of calls of `dialer.dial` on a transport that allocates connections, `n`
being the next free handle: the identity and the result of each call, in order, and the
dialer after the last call. -/
def dialer.dials (urlHost : Endpoint → String) :
    dialer → Nat → List DialCall →
      List (BrokerSpec_ID × Except Error ClientConn) × dialer
  | d, _, [] => ([], d)
  | d, n, call :: rest =>
    ((call.id, (d.dial call.id call.route urlHost (freshDial call.fails n)).1) ::
        (dialer.dials urlHost (d.dial call.id call.route urlHost (freshDial call.fails n)).2
          (n + 1) rest).1,
      (dialer.dials urlHost (d.dial call.id call.route urlHost (freshDial call.fails n)).2
        (n + 1) rest).2)

/-! ## The HTTP handlers (`HTTPAPI.serveRead`, `HTTPAPI.serveWrite`) -/

/-- What a peer does with an Append stream opened by the gateway
(`pb.Broker_AppendClient`): the error of opening the stream, the error of `SendMsg` of the
metadata frame, the error of the n-th `Send` of a content frame, and the outcome of
`CloseAndRecv`. -/
structure PeerAppend where
  openErr : Option Error
  sendMsgErr : Option Error
  sendErr : Nat → Option Error
  closeAndRecv : Except Error AppendResponse

/-- One result of `r.Body.Read(buffer)`: bytes with a nil error, bytes with `io.EOF`, or
another error. -/
inductive BodyRead where
  | chunk (content : String)
  | eof (content : String)
  | fail (err : Error)
deriving DecidableEq, Repr

/-- The step `req.Content = buffer[:n]; client.Send(req)` of the loop of `serveWrite`, for
the `k`-th content frame: a failure is written as status 500. -/
def sendChunk (errText : Error → String) (client : PeerAppend) (k : Nat)
    (w : ResponseWriter) : Option Error × ResponseWriter :=
  match client.sendErr k with
  | some err => (some err, httpError w (errText err) 500)
  | none => (none, w)

/-- The loop of `serveWrite` that proxies content chunks (lines 138-150), on the reads
that the body still delivers, `k` content frames having been sent; a body that delivers
nothing more reads as `io.EOF`.  Returns `err` and the writer. -/
def proxyChunks (errText : Error → String) (client : PeerAppend) :
    List BodyRead → Nat → ResponseWriter → Option Error × ResponseWriter
  | [], k, w => sendChunk errText client k w
  | .eof _ :: _, k, w => sendChunk errText client k w
  | .fail err :: _, _, w => (some err, httpError w (errText err) 400)
  | .chunk _ :: rest, k, w =>
    match sendChunk errText client k w with
    | (some err, w1) => (some err, w1)
    | (none, w1) => proxyChunks errText client rest (k + 1) w1

/-- The first stage of `serveWrite` and `serveRead` (lines 126-131 and 68-72): the peer
connection is obtained and, on success, `start` opens the stream and sends or receives
the first message; the error of the first step that fails is kept. -/
def firstStage {α : Type} (rtr : Router) (broker : BrokerSpec_ID)
    (urlHost : Endpoint → String) (grpcDial : String → Except Error ClientConn)
    (start : ClientConn → Except Error α) : Except Error α × Router :=
  match rtr.peerConn broker urlHost grpcDial with
  | (.error err, rtr1) => (.error err, rtr1)
  | (.ok conn, rtr1) => (start conn, rtr1)

/-- Opening the Append stream and sending the metadata frame (lines 127-130). -/
def startAppend (peerAppend : ClientConn → PeerAppend) (conn : ClientConn) :
    Except Error PeerAppend :=
  match (peerAppend conn).openErr with
  | some err => .error err
  | none =>
    match (peerAppend conn).sendMsgErr with
    | some err => .error err
    | none => .ok (peerAppend conn)

/-- Embedding of `HTTPAPI.serveWrite`.  `decode` and `validate` are those of
`parseAppendRequest`, `errText` is `err.Error()`, `compactText` is
`proto.CompactTextString`, `peerAppend` is the peer's side of the Append stream and `body`
are the reads of the request body.  Returns the response writer and the router, or `none`
when the Go code panics. -/
def serveWrite (rtr : Router) (decode : Request → Option Error)
    (validate : AppendRequest → Option Error) (errText : Error → String)
    (compactText : Route → String) (rnd : Nat)
    (urlHost : Endpoint → String) (grpcDial : String → Except Error ClientConn)
    (peerAppend : ClientConn → PeerAppend)
    (w : ResponseWriter) (r : Request) (body : List BodyRead) :
    Option (ResponseWriter × Router) :=
  match parseAppendRequest decode validate r with
  | none => none
  | some (_, some err) => some (httpError w (errText err) 400, rtr)
  | some (req, none) =>
    match rtr.resolve req.Journal true true rnd with
    | none => none
    | some (resolution, status) =>
      if status ≠ Status.OK then
        some (writeAppendResponse compactText w
          { Status := status, Route := none, FirstOffset := 0, LastOffset := 0,
            WriteHead := 0 }, rtr)
      else
        match firstStage rtr resolution.broker urlHost grpcDial (startAppend peerAppend) with
        | (.error _, rtr1) =>
          -- The loop and CloseAndRecv are skipped; `if err != nil { ...; return }`.
          some (w, rtr1)
        | (.ok client, rtr1) =>
          match proxyChunks errText client body 0 w with
          | (some _, w1) => some (w1, rtr1)
          | (none, w1) =>
            match client.closeAndRecv with
            | .error err => some (httpError w1 (errText err) 500, rtr1)
            | .ok resp => some (writeAppendResponse compactText w1 resp, rtr1)

/-- Opening the Read stream and receiving the first response (lines 69-71); a stream that
ends before the first response gives the error `io.EOF`. -/
def startRead (peerRead : ClientConn → ReadRequest → PeerRead) (req : ReadRequest)
    (conn : ClientConn) : Except Error ReadResponse :=
  match (peerRead conn req).openErr with
  | some err => .error err
  | none =>
    match (peerRead conn req).responses with
    | resp :: _ => .ok resp
    | [] =>
      match (peerRead conn req).finalErr with
      | some err => .error err
      | none => .error (.external "EOF")

/-- Embedding of `HTTPAPI.serveRead` up to its forwarding loop (lines 44-82): the request
is parsed and resolved, the first response of the peer is awaited and the response header
is written.  Returns the response writer and the router, or `none` when the Go code
panics. -/
def serveReadHead (rtr : Router) (decode : Request → (Int × Bool) × Option Error)
    (validate : ReadRequest → Option Error) (errText : Error → String)
    (compactText : Route → String) (formatTime : Int → String) (rnd : Nat)
    (urlHost : Endpoint → String) (grpcDial : String → Except Error ClientConn)
    (peerRead : ClientConn → ReadRequest → PeerRead)
    (w : ResponseWriter) (r : Request) : Option (ResponseWriter × Router) :=
  match parseReadRequest decode validate r with
  | none => none
  | some (_, some err) => some (httpError w (errText err) 400, rtr)
  | some (req, none) =>
    match rtr.resolve req.Journal false true rnd with
    | none => none
    | some (resolution, status) =>
      if status ≠ Status.OK then
        some (writeReadResponse compactText formatTime w
          { Status := status, Route := none, WriteHead := 0, Fragment := none,
            FragmentUrl := "", Content := "" }, rtr)
      else
        match firstStage rtr resolution.broker urlHost grpcDial (startRead peerRead req) with
        | (.error err, rtr1) => some (httpError w (errText err) 500, rtr1)
        | (.ok resp, rtr1) => some (writeReadResponse compactText formatTime w resp, rtr1)

/-- A PUT of `/item-two`, whose primary `us-east/bar` the fixture router proxies to. -/
def fixturePut : Request :=
  { Method := "PUT", Path := "/item-two", RawQuery := "" }

/-- A GET of `/item-two`. -/
def fixtureGet : Request :=
  { Method := "GET", Path := "/item-two", RawQuery := "" }

/-- A peer that accepts an Append and answers OK. -/
def fixturePeerAppend : ClientConn → PeerAppend :=
  fun _ =>
    { openErr := none, sendMsgErr := none, sendErr := fun _ => none,
      closeAndRecv := .ok { Status := Status.OK, Route := none, FirstOffset := 0,
                            LastOffset := 5, WriteHead := 5 } }

/-- The error text `err.Error()` of the fixture. -/
def fixtureErrText : Error → String
  | .external msg => msg
  | .noBrokerSpecFound _ => "no BrokerSpec found"
  | .noSuchBrokerInRoute _ _ => "no such Broker in Route"
  | .missingRouteEndpoints _ _ => "missing Route Endpoints"

/-! ## Fixtures -/

/-- The key space of the allocator test fixture (`buildAllocKeySpaceFixture`, as decoded in
`TestAllocKeySpaceDecoding`), the member values being broker specifications. -/
def fixtureKeySpace : KeySpace :=
  { Root := "/root",
    Items :=
      [ { Raw := { Key := "/root/items/item-1", ModRevision := 3 }, Decoded := { ID := "item-1" } },
        { Raw := { Key := "/root/items/item-two", ModRevision := 4 },
          Decoded := { ID := "item-two" } } ],
    Members :=
      [ { Raw := { Key := "/root/members/us-east/bar", ModRevision := 5 },
          Decoded := { Zone := "us-east", Suffix := "bar",
                       MemberValue := { Endpoint := "http://bar.us-east:8080/path" } } },
        { Raw := { Key := "/root/members/us-east/foo", ModRevision := 6 },
          Decoded := { Zone := "us-east", Suffix := "foo",
                       MemberValue := { Endpoint := "http://foo.us-east:8080/path" } } },
        { Raw := { Key := "/root/members/us-west/baz", ModRevision := 7 },
          Decoded := { Zone := "us-west", Suffix := "baz",
                       MemberValue := { Endpoint := "http://baz.us-west:8080/path" } } } ],
    Assignments :=
      [ { Raw := { Key := "/root/assign/item-1/us-east/foo/1", ModRevision := 8 },
          Decoded := { ItemID := "item-1", MemberZone := "us-east", MemberSuffix := "foo",
                       Slot := 1 } },
        { Raw := { Key := "/root/assign/item-1/us-west/baz/0", ModRevision := 9 },
          Decoded := { ItemID := "item-1", MemberZone := "us-west", MemberSuffix := "baz",
                       Slot := 0 } },
        { Raw := { Key := "/root/assign/item-missing/us-west/baz/0", ModRevision := 10 },
          Decoded := { ItemID := "item-missing", MemberZone := "us-west",
                       MemberSuffix := "baz", Slot := 0 } },
        { Raw := { Key := "/root/assign/item-two/missing/member/2", ModRevision := 11 },
          Decoded := { ItemID := "item-two", MemberZone := "missing",
                       MemberSuffix := "member", Slot := 2 } },
        { Raw := { Key := "/root/assign/item-two/us-east/bar/0", ModRevision := 12 },
          Decoded := { ItemID := "item-two", MemberZone := "us-east", MemberSuffix := "bar",
                       Slot := 0 } },
        { Raw := { Key := "/root/assign/item-two/us-west/baz/1", ModRevision := 13 },
          Decoded := { ItemID := "item-two", MemberZone := "us-west", MemberSuffix := "baz",
                       Slot := 1 } } ] }

/-- The route of `item-1` in the fixture: `us-east/foo` (slot 1) and `us-west/baz`
(slot 0, the primary), with endpoints attached. -/
def fixtureRoute : Route :=
  { Brokers := [{ Zone := "us-east", Suffix := "foo" }, { Zone := "us-west", Suffix := "baz" }],
    Primary := 1,
    Endpoints := ["http://foo.us-east:8080/path", "http://baz.us-west:8080/path"] }

/-- The replica of `item-1` held by broker `us-east/foo`. -/
def fixtureReplica : replica :=
  { journal := { Raw := { Key := "/root/items/item-1", ModRevision := 3 },
                 Decoded := { ID := "item-1" } },
    assignment := { Raw := { Key := "/root/assign/item-1/us-east/foo/1", ModRevision := 8 },
                    Decoded := { ItemID := "item-1", MemberZone := "us-east",
                                 MemberSuffix := "foo", Slot := 1 } },
    route := fixtureRoute,
    ctx := 0 }

/-- Broker `us-east/foo` over the fixture key space, holding the replica of `item-1` at
address 0. -/
def fixtureRouter : Router :=
  { ks := fixtureKeySpace,
    id := { Zone := "us-east", Suffix := "foo" },
    connCache := lruNew 1024,
    replicas := [("item-1", 0)],
    heap := fun _ => fixtureReplica,
    brk := 1,
    cancelled := [],
    nextCtx := 1 }

/-- A Read stream on which nothing was sent yet and every `Send` succeeds. -/
def fixtureReadServer : ReadServer :=
  { sent := [], sendErr := fun _ => none }

/-- A peer that ends a proxied Read at once. -/
def fixturePeerRead : ClientConn → ReadRequest → PeerRead :=
  fun _ _ => { openErr := none, closeSendErr := none, responses := [], finalErr := none }

/-- A transport on which every dial fails. -/
def fixtureDialFails : String → Except Error ClientConn :=
  fun host => .error (.external host)

/-- A transport on which every dial yields connection 9. -/
def fixtureDial : String → Except Error ClientConn :=
  fun _ => .ok 9

/-- A Read of `item-missing`, which has an assignment but no Item in the fixture. -/
def fixtureReadMissing : ReadRequest :=
  { Journal := "item-missing", Offset := 0, Block := false, DoNotProxy := false,
    MetadataOnly := false }

/-- The router of the fixture, long enough in service to hold a cached connection to the
broker `us-west/gone`, whose member entry has since left the key space. -/
def fixtureStaleRouter : Router :=
  { fixtureRouter with
    connCache := { size := 1024, entries := [({ Zone := "us-west", Suffix := "gone" }, 7)],
                   onEvicted := none, closed := [] } }

/-- The route of `TestDialer`. -/
def testDialerRoute : Route :=
  { Brokers := [{ Zone := "zone-a", Suffix := "member-1" }, { Zone := "zone-b", Suffix := "member-2" }],
    Primary := 0,
    Endpoints := ["http://peer1:8080/path", "http://peer2:8080/path"] }

/-- The dialer of `TestDialer` (`newDialer(8)`) once both peers were dialed. -/
def testDialer : dialer :=
  { cache := { (newDialer 8).cache with
      entries := [({ Zone := "zone-a", Suffix := "member-1" }, 1),
                  ({ Zone := "zone-b", Suffix := "member-2" }, 2)] } }

/-- Local items handed to broker `us-east/foo` after a primary handover of `item-1` (its
assignment now has slot 0) and a new assignment of `item-two`. -/
def fixtureLocalItems : List LocalItem :=
  [ { Item := { Raw := { Key := "/root/items/item-1", ModRevision := 3 },
                Decoded := { ID := "item-1" } },
      Assignments :=
        [ { Raw := { Key := "/root/assign/item-1/us-east/foo/0", ModRevision := 14 },
            Decoded := { ItemID := "item-1", MemberZone := "us-east", MemberSuffix := "foo",
                         Slot := 0 } },
          { Raw := { Key := "/root/assign/item-1/us-west/baz/1", ModRevision := 15 },
            Decoded := { ItemID := "item-1", MemberZone := "us-west", MemberSuffix := "baz",
                         Slot := 1 } } ],
      Index := 0 },
    { Item := { Raw := { Key := "/root/items/item-two", ModRevision := 4 },
                Decoded := { ID := "item-two" } },
      Assignments :=
        [ { Raw := { Key := "/root/assign/item-two/us-east/bar/0", ModRevision := 12 },
            Decoded := { ItemID := "item-two", MemberZone := "us-east", MemberSuffix := "bar",
                         Slot := 0 } },
          { Raw := { Key := "/root/assign/item-two/us-east/foo/1", ModRevision := 16 },
            Decoded := { ItemID := "item-two", MemberZone := "us-east", MemberSuffix := "foo",
                         Slot := 1 } } ],
      Index := 1 } ]

/-- The calls of `TestDialer` that succeed: the first peer, the second peer, and the first
peer again. -/
def testDialerCalls : List DialCall :=
  [ { id := { Zone := "zone-a", Suffix := "member-1" }, route := testDialerRoute,
      fails := fun _ => none },
    { id := { Zone := "zone-b", Suffix := "member-2" }, route := testDialerRoute,
      fails := fun _ => none },
    { id := { Zone := "zone-a", Suffix := "member-1" }, route := testDialerRoute,
      fails := fun _ => none } ]

/-! ## The resolver, case by case -/

theorem resolve_not_found (rtr : Router) (journal : Journal) (rp mp : Bool) (rnd : Nat)
    (h : (rtr.lookup journal).2 = false) :
    rtr.resolve journal rp mp rnd = some ((rtr.lookup journal).1, Status.JOURNAL_NOT_FOUND) := by
  simp [Router.resolve, h]

theorem resolve_no_primary (rtr : Router) (journal : Journal) (rp mp : Bool) (rnd : Nat)
    (h : (rtr.lookup journal).2 = true) (hrp : rp = true)
    (hp : (rtr.lookup journal).1.route.Primary = -1) :
    rtr.resolve journal rp mp rnd =
      some ((rtr.lookup journal).1, Status.NO_JOURNAL_PRIMARY_BROKER) := by
  simp [Router.resolve, h, hrp, hp]

theorem resolve_no_brokers (rtr : Router) (journal : Journal) (rp mp : Bool) (rnd : Nat)
    (h : (rtr.lookup journal).2 = true)
    (hp : ¬ (rp = true ∧ (rtr.lookup journal).1.route.Primary = -1))
    (hb : (rtr.lookup journal).1.route.Brokers = []) :
    rtr.resolve journal rp mp rnd =
      some ((rtr.lookup journal).1, Status.NO_JOURNAL_BROKERS) := by
  simp only [not_and] at hp
  simp [Router.resolve, h, hb]
  intro h1 h2
  exact absurd h2 (hp h1)

/-- The resolver once the journal-found, primary and non-empty-brokers checks passed. -/
theorem resolve_passed (rtr : Router) (journal : Journal) (rp mp : Bool) (rnd : Nat)
    (h : (rtr.lookup journal).2 = true)
    (hp : ¬ (rp = true ∧ (rtr.lookup journal).1.route.Primary = -1))
    (hb : (rtr.lookup journal).1.route.Brokers ≠ []) :
    rtr.resolve journal rp mp rnd =
      if rtr.localSatisfies (rtr.lookup journal).1 rp then
        some ((rtr.lookup journal).1, Status.OK)
      else if mp = false then
        some ({ (rtr.lookup journal).1 with replica := none, broker := zeroID },
          if rp then Status.NOT_JOURNAL_PRIMARY_BROKER else Status.NOT_JOURNAL_BROKER)
      else if rp then
        (brokerAt (rtr.lookup journal).1.route).map (fun b =>
          ({ (rtr.lookup journal).1 with replica := none, broker := b }, Status.OK))
      else
        ((rtr.lookup journal).1.route.RandomReplica rtr.id.Zone rnd).map (fun b =>
          ({ (rtr.lookup journal).1 with replica := none, broker := b }, Status.OK)) := by
  simp only [not_and] at hp
  have hp2 : (rp && decide ((rtr.lookup journal).1.route.Primary = -1)) = false := by
    cases rp <;> simp_all
  have hb2 : ((rtr.lookup journal).1.route.Brokers.length == 0) = false := by
    simp [hb]
  simp only [Router.resolve, h, hp2, hb2]
  cases mp <;> cases rp <;> simp

theorem lookup_local (rtr : Router) (journal : Journal) (p : Nat)
    (h : mapGet rtr.replicas journal = some p) :
    rtr.lookup journal =
      ({ route := (rtr.heap p).route, broker := rtr.id, replica := some p }, true) := by
  simp [Router.lookup, h]

theorem lookup_remote (rtr : Router) (journal : Journal)
    (h : mapGet rtr.replicas journal = none) :
    rtr.lookup journal =
      ({ route := rtr.keyspaceRoute journal, broker := zeroID, replica := none },
        (LookupItem rtr.ks journal).isSome) := by
  simp [Router.lookup, h]

theorem lookup_found_iff (rtr : Router) (journal : Journal) :
    (rtr.lookup journal).2 = false ↔
      mapGet rtr.replicas journal = none ∧ LookupItem rtr.ks journal = none := by
  cases h : mapGet rtr.replicas journal with
  | none => simp [lookup_remote rtr journal h]
  | some p => simp [lookup_local rtr journal p h]

theorem brokerAt_some (m : Route) (b : BrokerSpec_ID) (h : brokerAt m = some b) :
    0 ≤ m.Primary ∧ m.Primary < m.Brokers.length ∧ b ∈ m.Brokers := by
  unfold brokerAt at h
  split at h
  · next h0 =>
    have hlt : m.Primary.toNat < m.Brokers.length := by
      by_contra hc
      rw [List.getElem?_eq_none (by omega)] at h
      exact Option.noConfusion h
    refine ⟨h0, by omega, ?_⟩
    rw [List.getElem?_eq_getElem hlt] at h
    cases h
    exact List.getElem_mem _
  · exact Option.noConfusion h

theorem randomReplica_mem (m : Route) (zone : String) (rnd : Nat) (b : BrokerSpec_ID)
    (h : m.RandomReplica zone rnd = some b) : b ∈ m.Brokers := by
  unfold Route.RandomReplica at h
  split at h
  · exact List.getElem?_mem h
  · next c cs hc =>
    have : b ∈ c :: cs := List.getElem?_mem h
    rw [← hc] at this
    exact (List.mem_filter.mp this).1

/-- C1: whenever `Router.resolve` returns `Status_OK` on a router whose replica route for
the journal satisfies the Route invariant, the returned route has at least one broker, and
either `requirePrimary` is false or the route's `Primary` lies in `[0, len(Brokers))`. -/
theorem resolve_ok_route_invariant (rtr : Router) (journal : Journal)
    (requirePrimary mayProxy : Bool) (rnd : Nat) (res : resolution)
    (hvalid : ∀ p, mapGet rtr.replicas journal = some p → (rtr.heap p).route.Valid)
    (hres : rtr.resolve journal requirePrimary mayProxy rnd = some (res, Status.OK)) :
    0 < res.route.Brokers.length ∧
    (requirePrimary = false ∨
      (0 ≤ res.route.Primary ∧ res.route.Primary < res.route.Brokers.length)) := by
  by_cases hok : (rtr.lookup journal).2 = true
  swap
  · rw [resolve_not_found rtr journal _ _ _ (by simpa using hok)] at hres
    simp at hres
  by_cases hp : requirePrimary = true ∧ (rtr.lookup journal).1.route.Primary = -1
  · rw [resolve_no_primary rtr journal _ _ _ hok hp.1 hp.2] at hres
    simp at hres
  by_cases hb : (rtr.lookup journal).1.route.Brokers = []
  · rw [resolve_no_brokers rtr journal _ _ _ hok hp hb] at hres
    simp at hres
  have hlen : 0 < (rtr.lookup journal).1.route.Brokers.length :=
    List.length_pos.mpr hb
  rw [resolve_passed rtr journal _ _ _ hok hp hb] at hres
  split at hres
  · next hsat =>
    -- served by the local replica
    simp only [Option.some.injEq, Prod.mk.injEq, and_true] at hres
    subst hres
    refine ⟨hlen, ?_⟩
    cases hrp : requirePrimary with
    | false => exact Or.inl rfl
    | true =>
      right
      cases hm : mapGet rtr.replicas journal with
      | none =>
        rw [lookup_remote rtr journal hm] at hsat
        simp [Router.localSatisfies] at hsat
      | some p =>
        have hv := hvalid p hm
        rw [lookup_local rtr journal p hm] at hp ⊢
        simp only [hrp, true_and] at hp
        obtain ⟨h1, h2⟩ := hv
        dsimp only at hp ⊢
        exact ⟨by omega, h2⟩
  · split at hres
    · split at hres <;> simp at hres
    · split at hres
      · next hrp =>
        cases hb : brokerAt (rtr.lookup journal).1.route with
        | none => simp [hb] at hres
        | some b =>
          simp only [hb, Option.map_some', Option.some.injEq, Prod.mk.injEq, and_true] at hres
          subst hres
          obtain ⟨h1, h2, -⟩ := brokerAt_some _ _ hb
          exact ⟨hlen, Or.inr ⟨h1, h2⟩⟩
      · next hrp =>
        cases hb : (rtr.lookup journal).1.route.RandomReplica rtr.id.Zone rnd with
        | none => simp [hb] at hres
        | some b =>
          simp only [hb, Option.map_some', Option.some.injEq, Prod.mk.injEq, and_true] at hres
          subst hres
          exact ⟨hlen, Or.inl (by simpa using hrp)⟩

theorem resolve_ok_route_invariant_witness :
    fixtureRouter.resolve "item-1" false false 0 =
      some ({ route := fixtureRoute, broker := { Zone := "us-east", Suffix := "foo" },
              replica := some 0 }, Status.OK) ∧
    0 < fixtureRoute.Brokers.length ∧
    (false = false ∨ (0 ≤ fixtureRoute.Primary ∧ fixtureRoute.Primary < fixtureRoute.Brokers.length)) :=
  ⟨by decide,
   resolve_ok_route_invariant fixtureRouter "item-1" false false 0
     { route := fixtureRoute, broker := { Zone := "us-east", Suffix := "foo" }, replica := some 0 }
     (fun _ _ => (by decide : fixtureRoute.Valid)) (by decide)⟩

/-- Status of the resolver once the three checks passed: a panic, OK, or one of the two
statuses of a call that may not proxy. -/
theorem resolve_passed_status (rtr : Router) (journal : Journal) (rp mp : Bool) (rnd : Nat)
    (h : (rtr.lookup journal).2 = true)
    (hp : ¬ (rp = true ∧ (rtr.lookup journal).1.route.Primary = -1))
    (hb : (rtr.lookup journal).1.route.Brokers ≠ []) :
    (rtr.resolve journal rp mp rnd).map Prod.snd = none ∨
    (rtr.resolve journal rp mp rnd).map Prod.snd = some Status.OK ∨
    (mp = false ∧ rtr.localSatisfies (rtr.lookup journal).1 rp = false ∧
      (rtr.resolve journal rp mp rnd).map Prod.snd =
        some (if rp then Status.NOT_JOURNAL_PRIMARY_BROKER else Status.NOT_JOURNAL_BROKER)) := by
  rw [resolve_passed rtr journal _ _ _ h hp hb]
  split
  · simp
  · next hsat =>
    split
    · next hmp => simp [hmp, hsat]
    · split
      · cases brokerAt (rtr.lookup journal).1.route <;> simp
      · cases (rtr.lookup journal).1.route.RandomReplica rtr.id.Zone rnd <;> simp

/-- C2: `Router.resolve` reports its failure statuses in the order of the resolver
algorithm.  It returns JOURNAL_NOT_FOUND exactly when the journal is neither in the local
replica index nor has an Item in the keyspace; NO_JOURNAL_PRIMARY_BROKER exactly when the
journal is found, `requirePrimary` holds and the route's `Primary` is -1; and
NO_JOURNAL_BROKERS exactly when the journal is found, the primary check passes and the
route has no brokers. -/
theorem resolve_failure_order (rtr : Router) (journal : Journal)
    (requirePrimary mayProxy : Bool) (rnd : Nat) :
    let status := (rtr.resolve journal requirePrimary mayProxy rnd).map Prod.snd
    let notFound := mapGet rtr.replicas journal = none ∧ LookupItem rtr.ks journal = none
    let route := (rtr.lookup journal).1.route
    (status = some Status.JOURNAL_NOT_FOUND ↔ notFound) ∧
    (status = some Status.NO_JOURNAL_PRIMARY_BROKER ↔
      ¬ notFound ∧ requirePrimary = true ∧ route.Primary = -1) ∧
    (status = some Status.NO_JOURNAL_BROKERS ↔
      ¬ notFound ∧ ¬ (requirePrimary = true ∧ route.Primary = -1) ∧ route.Brokers = []) := by
  intro status notFound route
  have hnf : (rtr.lookup journal).2 = false ↔ notFound := lookup_found_iff rtr journal
  by_cases hok : (rtr.lookup journal).2 = true
  swap
  · have hok2 : (rtr.lookup journal).2 = false := by simpa using hok
    have hs : status = some Status.JOURNAL_NOT_FOUND := by
      simp only [status, resolve_not_found rtr journal _ _ _ hok2, Option.map_some']
    have hn : notFound := hnf.mp hok2
    refine ⟨⟨fun _ => hn, fun _ => hs⟩, ⟨fun h => ?_, fun h => absurd hn h.1⟩,
      ⟨fun h => ?_, fun h => absurd hn h.1⟩⟩
    · rw [hs] at h; cases h
    · rw [hs] at h; cases h
  have hn : ¬ notFound := fun hn => by
    have := hnf.mpr hn
    rw [this] at hok
    exact Bool.noConfusion hok
  by_cases hp : requirePrimary = true ∧ route.Primary = -1
  · have hs : status = some Status.NO_JOURNAL_PRIMARY_BROKER := by
      simp only [status, resolve_no_primary rtr journal _ _ _ hok hp.1 hp.2, Option.map_some']
    refine ⟨⟨fun h => ?_, fun h => absurd h hn⟩, ⟨fun _ => ⟨hn, hp⟩, fun _ => hs⟩,
      ⟨fun h => ?_, fun h => absurd hp h.2.1⟩⟩
    · rw [hs] at h; cases h
    · rw [hs] at h; cases h
  by_cases hb : route.Brokers = []
  · have hs : status = some Status.NO_JOURNAL_BROKERS := by
      simp only [status, resolve_no_brokers rtr journal _ _ _ hok hp hb, Option.map_some']
    refine ⟨⟨fun h => ?_, fun h => absurd h hn⟩,
      ⟨fun h => ?_, fun h => absurd ⟨h.2.1, h.2.2⟩ hp⟩, ⟨fun _ => ⟨hn, hp, hb⟩, fun _ => hs⟩⟩
    · rw [hs] at h; cases h
    · rw [hs] at h; cases h
  have h3 := resolve_passed_status rtr journal requirePrimary mayProxy rnd hok hp hb
  have hs : status ≠ some Status.JOURNAL_NOT_FOUND ∧
      status ≠ some Status.NO_JOURNAL_PRIMARY_BROKER ∧
      status ≠ some Status.NO_JOURNAL_BROKERS := by
    rcases h3 with h3 | h3 | ⟨-, -, h3⟩
    · simp [status, h3]
    · simp [status, h3]
    · cases requirePrimary <;> simp [status, h3]
  refine ⟨⟨fun h => absurd h hs.1, fun h => absurd h hn⟩,
    ⟨fun h => absurd h hs.2.1, fun h => absurd ⟨h.2.1, h.2.2⟩ hp⟩,
    ⟨fun h => absurd h hs.2.2, fun h => absurd h.2.2 hb⟩⟩

theorem localSatisfies_lookup (rtr : Router) (journal : Journal) (rp : Bool) :
    rtr.localSatisfies (rtr.lookup journal).1 rp = true ↔
      ∃ p, mapGet rtr.replicas journal = some p ∧
        (rp = false ∨ (rtr.heap p).isPrimary = true) := by
  cases hm : mapGet rtr.replicas journal with
  | none => simp [lookup_remote rtr journal hm, Router.localSatisfies]
  | some p => simp [lookup_local rtr journal p hm, Router.localSatisfies]

/-- C4: `Router.resolve` returns NOT_JOURNAL_PRIMARY_BROKER or NOT_JOURNAL_BROKER only when
`mayProxy` is false; and a call with `mayProxy = false` that passes the journal-found,
primary and non-empty-brokers checks but has no local replica able to satisfy it returns
NOT_JOURNAL_PRIMARY_BROKER when `requirePrimary` and NOT_JOURNAL_BROKER otherwise, with the
local replica cleared and the zero identity as target broker. -/
theorem resolve_not_journal_broker (rtr : Router) (journal : Journal)
    (requirePrimary mayProxy : Bool) (rnd : Nat) :
    (∀ res, (rtr.resolve journal requirePrimary mayProxy rnd =
          some (res, Status.NOT_JOURNAL_PRIMARY_BROKER) ∨
        rtr.resolve journal requirePrimary mayProxy rnd =
          some (res, Status.NOT_JOURNAL_BROKER)) → mayProxy = false) ∧
    (mayProxy = false →
      ¬ (mapGet rtr.replicas journal = none ∧ LookupItem rtr.ks journal = none) →
      ¬ (requirePrimary = true ∧ (rtr.lookup journal).1.route.Primary = -1) →
      (rtr.lookup journal).1.route.Brokers ≠ [] →
      (mapGet rtr.replicas journal = none ∨
        (requirePrimary = true ∧
          ∃ p, mapGet rtr.replicas journal = some p ∧ (rtr.heap p).isPrimary = false)) →
      rtr.resolve journal requirePrimary mayProxy rnd =
        some ({ route := (rtr.lookup journal).1.route, broker := zeroID, replica := none },
          if requirePrimary then Status.NOT_JOURNAL_PRIMARY_BROKER
          else Status.NOT_JOURNAL_BROKER)) := by
  constructor
  · intro res hres
    by_cases hok : (rtr.lookup journal).2 = true
    swap
    · rw [resolve_not_found rtr journal _ _ _ (by simpa using hok)] at hres
      simp at hres
    by_cases hp : requirePrimary = true ∧ (rtr.lookup journal).1.route.Primary = -1
    · rw [resolve_no_primary rtr journal _ _ _ hok hp.1 hp.2] at hres
      simp at hres
    by_cases hb : (rtr.lookup journal).1.route.Brokers = []
    · rw [resolve_no_brokers rtr journal _ _ _ hok hp hb] at hres
      simp at hres
    rcases resolve_passed_status rtr journal requirePrimary mayProxy rnd hok hp hb with
      h3 | h3 | ⟨h3, -, -⟩
    · rcases hres with hres | hres <;> simp [hres] at h3
    · rcases hres with hres | hres <;> simp [hres] at h3
    · exact h3
  · intro hmp hfound hp hb hloc
    have hok : (rtr.lookup journal).2 = true := by
      by_contra hc
      exact hfound ((lookup_found_iff rtr journal).mp (by simpa using hc))
    have hsat : ¬ rtr.localSatisfies (rtr.lookup journal).1 requirePrimary = true := by
      rw [localSatisfies_lookup]
      rintro ⟨p, hm, hsat⟩
      rcases hloc with hloc | ⟨hrp, q, hq, hprim⟩
      · rw [hloc] at hm; cases hm
      · rw [hm] at hq
        cases hq
        rcases hsat with hsat | hsat
        · rw [hrp] at hsat; cases hsat
        · rw [hprim] at hsat; cases hsat
    rw [resolve_passed rtr journal _ _ _ hok hp hb, if_neg hsat, if_pos hmp]

/-- C5: whenever `Router.resolve` returns `Status_OK`, exactly one of two outcomes holds:
either the journal is in the local replica index, `requirePrimary` is false or that replica
is primary, and the resolution carries that replica, the replica's own route and this
broker's identity as target; or the resolution carries no local replica, `mayProxy` is
true, and the target broker is one of the route's brokers, namely
`Route.Brokers[Route.Primary]` when `requirePrimary`. -/
theorem resolve_ok_outcomes (rtr : Router) (journal : Journal)
    (requirePrimary mayProxy : Bool) (rnd : Nat) (res : resolution)
    (hres : rtr.resolve journal requirePrimary mayProxy rnd = some (res, Status.OK)) :
    let served := ∃ p, mapGet rtr.replicas journal = some p ∧
      (requirePrimary = false ∨ (rtr.heap p).isPrimary = true) ∧
      res.replica = some p ∧ res.route = (rtr.heap p).route ∧ res.broker = rtr.id
    let proxied := res.replica = none ∧ mayProxy = true ∧ res.broker ∈ res.route.Brokers ∧
      (requirePrimary = true → brokerAt res.route = some res.broker)
    (served ∨ proxied) ∧ ¬ (served ∧ proxied) := by
  intro served proxied
  refine ⟨?_, ?_⟩
  swap
  · rintro ⟨⟨p, -, -, h1, -⟩, h2, -⟩
    rw [h1] at h2
    cases h2
  by_cases hok : (rtr.lookup journal).2 = true
  swap
  · rw [resolve_not_found rtr journal _ _ _ (by simpa using hok)] at hres
    simp at hres
  by_cases hp : requirePrimary = true ∧ (rtr.lookup journal).1.route.Primary = -1
  · rw [resolve_no_primary rtr journal _ _ _ hok hp.1 hp.2] at hres
    simp at hres
  by_cases hb : (rtr.lookup journal).1.route.Brokers = []
  · rw [resolve_no_brokers rtr journal _ _ _ hok hp hb] at hres
    simp at hres
  rw [resolve_passed rtr journal _ _ _ hok hp hb] at hres
  split at hres
  · next hsat =>
    left
    simp only [Option.some.injEq, Prod.mk.injEq, and_true] at hres
    obtain ⟨p, hm, hprim⟩ := (localSatisfies_lookup rtr journal requirePrimary).mp hsat
    refine ⟨p, hm, hprim, ?_⟩
    rw [← hres, lookup_local rtr journal p hm]
    exact ⟨rfl, rfl, rfl⟩
  · right
    split at hres
    · split at hres <;> simp at hres
    · next hmp =>
      have hmp2 : mayProxy = true := by simpa using hmp
      split at hres
      · next hrp =>
        cases hb : brokerAt (rtr.lookup journal).1.route with
        | none => simp [hb] at hres
        | some b =>
          simp only [hb, Option.map_some', Option.some.injEq, Prod.mk.injEq, and_true] at hres
          subst hres
          exact ⟨rfl, hmp2, (brokerAt_some _ _ hb).2.2, fun _ => hb⟩
      · next hrp =>
        cases hb : (rtr.lookup journal).1.route.RandomReplica rtr.id.Zone rnd with
        | none => simp [hb] at hres
        | some b =>
          simp only [hb, Option.map_some', Option.some.injEq, Prod.mk.injEq, and_true] at hres
          subst hres
          exact ⟨rfl, hmp2, randomReplica_mem _ _ _ _ hb, fun h => absurd h hrp⟩

/-- Witness of C4 on the fixture: an append-like resolution of `item-1`, which the broker
replicates without being primary, may not be proxied. -/
theorem resolve_not_journal_broker_witness :
    fixtureRouter.resolve "item-1" true false 0 =
      some ({ route := fixtureRoute, broker := zeroID, replica := none },
        Status.NOT_JOURNAL_PRIMARY_BROKER) :=
  (resolve_not_journal_broker fixtureRouter "item-1" true false 0).2 rfl
    (by decide) (by decide) (by decide) (Or.inr ⟨rfl, 0, by decide, by decide⟩)

/-- Witness of C5 on the fixture: a primary-requiring resolution of `item-two` is proxied
to `us-east/bar`, the broker at the route's primary index. -/
theorem resolve_ok_outcomes_witness :
    fixtureRouter.resolve "item-two" true true 0 =
      some ({ route := fixtureRouter.keyspaceRoute "item-two",
              broker := { Zone := "us-east", Suffix := "bar" }, replica := none }, Status.OK) ∧
    brokerAt (fixtureRouter.keyspaceRoute "item-two") =
      some { Zone := "us-east", Suffix := "bar" } :=
  ⟨by decide,
   ((resolve_ok_outcomes fixtureRouter "item-two" true true 0
      { route := fixtureRouter.keyspaceRoute "item-two",
        broker := { Zone := "us-east", Suffix := "bar" }, replica := none }
      (by decide)).1.resolve_left
        (fun h => by
          obtain ⟨p, hp, -⟩ := h
          have hn : mapGet fixtureRouter.replicas "item-two" = none := by decide
          rw [hn] at hp
          cases hp)).2.2.2 rfl⟩

/-! ## Router.Read of a journal that is not found -/

theorem route_init_brokers_nil (assignments : List (KeyValue Assignment)) :
    (Route.Init assignments).Brokers = [] ↔ assignments = [] := by
  simp [Route.Init]

/-- The route built from the key space has no brokers and no endpoints exactly when no
assignment entry lies under the journal's assignments prefix. -/
theorem keyspaceRoute_empty_iff (rtr : Router) (journal : Journal) :
    ((rtr.keyspaceRoute journal).Brokers = [] ∧ (rtr.keyspaceRoute journal).Endpoints = []) ↔
      Prefixed rtr.ks.Assignments (ItemAssignmentsPrefix rtr.ks journal) = [] := by
  simp [Router.keyspaceRoute, Route.AttachEndpoints, Route.Init]

/-- C3, counterexample: the fixture key space holds an assignment under the prefix of
`item-missing` but no Item; a valid Read of `item-missing` is answered by a single
JOURNAL_NOT_FOUND response whose Route is not empty: it names broker `us-west/baz` and
its endpoint. -/
theorem read_not_found_route_counterexample :
    mapGet fixtureRouter.replicas fixtureReadMissing.Journal = none ∧
    LookupItem fixtureRouter.ks fixtureReadMissing.Journal = none ∧
    (fixtureRouter.Read fixtureReadMissing fixtureReadServer (fun _ => none) 0
        (fun e => e) fixtureDialFails fixturePeerRead (fun _ _ srv => (none, srv))).map
      (fun out => (out.1, out.2.1.sent)) =
      some (none,
        [{ Status := Status.JOURNAL_NOT_FOUND,
           Route := some { Brokers := [{ Zone := "us-west", Suffix := "baz" }],
                           Primary := 0,
                           Endpoints := ["http://baz.us-west:8080/path"] },
           WriteHead := 0, Fragment := none, FragmentUrl := "", Content := "" }]) := by
  decide

/-- C3, amended: for every valid ReadRequest naming a journal that has no Item in the
keyspace and is not locally replicated, `Router.Read` sends exactly one ReadResponse and
returns what `Send` returned; the response has Status JOURNAL_NOT_FOUND and carries the
Route built from the assignment entries under the journal's assignments prefix, which has
no brokers and no endpoints exactly when the keyspace holds no entry under that prefix. -/
theorem read_not_found (rtr : Router) (req : ReadRequest) (srv : ReadServer)
    (validate : ReadRequest → Option Error) (rnd : Nat)
    (urlHost : Endpoint → String) (grpcDial : String → Except Error ClientConn)
    (peerRead : ClientConn → ReadRequest → PeerRead)
    (read : Nat → ReadRequest → ReadServer → Option Error × ReadServer)
    (hvalid : validate req = none)
    (hlocal : mapGet rtr.replicas req.Journal = none)
    (hitem : LookupItem rtr.ks req.Journal = none) :
    rtr.Read req srv validate rnd urlHost grpcDial peerRead read =
      some (srv.sendErr srv.sent.length,
        { srv with sent := srv.sent ++
          [{ Status := Status.JOURNAL_NOT_FOUND,
             Route := some (rtr.keyspaceRoute req.Journal),
             WriteHead := 0, Fragment := none, FragmentUrl := "", Content := "" }] },
        rtr) ∧
    (((rtr.keyspaceRoute req.Journal).Brokers = [] ∧
        (rtr.keyspaceRoute req.Journal).Endpoints = []) ↔
      Prefixed rtr.ks.Assignments (ItemAssignmentsPrefix rtr.ks req.Journal) = []) := by
  refine ⟨?_, keyspaceRoute_empty_iff rtr req.Journal⟩
  have hnf : (rtr.lookup req.Journal).2 = false :=
    (lookup_found_iff rtr req.Journal).mpr ⟨hlocal, hitem⟩
  have hres := resolve_not_found rtr req.Journal false (!req.DoNotProxy) rnd hnf
  rw [lookup_remote rtr req.Journal hlocal] at hres
  simp [Router.Read, hvalid, hres, ReadServer.Send]

/-- Witness of the amended C3 on the fixture, where the prefix of `item-missing` is not
empty. -/
theorem read_not_found_witness :
    fixtureRouter.Read fixtureReadMissing fixtureReadServer (fun _ => none) 0
        (fun e => e) fixtureDialFails fixturePeerRead (fun _ _ srv => (none, srv)) =
      some (none,
        { fixtureReadServer with sent := [] ++
          [{ Status := Status.JOURNAL_NOT_FOUND,
             Route := some (fixtureRouter.keyspaceRoute "item-missing"),
             WriteHead := 0, Fragment := none, FragmentUrl := "", Content := "" }] },
        fixtureRouter) :=
  (read_not_found fixtureRouter fixtureReadMissing fixtureReadServer (fun _ => none) 0
    (fun e => e) fixtureDialFails fixturePeerRead (fun _ _ srv => (none, srv))
    rfl (by decide) (by decide)).1

/-! ## The route-scoped dialer -/

theorem scanBrokers_le (brokers : List BrokerSpec_ID) (id : BrokerSpec_ID) (ind : Nat) :
    scanBrokers brokers id ind ≤ ind + brokers.length := by
  induction brokers generalizing ind with
  | nil => simp [scanBrokers]
  | cons b rest ih =>
    simp only [scanBrokers, List.length_cons]
    split
    · have := ih (ind + 1)
      omega
    · omega

/-- The scan of `dialer.dial` runs to the end of the brokers exactly when the identity is
not among them. -/
theorem scanBrokers_eq_length_iff (brokers : List BrokerSpec_ID) (id : BrokerSpec_ID)
    (ind : Nat) : scanBrokers brokers id ind = ind + brokers.length ↔ id ∉ brokers := by
  induction brokers generalizing ind with
  | nil => simp [scanBrokers]
  | cons b rest ih =>
    simp only [scanBrokers, List.length_cons, List.mem_cons, not_or]
    split
    · next hne =>
      have := ih (ind + 1)
      constructor
      · intro h
        exact ⟨fun h2 => hne h2.symm, this.mp (by omega)⟩
      · intro h
        have := this.mpr h.2
        omega
    · next heq =>
      have heq2 : b = id := by simpa using heq
      constructor
      · intro h
        omega
      · intro h
        exact absurd heq2.symm h.1

/-- C6: `dialer.dial` validates the route before it consults the cache.  If `id` is not
among `route.Brokers` it fails with the `no such Broker in Route` error; otherwise, if the
endpoints are not attached (`len(Endpoints) != len(Brokers)`) it fails with the
`missing Route Endpoints` error; in both cases no connection is returned and the dialer's
cache is left exactly as it was, whatever it holds. -/
theorem dial_validates_route_first (d : dialer) (id : BrokerSpec_ID) (route : Route)
    (urlHost : Endpoint → String) (grpcDial : String → Except Error ClientConn) :
    (id ∉ route.Brokers →
      d.dial id route urlHost grpcDial = (.error (.noSuchBrokerInRoute id route), d)) ∧
    (id ∈ route.Brokers → route.Endpoints.length ≠ route.Brokers.length →
      d.dial id route urlHost grpcDial = (.error (.missingRouteEndpoints id route), d)) := by
  have hscan := scanBrokers_eq_length_iff route.Brokers id 0
  simp only [Nat.zero_add] at hscan
  constructor
  · intro hnot
    simp [dialer.dial, hscan.mpr hnot]
  · intro hmem hlen
    have hne : scanBrokers route.Brokers id 0 ≠ route.Brokers.length :=
      fun h => (hscan.mp h) hmem
    simp [dialer.dial, hne, hlen]

/-- Witness of C6 on the dialer of `TestDialer`, which holds cached connections for both
identities: `zone-b/member-2` is not in the one-broker route, and `zone-a/member-1` is in
the route whose endpoints were set to nil. -/
theorem dial_validates_route_first_witness :
    testDialer.dial { Zone := "zone-b", Suffix := "member-2" }
        { Brokers := [{ Zone := "zone-a", Suffix := "member-1" }], Primary := 0,
          Endpoints := ["http://peer1:8080/path"] } (fun e => e) fixtureDial =
      (.error (.noSuchBrokerInRoute { Zone := "zone-b", Suffix := "member-2" }
        { Brokers := [{ Zone := "zone-a", Suffix := "member-1" }], Primary := 0,
          Endpoints := ["http://peer1:8080/path"] }), testDialer) ∧
    testDialer.dial { Zone := "zone-a", Suffix := "member-1" }
        { Brokers := [{ Zone := "zone-a", Suffix := "member-1" }], Primary := 0,
          Endpoints := [] } (fun e => e) fixtureDial =
      (.error (.missingRouteEndpoints { Zone := "zone-a", Suffix := "member-1" }
        { Brokers := [{ Zone := "zone-a", Suffix := "member-1" }], Primary := 0,
          Endpoints := [] }), testDialer) :=
  ⟨(dial_validates_route_first testDialer _ _ _ _).1 (by decide),
   (dial_validates_route_first testDialer _ _ _ _).2 (by decide) (by decide)⟩

/-! ## The router's peer connection cache -/

theorem cache_get_fields (c : Cache) (key : BrokerSpec_ID) :
    (c.Get key).2.size = c.size ∧ (c.Get key).2.onEvicted = c.onEvicted ∧
      (c.Get key).2.closed = c.closed := by
  unfold Cache.Get
  split <;> simp

theorem cache_get_miss (c : Cache) (key : BrokerSpec_ID)
    (h : ∀ e ∈ c.entries, e.1 ≠ key) : c.Get key = (none, c) := by
  unfold Cache.Get
  have : c.entries.find? (fun e => e.1 == key) = none := by
    rw [List.find?_eq_none]
    intro e he
    simpa using h e he
  rw [this]

theorem cache_get_hit (c : Cache) (key : BrokerSpec_ID) (e : BrokerSpec_ID × ClientConn)
    (h : e ∈ c.entries) (hk : e.1 = key) : ∃ v, (c.Get key).1 = some v := by
  unfold Cache.Get
  cases hf : c.entries.find? (fun e => e.1 == key) with
  | none =>
    rw [List.find?_eq_none] at hf
    have := hf e h
    simp [hk] at this
  | some x => exact ⟨x.2, rfl⟩

theorem cache_add_fields (c : Cache) (key : BrokerSpec_ID) (value : ClientConn)
    (h : c.onEvicted = none) :
    (c.Add key value).size = c.size ∧ (c.Add key value).onEvicted = none ∧
      (c.Add key value).closed = c.closed := by
  unfold Cache.Add
  split
  · exact ⟨rfl, h, rfl⟩
  · dsimp only
    split
    · unfold Cache.removeOldest
      dsimp only
      split
      · exact ⟨rfl, h, rfl⟩
      · simp [h]
    · exact ⟨rfl, h, rfl⟩

/-- Adding a new key to a full cache drops the least recently used entry, the last one. -/
theorem cache_add_full (c : Cache) (key : BrokerSpec_ID) (value : ClientConn)
    (hnew : ∀ e ∈ c.entries, e.1 ≠ key) (hfull : c.entries.length = c.size)
    (hpos : 0 < c.size) :
    (c.Add key value).entries = (key, value) :: c.entries.dropLast := by
  have hany : c.entries.any (fun e => e.1 == key) = false := by
    rw [List.any_eq_false]
    intro e he
    simpa using hnew e he
  have hne : c.entries ≠ [] := by
    intro h
    rw [h] at hfull
    simp at hfull
    omega
  have hlast : ((key, value) :: c.entries).getLast? = some (c.entries.getLast hne) := by
    rw [List.getLast?_cons, List.getLast?_eq_getLast _ hne]
    rfl
  unfold Cache.Add
  rw [if_neg (by simp [hany])]
  dsimp only
  rw [if_pos (by simp only [List.length_cons]; omega)]
  unfold Cache.removeOldest
  dsimp only
  rw [hlast]
  dsimp only
  exact List.dropLast_cons_of_ne_nil hne

/-- A call of `peerConn` on a cache without eviction callback leaves the cache without
callback, of the same capacity, and closes no connection. -/
theorem peerConn_cache_fields (rtr : Router) (id : BrokerSpec_ID)
    (urlHost : Endpoint → String) (grpcDial : String → Except Error ClientConn)
    (h : rtr.connCache.onEvicted = none) :
    (rtr.peerConn id urlHost grpcDial).2.connCache.size = rtr.connCache.size ∧
    (rtr.peerConn id urlHost grpcDial).2.connCache.onEvicted = none ∧
    (rtr.peerConn id urlHost grpcDial).2.connCache.closed = rtr.connCache.closed ∧
    (rtr.peerConn id urlHost grpcDial).2.ks = rtr.ks := by
  obtain ⟨h1, h2, h3⟩ := cache_get_fields rtr.connCache id
  rw [h] at h2
  unfold Router.peerConn
  split
  · next v cache hg =>
    rw [hg] at h1 h2 h3
    exact ⟨h1, h2, h3, rfl⟩
  · next cache hg =>
    rw [hg] at h1 h2 h3
    split
    · exact ⟨h1, h2, h3, rfl⟩
    · split
      · next conn _ =>
        obtain ⟨a1, a2, a3⟩ := cache_add_fields cache id conn h2
        exact ⟨a1.trans h1, a2, a3.trans h3, rfl⟩
      · exact ⟨h1, h2, h3, rfl⟩

theorem peerConns_cache_fields (urlHost : Endpoint → String)
    (calls : List (BrokerSpec_ID × (String → Except Error ClientConn))) (rtr : Router)
    (h : rtr.connCache.onEvicted = none) :
    (rtr.peerConns urlHost calls).connCache.size = rtr.connCache.size ∧
    (rtr.peerConns urlHost calls).connCache.onEvicted = none ∧
    (rtr.peerConns urlHost calls).connCache.closed = rtr.connCache.closed ∧
    (rtr.peerConns urlHost calls).ks = rtr.ks := by
  induction calls generalizing rtr with
  | nil => exact ⟨rfl, h, rfl, rfl⟩
  | cons call rest ih =>
    obtain ⟨id, grpcDial⟩ := call
    obtain ⟨h1, h2, h3, h4⟩ := peerConn_cache_fields rtr id urlHost grpcDial h
    obtain ⟨i1, i2, i3, i4⟩ := ih _ h2
    simp only [Router.peerConns]
    exact ⟨i1.trans h1, i2, i3.trans h3, i4.trans h4⟩

/-- C7, the code at the failing input: in every state that a router built by `NewRouter`
reaches through calls of `peerConn`, the cache has capacity 1024 and no connection was ever
closed; and when a connection for a new identity is added to the full cache, the least
recently used entry is dropped from the cache while the log of closed connections stays
empty: the evicted connection is not closed. -/
theorem peerConn_evicts_without_close (ks : KeySpace) (id : BrokerSpec_ID)
    (urlHost : Endpoint → String)
    (calls : List (BrokerSpec_ID × (String → Except Error ClientConn))) :
    let rtr := (NewRouter ks id).peerConns urlHost calls
    rtr.connCache.size = 1024 ∧ rtr.connCache.closed = [] ∧
    ∀ (peer : BrokerSpec_ID) (grpcDial : String → Except Error ClientConn)
      (member : KeyValue Member) (conn : ClientConn),
      (∀ e ∈ rtr.connCache.entries, e.1 ≠ peer) →
      rtr.connCache.entries.length = 1024 →
      LookupMember rtr.ks peer.Zone peer.Suffix = some member →
      grpcDial (urlHost member.Decoded.MemberValue.Endpoint) = .ok conn →
      (rtr.peerConn peer urlHost grpcDial).1 = .ok conn ∧
      (rtr.peerConn peer urlHost grpcDial).2.connCache.entries =
        (peer, conn) :: rtr.connCache.entries.dropLast ∧
      (rtr.peerConn peer urlHost grpcDial).2.connCache.closed = [] := by
  intro rtr
  obtain ⟨h1, h2, h3, -⟩ :=
    peerConns_cache_fields urlHost calls (NewRouter ks id) rfl
  have hsize : rtr.connCache.size = 1024 := h1
  have hclosed : rtr.connCache.closed = [] := h3
  refine ⟨hsize, hclosed, ?_⟩
  intro peer grpcDial member conn hnew hfull hmember hdial
  have hc := (peerConn_cache_fields rtr peer urlHost grpcDial h2).2.2.1
  refine ⟨?_, ?_, hc.trans hclosed⟩
  · simp [Router.peerConn, cache_get_miss _ _ hnew, hmember, hdial]
  · simp only [Router.peerConn, cache_get_miss _ _ hnew, hmember, hdial]
    exact cache_add_full _ _ _ hnew (hfull.trans hsize.symm) (by omega)

/-- C8, counterexample: the broker `us-west/gone` has no member entry in the fixture key
space, yet `peerConn` on a router that still caches a connection to it returns that
connection instead of failing. -/
theorem peerConn_cached_without_spec_counterexample :
    LookupMember fixtureStaleRouter.ks "us-west" "gone" = none ∧
    (fixtureStaleRouter.peerConn { Zone := "us-west", Suffix := "gone" }
      (fun e => e) fixtureDialFails).1 = .ok 7 :=
  ⟨by decide, rfl⟩

/-- C8, amended: for every broker identity that has no BrokerSpec in the keyspace at the
time of the call, `Router.peerConn` fails with the `no BrokerSpec found` error, returns no
connection and leaves the router as it was, provided the connection cache holds no
connection for the identity; when the cache holds one, `peerConn` returns that cached
connection (the one `Peek` shows, an entry of the cache) whatever the keyspace and the
transport are, and only moves the entry to the front of the cache. -/
theorem peerConn_no_spec (rtr : Router) (id : BrokerSpec_ID)
    (urlHost : Endpoint → String) (grpcDial : String → Except Error ClientConn)
    (hspec : LookupMember rtr.ks id.Zone id.Suffix = none) :
    ((∀ e ∈ rtr.connCache.entries, e.1 ≠ id) →
      rtr.peerConn id urlHost grpcDial = (.error (.noBrokerSpecFound id), rtr)) ∧
    (∀ e ∈ rtr.connCache.entries, e.1 = id →
      ∃ v, rtr.connCache.Peek id = some v ∧ (id, v) ∈ rtr.connCache.entries ∧
        ∀ (ks : KeySpace) (dial : String → Except Error ClientConn),
          Router.peerConn { rtr with ks := ks } id urlHost dial =
            (.ok v, { rtr with
              ks := ks,
              connCache := { rtr.connCache with
                entries := (id, v) :: rtr.connCache.entries.filter (fun x => x.1 != id) } })) := by
  constructor
  · intro hmiss
    simp [Router.peerConn, cache_get_miss _ _ hmiss, hspec]
  · intro e he hk
    cases hf : rtr.connCache.entries.find? (fun e => e.1 == id) with
    | none =>
      rw [List.find?_eq_none] at hf
      have := hf e he
      simp [hk] at this
    | some x =>
      have hx : x.1 = id := by simpa using List.find?_some hf
      have hmem : x ∈ rtr.connCache.entries := List.mem_of_find?_eq_some hf
      have hxe : x = (id, x.2) := by rw [← hx]
      refine ⟨x.2, by simp [Cache.Peek, hf], hxe ▸ hmem, ?_⟩
      intro ks dial
      simp only [Router.peerConn, Cache.Get, hf]
      rw [← hxe]

/-- Witness of the amended C8: on the fixture router, whose cache is empty, the call fails
with `no BrokerSpec found`; on the router that still caches a connection to the broker, the
call returns the cached connection. -/
theorem peerConn_no_spec_witness :
    fixtureRouter.peerConn { Zone := "us-west", Suffix := "gone" } (fun e => e) fixtureDial =
      (.error (.noBrokerSpecFound { Zone := "us-west", Suffix := "gone" }), fixtureRouter) ∧
    ∃ v, fixtureStaleRouter.connCache.Peek { Zone := "us-west", Suffix := "gone" } = some v ∧
      (fixtureStaleRouter.peerConn { Zone := "us-west", Suffix := "gone" } (fun e => e)
        fixtureDialFails).1 = .ok v :=
  ⟨(peerConn_no_spec fixtureRouter { Zone := "us-west", Suffix := "gone" } (fun e => e)
      fixtureDial (by decide)).1 (fun e he => by simp [fixtureRouter, lruNew] at he),
   by
    obtain ⟨v, hv, -, h⟩ := (peerConn_no_spec fixtureStaleRouter
      { Zone := "us-west", Suffix := "gone" } (fun e => e) fixtureDialFails (by decide)).2
      ({ Zone := "us-west", Suffix := "gone" }, 7) (by simp [fixtureStaleRouter]) rfl
    exact ⟨v, hv, by rw [show fixtureStaleRouter = { fixtureStaleRouter with ks := fixtureStaleRouter.ks } from rfl, h]⟩⟩

/-! ## The HTTP gateway's status codes -/

theorem writtenCodes_append (w v : ResponseWriter) :
    writtenCodes (w ++ v) = writtenCodes w ++ writtenCodes v := by
  simp [writtenCodes, List.filterMap_append]

theorem writtenCodes_header (w : ResponseWriter) (key value : String) :
    writtenCodes (w ++ [WriterCall.headerSet key value]) = writtenCodes w ∧
    writtenCodes (w ++ [WriterCall.headerAdd key value]) = writtenCodes w := by
  simp [writtenCodes_append, writtenCodes]

theorem writtenCodes_addOffsetHeader (w : ResponseWriter) (key : String) (v : Int) :
    writtenCodes (addOffsetHeader w key v) = writtenCodes w := by
  unfold addOffsetHeader
  split
  · exact (writtenCodes_header w key _).2
  · rfl

theorem writtenCodes_httpError (w : ResponseWriter) (error : String) (code : Nat) :
    writtenCodes (httpError w error code) = writtenCodes w ++ [code] := by
  unfold httpError
  rw [writtenCodes_append]
  simp [writtenCodes]

theorem writtenCodes_writeHeader (w : ResponseWriter) (code : Nat) :
    writtenCodes (w ++ [WriterCall.writeHeader code]) = writtenCodes w ++ [code] := by
  rw [writtenCodes_append]
  simp [writtenCodes]

theorem writtenCodes_appendHeaders (compactText : Route → String) (w : ResponseWriter)
    (resp : AppendResponse) :
    writtenCodes (writeAppendHeaders compactText w resp) = writtenCodes w := by
  unfold writeAppendHeaders
  simp only [writtenCodes_addOffsetHeader]
  cases resp.Route
  · rfl
  · exact (writtenCodes_header w _ _).1

theorem writtenCodes_readHeaders (compactText : Route → String) (formatTime : Int → String)
    (w : ResponseWriter) (resp : ReadResponse) :
    writtenCodes (writeReadHeaders compactText formatTime w resp) = writtenCodes w := by
  unfold writeReadHeaders
  simp only [writtenCodes_addOffsetHeader]
  have hroute : writtenCodes (match resp.Route with
      | some route => w ++ [WriterCall.headerSet RouteTokenHeader (compactText route)]
      | none => w) = writtenCodes w := by
    cases resp.Route
    · rfl
    · exact (writtenCodes_header w _ _).1
  rw [← hroute]
  cases resp.Fragment with
  | none => rfl
  | some fragment =>
    dsimp only
    split <;> split <;> simp only [(writtenCodes_header _ _ _).2]

/-- C9: the HTTP status code written by the gateway is a function of the response's Status
alone.  Whatever was written before and whatever the other fields of the response are,
`writeReadResponse` hands exactly one code to `WriteHeader`: 206 for OK, 404 for
JOURNAL_NOT_FOUND, 503 for NO_JOURNAL_BROKERS, 416 for OFFSET_NOT_YET_AVAILABLE and 500 for
every other status; and `writeAppendResponse` exactly one: 204 for OK, 404 for
JOURNAL_NOT_FOUND, 503 for REPLICATION_FAILED and 500 for every other status. -/
theorem write_response_status_codes (compactText : Route → String)
    (formatTime : Int → String) (w : ResponseWriter) :
    (∀ resp : ReadResponse,
      writtenCodes (writeReadResponse compactText formatTime w resp) =
        writtenCodes w ++ [specReadCode resp.Status]) ∧
    (∀ resp : AppendResponse,
      writtenCodes (writeAppendResponse compactText w resp) =
        writtenCodes w ++ [specAppendCode resp.Status]) := by
  constructor
  · intro resp
    unfold writeReadResponse
    cases h : resp.Status <;>
      simp [writtenCodes_httpError, writtenCodes_writeHeader, writtenCodes_readHeaders,
        specReadCode]
  · intro resp
    unfold writeAppendResponse
    cases h : resp.Status <;>
      simp [writtenCodes_httpError, writtenCodes_writeHeader, writtenCodes_appendHeaders,
        specAppendCode]

/-! ## The replica index update is copy-on-write -/

theorem extends_refl (a : Router) : a.Extends a :=
  ⟨Nat.le_refl _, fun _ _ => rfl, rfl, rfl, rfl, rfl⟩

theorem extends_trans {a b c : Router} (h1 : a.Extends b) (h2 : b.Extends c) :
    a.Extends c := by
  obtain ⟨a1, a2, a3, a4, a5, a6⟩ := h1
  obtain ⟨b1, b2, b3, b4, b5, b6⟩ := h2
  refine ⟨Nat.le_trans a1 b1, fun p hp => ?_, b3.trans a3, b4.trans a4, b5.trans a5,
    b6.trans a6⟩
  rw [b2 p (Nat.lt_of_lt_of_le hp a1), a2 p hp]

theorem alloc_extends (rtr : Router) (v : replica) : rtr.Extends (rtr.alloc v).2 := by
  refine ⟨Nat.le_succ _, fun p hp => ?_, rfl, rfl, rfl, rfl⟩
  show Function.update rtr.heap rtr.brk v p = rtr.heap p
  exact Function.update_noteq (Nat.ne_of_lt hp) _ _

theorem peerConn_extends (rtr : Router) (id : BrokerSpec_ID)
    (urlHost : Endpoint → String) (grpcDial : String → Except Error ClientConn) :
    rtr.Extends (rtr.peerConn id urlHost grpcDial).2 ∧
      (rtr.peerConn id urlHost grpcDial).2.brk = rtr.brk ∧
      (rtr.peerConn id urlHost grpcDial).2.heap = rtr.heap := by
  unfold Router.peerConn
  split
  · exact ⟨extends_refl rtr, rfl, rfl⟩
  · split
    · exact ⟨extends_refl rtr, rfl, rfl⟩
    · split
      · exact ⟨extends_refl rtr, rfl, rfl⟩
      · exact ⟨extends_refl rtr, rfl, rfl⟩

theorem mapGet_mem (m : List (Journal × Nat)) (name : Journal) (p : Nat)
    (h : mapGet m name = some p) : ∃ e ∈ m, e.2 = p := by
  unfold mapGet at h
  cases hf : m.find? (fun e => e.1 == name) with
  | none => rw [hf] at h; cases h
  | some e =>
    rw [hf] at h
    simp only [Option.map_some', Option.some.injEq] at h
    exact ⟨e, List.mem_of_find?_eq_some hf, h⟩

theorem mapGet_mapSet_same (m : List (Journal × Nat)) (name : Journal) (p : Nat) :
    mapGet (mapSet m name p) name = some p := by
  simp [mapGet, mapSet]

theorem mapSet_mem (m : List (Journal × Nat)) (name : Journal) (p : Nat)
    (e : Journal × Nat) (h : e ∈ mapSet m name p) : e = (name, p) ∨ e ∈ m := by
  unfold mapSet at h
  rcases List.mem_cons.mp h with h1 | h1
  · exact Or.inl h1
  · exact Or.inr (List.mem_filter.mp h1).1

theorem mapGet_mapSet_other (m : List (Journal × Nat)) (name other : Journal) (p : Nat)
    (h : other ≠ name) : mapGet (mapSet m name p) other = mapGet m other := by
  have hne : (name == other) = false := by simpa using fun h2 => h h2.symm
  simp only [mapGet, mapSet, List.find?_cons, hne]
  congr 1
  induction m with
  | nil => rfl
  | cons e rest ih =>
    by_cases he : e.1 = other
    · have h1 : (e.1 != name) = true := by simp [he, h]
      have h2 : (e.1 == other) = true := by simp [he]
      simp only [List.filter_cons, h1, if_true, List.find?_cons, h2]
    · have h2 : (e.1 == other) = false := by simpa using he
      by_cases h1 : (e.1 != name) = true
      · simp only [List.filter_cons, h1, if_true, List.find?_cons, h2, ih]
      · simp only [List.filter_cons, h1, List.find?_cons, h2, ih]
        simp [ih]

theorem obtainReplica_spec (prev : List (Journal × Nat)) (st : UpdateState) (name : Journal)
    (hwf : ∀ e ∈ prev, e.2 < st.rtr.brk) :
    (obtainReplica prev st name).2.next = st.next ∧
    st.rtr.Extends (obtainReplica prev st name).2.rtr ∧
    (obtainReplica prev st name).1 < (obtainReplica prev st name).2.rtr.brk ∧
    (∀ p, mapGet prev name = some p →
      (obtainReplica prev st name).1 = p ∧ (obtainReplica prev st name).2 = st) ∧
    (mapGet prev name = none →
      (obtainReplica prev st name).1 = st.rtr.brk ∧
      (obtainReplica prev st name).2.rtr.heap st.rtr.brk = newReplica st.rtr.nextCtx) := by
  unfold obtainReplica
  cases hm : mapGet prev name with
  | some p =>
    obtain ⟨e, he, hp⟩ := mapGet_mem prev name p hm
    refine ⟨rfl, extends_refl _, ?_, fun q hq => ?_, fun h => by cases h⟩
    · show p < st.rtr.brk
      rw [← hp]
      exact hwf e he
    · cases hq
      exact ⟨rfl, rfl⟩
  | none =>
    refine ⟨rfl, ?_, ?_, ?_, ?_⟩
    · obtain ⟨a1, a2, a3, a4, a5, a6⟩ := alloc_extends st.rtr (newReplica st.rtr.nextCtx)
      exact ⟨a1, a2, a3, a4, a5, a6⟩
    · show st.rtr.brk < st.rtr.brk + 1
      omega
    · intro q hq
      cases hq
    · intro _
      refine ⟨rfl, ?_⟩
      show Function.update st.rtr.heap st.rtr.brk _ st.rtr.brk = _
      exact Function.update_same _ _ _

theorem transition_spec (st : UpdateState) (r : Nat) (la : LocalItem)
    (assignment : KeyValue Assignment) (route : Route) (routeChanged : Bool) :
    (transition st r la assignment route routeChanged).2.next = st.next ∧
    st.rtr.Extends (transition st r la assignment route routeChanged).2.rtr ∧
    (r < st.rtr.brk →
      (transition st r la assignment route routeChanged).1 <
        (transition st r la assignment route routeChanged).2.rtr.brk) ∧
    (((st.rtr.heap r).journal.Raw.ModRevision ≠ la.Item.Raw.ModRevision ∨
        (st.rtr.heap r).assignment.Raw.ModRevision ≠ assignment.Raw.ModRevision ∨
        routeChanged = true) →
      (transition st r la assignment route routeChanged).1 = st.rtr.brk ∧
      (transition st r la assignment route routeChanged).2.rtr.heap st.rtr.brk =
        { (st.rtr.heap r) with
          journal := la.Item, assignment := assignment,
          route := route.AttachEndpoints st.rtr.ks }) ∧
    (¬ ((st.rtr.heap r).journal.Raw.ModRevision ≠ la.Item.Raw.ModRevision ∨
        (st.rtr.heap r).assignment.Raw.ModRevision ≠ assignment.Raw.ModRevision ∨
        routeChanged = true) →
      (transition st r la assignment route routeChanged).1 = r ∧
      (transition st r la assignment route routeChanged).2 = st) := by
  unfold transition
  split
  · next hc =>
    refine ⟨rfl, ?_, fun _ => ?_, fun _ => ⟨rfl, ?_⟩, fun h => absurd hc h⟩
    · refine ⟨Nat.le_succ _, fun p hp => ?_, rfl, rfl, rfl, rfl⟩
      show Function.update (Function.update st.rtr.heap st.rtr.brk _) st.rtr.brk _ p = _
      rw [Function.update_noteq (Nat.ne_of_lt hp), Function.update_noteq (Nat.ne_of_lt hp)]
    · show st.rtr.brk < st.rtr.brk + 1
      omega
    · show Function.update (Function.update st.rtr.heap st.rtr.brk _) st.rtr.brk _
        st.rtr.brk = _
      rw [Function.update_same]
      show ({ (Function.update st.rtr.heap st.rtr.brk (st.rtr.heap r) st.rtr.brk) with
          journal := la.Item, assignment := assignment,
          route := route.Copy.AttachEndpoints st.rtr.ks } : replica) = _
      rw [Function.update_same]
      rfl
  · next hc =>
    exact ⟨rfl, extends_refl _, fun h => h, fun h => absurd h hc, fun _ => ⟨rfl, rfl⟩⟩

theorem nudge_spec (st : UpdateState) (r : Nat) (name : Journal) (routeChanged : Bool)
    (urlHost : Endpoint → String) (grpcDial : String → Except Error ClientConn) :
    (nudge st r name routeChanged urlHost grpcDial).next = st.next ∧
    st.rtr.Extends (nudge st r name routeChanged urlHost grpcDial).rtr ∧
    (nudge st r name routeChanged urlHost grpcDial).rtr.brk = st.rtr.brk ∧
    (nudge st r name routeChanged urlHost grpcDial).rtr.heap = st.rtr.heap := by
  obtain ⟨h1, h2, h3⟩ := peerConn_extends st.rtr st.rtr.id urlHost grpcDial
  unfold nudge
  split
  · split
    · next conn rtr1 hpc =>
      rw [hpc] at h1 h2 h3
      exact ⟨rfl, h1, h2, h3⟩
    · next err rtr1 hpc =>
      rw [hpc] at h1 h2 h3
      exact ⟨rfl, h1, h2, h3⟩
  · exact ⟨rfl, extends_refl _, rfl, rfl⟩

theorem indexAt_ne_nil {α : Type} (xs : List α) (i : Int) (x : α)
    (h : indexAt xs i = some x) : xs ≠ [] := by
  intro hnil
  subst hnil
  unfold indexAt at h
  split at h <;> simp at h

/-- The route of a fresh replica differs from every route initialised from a non-empty
list of assignments. -/
theorem newReplica_route_changed (ctx : Nat) (assignments : List (KeyValue Assignment))
    (h : assignments ≠ []) :
    (newReplica ctx).route.Equivalent (Route.Init assignments) = false := by
  cases assignments with
  | nil => exact absurd rfl h
  | cons a rest => simp [newReplica, Route.Equivalent, Route.Init]

/-- One round of the loop of `UpdateLocalItems`: the heap is only extended, the other
journals of `next` are untouched, and `next[name]` is the previous replica when nothing
changed and otherwise a copy at a fresh address that holds the new fields. -/
theorem updateItem_spec (prev : List (Journal × Nat)) (urlHost : Endpoint → String)
    (grpcDial : String → Except Error ClientConn) (st st' : UpdateState) (la : LocalItem)
    (assignment : KeyValue Assignment)
    (hwf : ∀ e ∈ prev, e.2 < st.rtr.brk)
    (hidx : indexAt la.Assignments la.Index = some assignment)
    (h : updateItem prev urlHost grpcDial st la = some st') :
    st.rtr.Extends st'.rtr ∧
    (∀ other, other ≠ la.Item.Decoded.ID → mapGet st'.next other = mapGet st.next other) ∧
    ∃ q, st'.next = mapSet st.next la.Item.Decoded.ID q ∧
      mapGet st'.next la.Item.Decoded.ID = some q ∧ q < st'.rtr.brk ∧
      (∀ p, mapGet prev la.Item.Decoded.ID = some p →
        ((st.rtr.heap p).Unchanged la assignment → q = p) ∧
        (¬ (st.rtr.heap p).Unchanged la assignment →
          st.rtr.brk ≤ q ∧
          st'.rtr.heap q = (st.rtr.heap p).transitioned la assignment st.rtr.ks)) ∧
      (mapGet prev la.Item.Decoded.ID = none →
        st.rtr.brk ≤ q ∧
        st'.rtr.heap q =
          (newReplica st.rtr.nextCtx).transitioned la assignment st.rtr.ks) := by
  simp only [updateItem, hidx, Option.some.injEq] at h
  subst h
  obtain ⟨o1, o2, o3, o4, o5⟩ := obtainReplica_spec prev st la.Item.Decoded.ID hwf
  generalize obtainReplica prev st la.Item.Decoded.ID = o at *
  obtain ⟨r, st1⟩ := o
  dsimp only at o1 o2 o3 o4 o5 ⊢
  generalize hrc : (!((st1.rtr.heap r).route.Equivalent (Route.Init la.Assignments))) = rc
  obtain ⟨t1, t2, t3, t4, t5⟩ :=
    transition_spec st1 r la assignment (Route.Init la.Assignments) rc
  generalize transition st1 r la assignment (Route.Init la.Assignments) rc = t at *
  obtain ⟨r2, st2⟩ := t
  dsimp only at t1 t2 t3 t4 t5 ⊢
  obtain ⟨n1, n2, n3, n4⟩ := nudge_spec st2 r2 la.Item.Decoded.ID rc urlHost grpcDial
  generalize nudge st2 r2 la.Item.Decoded.ID rc urlHost grpcDial = st3 at *
  have hcond : ((st1.rtr.heap r).journal.Raw.ModRevision ≠ la.Item.Raw.ModRevision ∨
      (st1.rtr.heap r).assignment.Raw.ModRevision ≠ assignment.Raw.ModRevision ∨
      rc = true) ↔ ¬ (st1.rtr.heap r).Unchanged la assignment := by
    rw [← hrc]
    unfold replica.Unchanged
    cases (st1.rtr.heap r).route.Equivalent (Route.Init la.Assignments)
    · simp
    · simp
      tauto
  have hks : st1.rtr.ks = st.rtr.ks := o2.2.2.1
  refine ⟨extends_trans o2 (extends_trans t2 n2), fun other hne => ?_, r2, ?_,
    mapGet_mapSet_same _ _ _, ?_, fun p hp => ?_, fun hnone => ?_⟩
  · rw [mapGet_mapSet_other _ _ _ _ hne, n1, t1, o1]
  · rw [n1, t1, o1]
  · rw [n3]
    exact t3 o3
  · obtain ⟨hr, hst⟩ := o4 p hp
    subst hr
    subst hst
    constructor
    · intro hun
      exact (t5 (fun hc => (hcond.mp hc) hun)).1
    · intro hch
      obtain ⟨h1, h2⟩ := t4 (hcond.mpr hch)
      rw [h1, n4, h2]
      exact ⟨Nat.le_refl _, rfl⟩
  · obtain ⟨hr, hfresh⟩ := o5 hnone
    subst hr
    have hch : ¬ (st1.rtr.heap st.rtr.brk).Unchanged la assignment := by
      rw [hfresh]
      intro hun
      have := newReplica_route_changed st.rtr.nextCtx la.Assignments
        (indexAt_ne_nil _ _ _ hidx)
      rw [hun.2.2] at this
      cases this
    obtain ⟨h1, h2⟩ := t4 (hcond.mpr hch)
    rw [h1, n4, h2, hfresh, hks]
    exact ⟨o2.1, rfl⟩

theorem updateItem_index (prev : List (Journal × Nat)) (urlHost : Endpoint → String)
    (grpcDial : String → Except Error ClientConn) (st st' : UpdateState) (la : LocalItem)
    (h : updateItem prev urlHost grpcDial st la = some st') :
    ∃ assignment, indexAt la.Assignments la.Index = some assignment := by
  cases hidx : indexAt la.Assignments la.Index with
  | none => simp [updateItem, hidx] at h
  | some a => exact ⟨a, rfl⟩

theorem updateItem_isSome (prev : List (Journal × Nat)) (urlHost : Endpoint → String)
    (grpcDial : String → Except Error ClientConn) (st : UpdateState) (la : LocalItem)
    (h : (indexAt la.Assignments la.Index).isSome = true) :
    ∃ st', updateItem prev urlHost grpcDial st la = some st' := by
  obtain ⟨a, ha⟩ := Option.isSome_iff_exists.mp h
  simp [updateItem, ha]

/-- The loop of `UpdateLocalItems` does not panic when every local item's index is in
range. -/
theorem updateItems_isSome (prev : List (Journal × Nat)) (urlHost : Endpoint → String)
    (grpcDial : String → Except Error ClientConn) (items : List LocalItem)
    (st : UpdateState)
    (h : ∀ la ∈ items, (indexAt la.Assignments la.Index).isSome = true) :
    ∃ st', updateItems prev urlHost grpcDial items st = some st' := by
  induction items generalizing st with
  | nil => exact ⟨st, rfl⟩
  | cons la rest ih =>
    obtain ⟨st1, h1⟩ := updateItem_isSome prev urlHost grpcDial st la
      (h la (List.mem_cons_self _ _))
    obtain ⟨st2, h2⟩ := ih st1 (fun x hx => h x (List.mem_cons_of_mem _ hx))
    exact ⟨st2, by simp [updateItems, h1, h2]⟩

theorem updateItems_append (prev : List (Journal × Nat)) (urlHost : Endpoint → String)
    (grpcDial : String → Except Error ClientConn) (xs ys : List LocalItem)
    (st : UpdateState) :
    updateItems prev urlHost grpcDial (xs ++ ys) st =
      (updateItems prev urlHost grpcDial xs st).bind (updateItems prev urlHost grpcDial ys) := by
  induction xs generalizing st with
  | nil => rfl
  | cons la rest ih =>
    simp only [List.cons_append, updateItems]
    cases updateItem prev urlHost grpcDial st la with
    | none => rfl
    | some st1 => exact ih st1

/-- The loop of `UpdateLocalItems` only extends the heap, keeps every address of `next`
allocated, and leaves alone the entries of `next` for journals it does not visit. -/
theorem updateItems_extends (prev : List (Journal × Nat)) (urlHost : Endpoint → String)
    (grpcDial : String → Except Error ClientConn) (items : List LocalItem)
    (st st' : UpdateState)
    (hwf : ∀ e ∈ prev, e.2 < st.rtr.brk)
    (h : updateItems prev urlHost grpcDial items st = some st') :
    st.rtr.Extends st'.rtr ∧
    (∀ name, (∀ la ∈ items, la.Item.Decoded.ID ≠ name) →
      mapGet st'.next name = mapGet st.next name) ∧
    ((∀ e ∈ st.next, e.2 < st.rtr.brk) → ∀ e ∈ st'.next, e.2 < st'.rtr.brk) := by
  induction items generalizing st with
  | nil =>
    simp only [updateItems, Option.some.injEq] at h
    subst h
    exact ⟨extends_refl _, fun _ _ => rfl, fun hn => hn⟩
  | cons la rest ih =>
    simp only [updateItems] at h
    cases h1 : updateItem prev urlHost grpcDial st la with
    | none => rw [h1] at h; cases h
    | some st1 =>
      rw [h1] at h
      obtain ⟨a, ha⟩ := updateItem_index prev urlHost grpcDial st st1 la h1
      obtain ⟨s1, s2, q, s0, -, s4, -, -⟩ :=
        updateItem_spec prev urlHost grpcDial st st1 la a hwf ha h1
      have hwf1 : ∀ e ∈ prev, e.2 < st1.rtr.brk :=
        fun e he => Nat.lt_of_lt_of_le (hwf e he) s1.1
      obtain ⟨i1, i2, i3⟩ := ih st1 hwf1 h
      refine ⟨extends_trans s1 i1, fun name hname => ?_, fun hn => i3 ?_⟩
      · rw [i2 name (fun x hx => hname x (List.mem_cons_of_mem _ hx)),
          s2 name (fun hc => hname la (List.mem_cons_self _ _) hc.symm)]
      · intro e he
        rw [s0] at he
        rcases mapSet_mem _ _ _ _ he with hq | hm
        · rw [hq]
          exact s4
        · exact Nat.lt_of_lt_of_le (hn e hm) s1.1

theorem attachEndpoints_length (m : Route) (ks : KeySpace) :
    (m.AttachEndpoints ks).Endpoints.length = (m.AttachEndpoints ks).Brokers.length := by
  simp [Route.AttachEndpoints]

/-- C10: `Router.UpdateLocalItems` is copy-on-write.  On a router whose replica map holds
allocated addresses, and for local items whose index is in range, the call returns, and:
the new replica map again holds allocated addresses; no replica value allocated before the
call, in particular none reachable from the previous index, is changed; for the last local item of each journal, the new index holds the
existing replica of the journal exactly when the Item's ModRevision, the local Assignment's
ModRevision and the Route (up to equivalence) are all unchanged, and otherwise holds a copy
at an address allocated by the call whose journal, assignment and route are the new ones
(the other fields being those of the existing replica, or of a fresh replica when the
journal had none), the route carrying one endpoint per broker. -/
theorem updateLocalItems_copy_on_write (rtr : Router) (items : List LocalItem)
    (urlHost : Endpoint → String) (grpcDial : String → Except Error ClientConn)
    (hwf : rtr.WF)
    (hidx : ∀ la ∈ items, (indexAt la.Assignments la.Index).isSome = true) :
    ∃ rtr' spawned, rtr.UpdateLocalItems items urlHost grpcDial = some (rtr', spawned) ∧
      rtr'.WF ∧
      (∀ p, p < rtr.brk → rtr'.heap p = rtr.heap p) ∧
      (∀ e ∈ rtr.replicas, rtr'.heap e.2 = rtr.heap e.2) ∧
      (∀ pre la post assignment, items = pre ++ la :: post →
        (∀ x ∈ post, x.Item.Decoded.ID ≠ la.Item.Decoded.ID) →
        indexAt la.Assignments la.Index = some assignment →
        ∃ q, mapGet rtr'.replicas la.Item.Decoded.ID = some q ∧
          (∀ p, mapGet rtr.replicas la.Item.Decoded.ID = some p →
            (q = p ↔ (rtr.heap p).Unchanged la assignment) ∧
            (¬ (rtr.heap p).Unchanged la assignment →
              rtr.brk ≤ q ∧
              rtr'.heap q = (rtr.heap p).transitioned la assignment rtr.ks)) ∧
          (mapGet rtr.replicas la.Item.Decoded.ID = none →
            rtr.brk ≤ q ∧
            ∃ ctx, rtr'.heap q = (newReplica ctx).transitioned la assignment rtr.ks) ∧
          ((Route.Init la.Assignments).AttachEndpoints rtr.ks).Endpoints.length =
            ((Route.Init la.Assignments).AttachEndpoints rtr.ks).Brokers.length) := by
  obtain ⟨st, hst⟩ := updateItems_isSome rtr.replicas urlHost grpcDial items
    { rtr := rtr, next := [], spawned := [] } hidx
  obtain ⟨hext, -, hnext⟩ := updateItems_extends rtr.replicas urlHost grpcDial items
    { rtr := rtr, next := [], spawned := [] } st hwf hst
  have hframe : ∀ p, p < rtr.brk → st.rtr.heap p = rtr.heap p := hext.2.1
  refine ⟨{ st.rtr with
      replicas := st.next,
      cancelled := cancelRemoved st.rtr.heap st.next rtr.replicas st.rtr.cancelled },
    st.spawned, by simp only [Router.UpdateLocalItems, hst],
    hnext (fun e he => absurd he (List.not_mem_nil e)), hframe,
    fun e he => hframe e.2 (hwf e he), ?_⟩
  intro pre la post assignment hitems hpost hassign
  subst hitems
  rw [updateItems_append] at hst
  cases ha : updateItems rtr.replicas urlHost grpcDial pre
      { rtr := rtr, next := [], spawned := [] } with
  | none => rw [ha] at hst; cases hst
  | some sta =>
    rw [ha] at hst
    simp only [Option.some_bind, updateItems] at hst
    cases hb : updateItem rtr.replicas urlHost grpcDial sta la with
    | none => rw [hb] at hst; cases hst
    | some stb =>
      rw [hb] at hst
      dsimp only at hst
      obtain ⟨ea, -, -⟩ := updateItems_extends rtr.replicas urlHost grpcDial pre
        { rtr := rtr, next := [], spawned := [] } sta hwf ha
      have hwfa : ∀ e ∈ rtr.replicas, e.2 < sta.rtr.brk :=
        fun e he => Nat.lt_of_lt_of_le (hwf e he) ea.1
      obtain ⟨eb, -, q, -, hq, hqlt, hsome, hnone⟩ :=
        updateItem_spec rtr.replicas urlHost grpcDial sta stb la assignment hwfa hassign hb
      have hwfb : ∀ e ∈ rtr.replicas, e.2 < stb.rtr.brk :=
        fun e he => Nat.lt_of_lt_of_le (hwfa e he) eb.1
      obtain ⟨ec, hother, -⟩ := updateItems_extends rtr.replicas urlHost grpcDial post
        stb st hwfb hst
      have hheapq : st.rtr.heap q = stb.rtr.heap q := ec.2.1 q hqlt
      have hbrk : rtr.brk ≤ sta.rtr.brk := ea.1
      have hks : sta.rtr.ks = rtr.ks := ea.2.2.1
      refine ⟨q, ?_, fun p hp => ?_, fun hn => ?_, attachEndpoints_length _ _⟩
      · show mapGet st.next la.Item.Decoded.ID = some q
        rw [hother la.Item.Decoded.ID hpost, hq]
      · obtain ⟨e, he, hep⟩ := mapGet_mem _ _ _ hp
        have hplt : p < rtr.brk := hep ▸ hwf e he
        have hpa : sta.rtr.heap p = rtr.heap p := ea.2.1 p hplt
        obtain ⟨s1, s2⟩ := hsome p hp
        rw [hpa, hks] at s2
        rw [hpa] at s1
        refine ⟨⟨fun hqp => ?_, s1⟩, fun hch => ?_⟩
        · by_contra hch
          have := (s2 hch).1
          omega
        · obtain ⟨h1, h2⟩ := s2 hch
          exact ⟨Nat.le_trans hbrk h1, hheapq.trans h2⟩
      · obtain ⟨h1, h2⟩ := hnone hn
        rw [hks] at h2
        exact ⟨Nat.le_trans hbrk h1, sta.rtr.nextCtx, hheapq.trans h2⟩

/-- Witness of C10 on the fixture: after a primary handover of `item-1` and a new
assignment of `item-two`, the replica at address 0 is what it was. -/
theorem updateLocalItems_copy_on_write_witness :
    fixtureRouter.WF ∧
    ∃ rtr' spawned,
      fixtureRouter.UpdateLocalItems fixtureLocalItems (fun e => e) fixtureDial =
        some (rtr', spawned) ∧
      (∀ p, p < fixtureRouter.brk → rtr'.heap p = fixtureRouter.heap p) ∧
      (∀ e ∈ fixtureRouter.replicas, rtr'.heap e.2 = fixtureRouter.heap e.2) :=
  have hwf : fixtureRouter.WF := by
    intro e he
    simp only [fixtureRouter, List.mem_singleton] at he
    subst he
    decide
  ⟨hwf,
    match updateLocalItems_copy_on_write fixtureRouter fixtureLocalItems (fun e => e)
        fixtureDial hwf (by decide) with
    | ⟨rtr', spawned, h1, _, h2, h3, _⟩ => ⟨rtr', spawned, h1, h2, h3⟩⟩

/-! ## Routes built from the key space satisfy the Route invariant -/

theorem primaryIndex_bounds (assignments : List (KeyValue Assignment)) (i : Int) :
    primaryIndex assignments i = -1 ∨
      (i ≤ primaryIndex assignments i ∧ primaryIndex assignments i < i + assignments.length) := by
  induction assignments generalizing i with
  | nil => exact Or.inl rfl
  | cons kv rest ih =>
    simp only [primaryIndex, List.length_cons, Nat.cast_add, Nat.cast_one]
    split
    · right
      omega
    · rcases ih (i + 1) with h | h
      · exact Or.inl h
      · right
        omega

/-- A route initialised from assignments satisfies the Route invariant. -/
theorem route_init_valid (assignments : List (KeyValue Assignment)) :
    (Route.Init assignments).Valid := by
  unfold Route.Valid Route.Init
  simp only [List.length_map]
  rcases primaryIndex_bounds assignments 0 with h | h
  · rw [h]
    constructor
    · omega
    · have : (0 : Int) ≤ assignments.length := Int.ofNat_nonneg _
      omega
  · omega

/-- The route that the resolver builds from the key space satisfies the Route invariant. -/
theorem keyspaceRoute_valid (rtr : Router) (journal : Journal) :
    (rtr.keyspaceRoute journal).Valid :=
  route_init_valid _

/-- The random pick succeeds on every route that has a broker. -/
theorem randomReplica_isSome (m : Route) (zone : String) (rnd : Nat) (h : m.Brokers ≠ []) :
    ∃ b, m.RandomReplica zone rnd = some b := by
  unfold Route.RandomReplica
  split
  · have hpos : 0 < m.Brokers.length := List.length_pos.mpr h
    have hlt : rnd % m.Brokers.length < m.Brokers.length := Nat.mod_lt _ hpos
    exact ⟨m.Brokers[rnd % m.Brokers.length], List.getElem?_eq_getElem hlt⟩
  · next c cs _ =>
    have hlt : rnd % (c :: cs).length < (c :: cs).length :=
      Nat.mod_lt _ (by simp)
    exact ⟨(c :: cs)[rnd % (c :: cs).length], List.getElem?_eq_getElem hlt⟩

/-! ## The replica index after an update, and the replicas it cancels -/

theorem peerConn_nextCtx (rtr : Router) (id : BrokerSpec_ID)
    (urlHost : Endpoint → String) (grpcDial : String → Except Error ClientConn) :
    (rtr.peerConn id urlHost grpcDial).2.nextCtx = rtr.nextCtx := by
  unfold Router.peerConn
  split
  · rfl
  · split
    · rfl
    · split <;> rfl

theorem updateItem_nextCtx (prev : List (Journal × Nat)) (urlHost : Endpoint → String)
    (grpcDial : String → Except Error ClientConn) (st st' : UpdateState) (la : LocalItem)
    (h : updateItem prev urlHost grpcDial st la = some st') :
    st.rtr.nextCtx ≤ st'.rtr.nextCtx := by
  obtain ⟨a, ha⟩ := updateItem_index prev urlHost grpcDial st st' la h
  simp only [updateItem, ha, Option.some.injEq] at h
  subst h
  have ho : st.rtr.nextCtx ≤ (obtainReplica prev st la.Item.Decoded.ID).2.rtr.nextCtx := by
    unfold obtainReplica
    split
    · exact Nat.le_refl _
    · exact Nat.le_succ _
  generalize obtainReplica prev st la.Item.Decoded.ID = o at *
  obtain ⟨r, st1⟩ := o
  dsimp only at ho ⊢
  generalize (!((st1.rtr.heap r).route.Equivalent (Route.Init la.Assignments))) = rc
  have ht : (transition st1 r la a (Route.Init la.Assignments) rc).2.rtr.nextCtx =
      st1.rtr.nextCtx := by
    unfold transition
    split <;> rfl
  generalize transition st1 r la a (Route.Init la.Assignments) rc = t at *
  obtain ⟨r2, st2⟩ := t
  dsimp only at ht ⊢
  have hn : (nudge st2 r2 la.Item.Decoded.ID rc urlHost grpcDial).rtr.nextCtx =
      st2.rtr.nextCtx := by
    have hp := peerConn_nextCtx st2.rtr st2.rtr.id urlHost grpcDial
    unfold nudge
    split
    · split
      · next conn rtr1 hpc => rw [hpc] at hp; exact hp
      · next err rtr1 hpc => rw [hpc] at hp; exact hp
    · rfl
  show st.rtr.nextCtx ≤ (nudge st2 r2 la.Item.Decoded.ID rc urlHost grpcDial).rtr.nextCtx
  rw [hn, ht]
  exact ho

theorem mapSet_keys_nodup (m : List (Journal × Nat)) (name : Journal) (p : Nat)
    (h : (m.map Prod.fst).Nodup) : ((mapSet m name p).map Prod.fst).Nodup := by
  unfold mapSet
  rw [List.map_cons, List.nodup_cons]
  constructor
  · intro hmem
    obtain ⟨e, he, hname⟩ := List.mem_map.mp hmem
    have := (List.mem_filter.mp he).2
    simp [hname] at this
  · exact (List.filter_sublist _).map Prod.fst |>.nodup h

theorem mapGet_none_iff (m : List (Journal × Nat)) (name : Journal) :
    mapGet m name = none ↔ ∀ e ∈ m, e.1 ≠ name := by
  unfold mapGet
  rw [Option.map_eq_none', List.find?_eq_none]
  constructor
  · intro h e he
    simpa using h e he
  · intro h e he
    simpa using h e he

theorem mapGet_of_mem (m : List (Journal × Nat)) (e : Journal × Nat) (h : e ∈ m) :
    ∃ q, mapGet m e.1 = some q := by
  cases hg : mapGet m e.1 with
  | some q => exact ⟨q, rfl⟩
  | none => exact absurd rfl ((mapGet_none_iff m e.1).mp hg e h)

theorem updateItem_inv (rtr0 : Router) (urlHost : Endpoint → String)
    (grpcDial : String → Except Error ClientConn) (seen : List LocalItem)
    (st st' : UpdateState) (la : LocalItem) (hwf : rtr0.WF)
    (hinv : st.Inv rtr0 seen)
    (h : updateItem rtr0.replicas urlHost grpcDial st la = some st') :
    st'.Inv rtr0 (la :: seen) := by
  obtain ⟨i1, i2, i3, i4, i5⟩ := hinv
  have hwfs : ∀ e ∈ rtr0.replicas, e.2 < st.rtr.brk :=
    fun e he => Nat.lt_of_lt_of_le (hwf e he) i1.1
  obtain ⟨a, ha⟩ := updateItem_index rtr0.replicas urlHost grpcDial st st' la h
  obtain ⟨s1, s2, q, s0, s3, s4, hsome, hnone⟩ :=
    updateItem_spec rtr0.replicas urlHost grpcDial st st' la a hwfs ha h
  have hctx := updateItem_nextCtx rtr0.replicas urlHost grpcDial st st' la h
  have hext : rtr0.Extends st'.rtr := extends_trans i1 s1
  refine ⟨hext, Nat.le_trans i2 hctx, ?_, ?_, ?_⟩
  · rw [s0]
    exact mapSet_keys_nodup _ _ _ i3
  · intro e he
    rw [s0] at he
    rcases mapSet_mem _ _ _ _ he with hq | hm
    · subst hq
      refine ⟨s4, ⟨la, List.mem_cons_self _ _, rfl⟩, ?_⟩
      cases hp : mapGet rtr0.replicas la.Item.Decoded.ID with
      | some p =>
        left
        refine ⟨p, rfl, ?_⟩
        obtain ⟨e0, he0, hep⟩ := mapGet_mem _ _ _ hp
        have hplt : p < rtr0.brk := hep ▸ hwf e0 he0
        have hst : st.rtr.heap p = rtr0.heap p := i1.2.1 p hplt
        obtain ⟨u1, u2⟩ := hsome p hp
        by_cases hun : (st.rtr.heap p).Unchanged la a
        · have hqp : q = p := u1 hun
          show (st'.rtr.heap q).ctx = (rtr0.heap p).ctx
          rw [hqp, hext.2.1 p hplt]
        · show (st'.rtr.heap q).ctx = (rtr0.heap p).ctx
          rw [(u2 hun).2, ← hst]
          rfl
      | none =>
        right
        refine ⟨rfl, ?_⟩
        show rtr0.nextCtx ≤ (st'.rtr.heap q).ctx
        rw [(hnone hp).2]
        exact i2
    · obtain ⟨j1, ⟨la0, hla0, hname⟩, j3⟩ := i4 e hm
      have hheap : st'.rtr.heap e.2 = st.rtr.heap e.2 := s1.2.1 e.2 j1
      refine ⟨Nat.lt_of_lt_of_le j1 s1.1, ⟨la0, List.mem_cons_of_mem _ hla0, hname⟩, ?_⟩
      rw [hheap]
      exact j3
  · intro la0 hla0
    by_cases hname : la0.Item.Decoded.ID = la.Item.Decoded.ID
    · exact ⟨q, by rw [hname]; exact s3⟩
    · rcases List.mem_cons.mp hla0 with heq | hold
      · exact absurd (by rw [heq]) hname
      · obtain ⟨q0, hq0⟩ := i5 la0 hold
        exact ⟨q0, by rw [s2 _ hname]; exact hq0⟩

theorem updateItems_inv (rtr0 : Router) (urlHost : Endpoint → String)
    (grpcDial : String → Except Error ClientConn) (items seen : List LocalItem)
    (st st' : UpdateState) (hwf : rtr0.WF)
    (hinv : st.Inv rtr0 seen)
    (h : updateItems rtr0.replicas urlHost grpcDial items st = some st') :
    st'.Inv rtr0 (items.reverse ++ seen) := by
  induction items generalizing st seen with
  | nil =>
    simp only [updateItems, Option.some.injEq] at h
    subst h
    exact hinv
  | cons la rest ih =>
    simp only [updateItems] at h
    cases h1 : updateItem rtr0.replicas urlHost grpcDial st la with
    | none => rw [h1] at h; cases h
    | some st1 =>
      rw [h1] at h
      have := ih (la :: seen) st1 (updateItem_inv rtr0 urlHost grpcDial seen st st1 la hwf hinv h1) h
      simpa using this

/-- The contexts in the cancelled log after the cancel loop: those already there, and
those of the entries of the previous map whose journal is absent from `next`. -/
theorem mem_cancelRemoved (heap : Nat → replica) (next prev : List (Journal × Nat))
    (cancelled : List Nat) (c : Nat) :
    c ∈ cancelRemoved heap next prev cancelled ↔
      c ∈ cancelled ∨ ∃ e ∈ prev, mapGet next e.1 = none ∧ (heap e.2).ctx = c := by
  induction prev generalizing cancelled with
  | nil => simp [cancelRemoved]
  | cons e rest ih =>
    obtain ⟨name, p⟩ := e
    simp only [cancelRemoved]
    split
    · next hnone =>
      have hn : mapGet next name = none := by simpa using hnone
      rw [ih]
      simp only [List.mem_cons, exists_eq_or_imp, hn, true_and]
      constructor
      · rintro ((h | h) | h)
        · exact Or.inr (Or.inl h.symm)
        · exact Or.inl h
        · exact Or.inr (Or.inr h)
      · rintro (h | h | h)
        · exact Or.inl (Or.inr h)
        · exact Or.inl (Or.inl h.symm)
        · exact Or.inr h
    · next hsome =>
      have hn : ¬ mapGet next name = none := by simpa using hsome
      rw [ih]
      simp only [List.mem_cons, exists_eq_or_imp, hn, false_and, false_or]

theorem mapGet_mem_key (m : List (Journal × Nat)) (name : Journal) (p : Nat)
    (h : mapGet m name = some p) : (name, p) ∈ m := by
  unfold mapGet at h
  cases hf : m.find? (fun e => e.1 == name) with
  | none => rw [hf] at h; cases h
  | some e =>
    rw [hf] at h
    simp only [Option.map_some', Option.some.injEq] at h
    have hk : e.1 = name := by simpa using List.find?_some hf
    have hmem := List.mem_of_find?_eq_some hf
    rw [← hk, ← h]
    exact hmem

/-- C11: after `Router.UpdateLocalItems(items)`, on a router whose replica map holds
allocated addresses and whose replicas of different journals have different cancellation
contexts, and for local items whose index is in range, the replica index holds exactly one
entry per journal named in `items` and no other journal; the cancellation contexts that the
call cancels are exactly those of the journals present in the previous index and absent
from the new one; and no replica of a journal of the new index is cancelled by the call. -/
theorem updateLocalItems_index_and_cancellations (rtr : Router) (items : List LocalItem)
    (urlHost : Endpoint → String) (grpcDial : String → Except Error ClientConn)
    (hwf : rtr.WF) (hctx : rtr.ContextsWF)
    (hidx : ∀ la ∈ items, (indexAt la.Assignments la.Index).isSome = true) :
    ∃ rtr' spawned, rtr.UpdateLocalItems items urlHost grpcDial = some (rtr', spawned) ∧
      (rtr'.replicas.map Prod.fst).Nodup ∧
      (∀ name, (∃ e ∈ rtr'.replicas, e.1 = name) ↔
        ∃ la ∈ items, la.Item.Decoded.ID = name) ∧
      (∀ c, c ∈ rtr'.cancelled ↔ c ∈ rtr.cancelled ∨ cancelledByCall rtr rtr' c) ∧
      (∀ e ∈ rtr'.replicas, ¬ cancelledByCall rtr rtr' (rtr'.heap e.2).ctx) := by
  obtain ⟨st, hst⟩ := updateItems_isSome rtr.replicas urlHost grpcDial items
    { rtr := rtr, next := [], spawned := [] } hidx
  have hinv0 : UpdateState.Inv rtr [] { rtr := rtr, next := [], spawned := [] } :=
    ⟨extends_refl rtr, Nat.le_refl _, List.nodup_nil,
      fun e he => absurd he (List.not_mem_nil e),
      fun la hla => absurd hla (List.not_mem_nil la)⟩
  obtain ⟨i1, -, i3, i4, i5⟩ :=
    updateItems_inv rtr urlHost grpcDial items [] _ st hwf hinv0 hst
  have hheap : ∀ e ∈ rtr.replicas, st.rtr.heap e.2 = rtr.heap e.2 :=
    fun e he => i1.2.1 e.2 (hwf e he)
  have hcancel : ∀ c, cancelledByCall rtr
      { st.rtr with
        replicas := st.next,
        cancelled := cancelRemoved st.rtr.heap st.next rtr.replicas st.rtr.cancelled } c ↔
      ∃ e ∈ rtr.replicas, mapGet st.next e.1 = none ∧ (rtr.heap e.2).ctx = c :=
    fun c => Iff.rfl
  refine ⟨{ st.rtr with
      replicas := st.next,
      cancelled := cancelRemoved st.rtr.heap st.next rtr.replicas st.rtr.cancelled },
    st.spawned, by simp only [Router.UpdateLocalItems, hst], i3, fun name => ?_,
    fun c => ?_, fun e he => ?_⟩
  · constructor
    · rintro ⟨e, he, hname⟩
      obtain ⟨-, ⟨la, hla, hid⟩, -⟩ := i4 e he
      refine ⟨la, ?_, hid.trans hname⟩
      simpa using hla
    · rintro ⟨la, hla, hname⟩
      obtain ⟨q, hq⟩ := i5 la (by simpa using hla)
      exact ⟨(la.Item.Decoded.ID, q), mapGet_mem_key _ _ _ hq, hname⟩
  · rw [hcancel]
    show c ∈ cancelRemoved st.rtr.heap st.next rtr.replicas st.rtr.cancelled ↔ _
    rw [mem_cancelRemoved, i1.2.2.2.2.2]
    constructor
    · rintro (h | ⟨e, he, hn, hc⟩)
      · exact Or.inl h
      · exact Or.inr ⟨e, he, hn, by rw [← hheap e he]; exact hc⟩
    · rintro (h | ⟨e, he, hn, hc⟩)
      · exact Or.inl h
      · exact Or.inr ⟨e, he, hn, by rw [hheap e he]; exact hc⟩
  · rw [hcancel]
    rintro ⟨e0, he0, hn, hc⟩
    have hne : ∀ x ∈ st.next, x.1 ≠ e0.1 := (mapGet_none_iff _ _).mp hn
    obtain ⟨-, -, hk⟩ := i4 e he
    rcases hk with ⟨p, hp, hcp⟩ | ⟨-, hfresh⟩
    · have hmem := mapGet_mem_key _ _ _ hp
      have hsame : e0.1 = e.1 := by
        have := hctx.1 e0 he0 (e.1, p) hmem
          (by
            show (rtr.heap e0.2).ctx = (rtr.heap p).ctx
            rw [hc, ← hcp])
        exact this
      exact hne e he hsame.symm
    · have hlt := hctx.2 e0 he0
      have : (rtr.heap e0.2).ctx = (st.rtr.heap e.2).ctx := hc
      omega

/-- Witness of C11 on the fixture: when only `item-two` remains assigned to the broker, the
new index holds `item-two` alone and the context of the replica of `item-1` is cancelled. -/
theorem updateLocalItems_index_and_cancellations_witness :
    fixtureRouter.WF ∧ fixtureRouter.ContextsWF ∧
    ∃ rtr' spawned,
      fixtureRouter.UpdateLocalItems (fixtureLocalItems.drop 1) (fun e => e) fixtureDial =
        some (rtr', spawned) ∧
      (rtr'.replicas.map Prod.fst).Nodup ∧
      (∀ c, c ∈ rtr'.cancelled ↔ c ∈ fixtureRouter.cancelled ∨
        cancelledByCall fixtureRouter rtr' c) ∧
      (∀ e ∈ rtr'.replicas, ¬ cancelledByCall fixtureRouter rtr' (rtr'.heap e.2).ctx) :=
  have hwf : fixtureRouter.WF := by
    intro e he
    simp only [fixtureRouter, List.mem_singleton] at he
    subst he
    decide
  have hctx : fixtureRouter.ContextsWF := by
    constructor
    · intro e1 he1 e2 he2 _
      simp only [fixtureRouter, List.mem_singleton] at he1 he2
      rw [he1, he2]
    · intro e he
      simp only [fixtureRouter, List.mem_singleton] at he
      subst he
      decide
  ⟨hwf, hctx,
    match updateLocalItems_index_and_cancellations fixtureRouter (fixtureLocalItems.drop 1)
        (fun e => e) fixtureDial hwf hctx (by decide) with
    | ⟨rtr', spawned, h1, h2, _, h4, h5⟩ => ⟨rtr', spawned, h1, h2, h4, h5⟩⟩

/-! ## The left-join law -/

theorem stepWhile_spec (p : Nat → Bool) (lenR fuel i : Nat) (hi : i ≤ lenR)
    (hfuel : lenR - i ≤ fuel) :
    i ≤ stepWhile p lenR fuel i ∧ stepWhile p lenR fuel i ≤ lenR ∧
    (∀ r, i ≤ r → r < stepWhile p lenR fuel i → p r = true) ∧
    (stepWhile p lenR fuel i = lenR ∨ p (stepWhile p lenR fuel i) = false) := by
  induction fuel generalizing i with
  | zero =>
    have : i = lenR := by omega
    subst this
    exact ⟨Nat.le_refl _, Nat.le_refl _, fun r h1 h2 => by simp [stepWhile] at h2; omega,
      Or.inl rfl⟩
  | succ n ih =>
    unfold stepWhile
    split
    · next hc =>
      simp only [Bool.and_eq_true, bne_iff_ne, ne_eq] at hc
      obtain ⟨h1, h2, h3, h4⟩ := ih (i + 1) (by omega) (by omega)
      refine ⟨by omega, h2, fun r hr1 hr2 => ?_, h4⟩
      by_cases hri : r = i
      · rw [hri]; exact hc.2
      · exact h3 r (by omega) hr2
    · next hc =>
      simp only [Bool.and_eq_true, bne_iff_ne, ne_eq, not_and, Bool.not_eq_true] at hc
      refine ⟨Nat.le_refl _, hi, fun r h1 h2 => by omega, ?_⟩
      by_cases hil : i = lenR
      · exact Or.inl hil
      · exact Or.inr (hc hil)

/-- One call of `next` before the last left index: it returns the cursor of the current
left index, the cursor obeys the law, its `rightEnd` is not below the previous one, and
the invariant holds again. -/
theorem next_spec (j : leftJoin) (hmono : MonotoneCompare j.lenL j.lenR j.compare)
    (hinv : j.Inv) (hl : j.cur.left < j.lenL) :
    ∃ c, j.next = (some c,
        { j with cur := { left := j.cur.left + 1, rightBegin := c.rightBegin,
                          rightEnd := c.rightEnd } }) ∧
      c.left = j.cur.left ∧ c.Joins j.lenR j.compare ∧ j.cur.rightEnd ≤ c.rightEnd ∧
      leftJoin.Inv { j with cur := { left := j.cur.left + 1, rightBegin := c.rightBegin,
                                     rightEnd := c.rightEnd } } := by
  obtain ⟨m1, m2, m3, m4⟩ := hmono
  obtain ⟨i1, i2, i3, i4⟩ := hinv
  obtain ⟨a1, a2, a3, a4⟩ := stepWhile_spec
    (fun r => decide (j.compare j.cur.left r > 0)) j.lenR
    (j.lenR - j.cur.rightBegin) j.cur.rightBegin (by omega) (Nat.le_refl _)
  generalize hrb : stepWhile (fun r => decide (j.compare j.cur.left r > 0)) j.lenR
    (j.lenR - j.cur.rightBegin) j.cur.rightBegin = rb at a1 a2 a3 a4
  have hre0 : j.cur.rightEnd ≤ (if j.cur.rightEnd < rb then rb else j.cur.rightEnd) ∧
      rb ≤ (if j.cur.rightEnd < rb then rb else j.cur.rightEnd) ∧
      (if j.cur.rightEnd < rb then rb else j.cur.rightEnd) ≤ j.lenR ∧
      ((if j.cur.rightEnd < rb then rb else j.cur.rightEnd) = rb ∨
        (if j.cur.rightEnd < rb then rb else j.cur.rightEnd) = j.cur.rightEnd) := by
    split <;> omega
  generalize hr0 : (if j.cur.rightEnd < rb then rb else j.cur.rightEnd) = re0 at hre0
  obtain ⟨e1, e2, e3, e4⟩ := hre0
  obtain ⟨b1, b2, b3, b4⟩ := stepWhile_spec
    (fun r => decide (j.compare j.cur.left r = 0)) j.lenR (j.lenR - re0) re0 e3
    (Nat.le_refl _)
  generalize hre : stepWhile (fun r => decide (j.compare j.cur.left r = 0)) j.lenR
    (j.lenR - re0) re0 = re at b1 b2 b3 b4
  simp only [gt_iff_lt, decide_eq_true_eq, decide_eq_false_iff_not, not_lt] at a3 a4 b3 b4
  -- what the scans established
  have hA : ∀ r, r < rb → 0 < j.compare j.cur.left r := by
    intro r hr
    by_cases h : r < j.cur.rightBegin
    · exact i3 r h _ (Nat.le_refl _) hl
    · exact a3 r (by omega) hr
  have hB : ∀ r, rb ≤ r → r < j.lenR → j.compare j.cur.left r ≤ 0 := by
    intro r h1 h2
    rcases a4 with h | h
    · omega
    · exact m3 _ rb r h1 h2 hl h
  have hC : ∀ r, rb ≤ r → r < re → j.compare j.cur.left r = 0 := by
    intro r h1 h2
    by_cases h : r < re0
    · have hlt : r < j.cur.rightEnd := by omega
      have := i4 r hlt _ (Nat.le_refl _) hl
      have := hB r h1 (by omega)
      omega
    · exact b3 r (by omega) h2
  have hD : ∀ r, re ≤ r → r < j.lenR → j.compare j.cur.left r < 0 := by
    intro r h1 h2
    rcases b4 with h | h
    · omega
    · have := hB re (by omega) (by omega)
      exact m4 _ re r h1 h2 hl (by omega)
  refine ⟨{ left := j.cur.left, rightBegin := rb, rightEnd := re }, ?_, rfl, ?_, ?_, ?_⟩
  · unfold leftJoin.next
    rw [if_neg (by omega)]
    simp only [hrb, hr0, hre]
  · unfold cursor.Joins
    dsimp only
    refine ⟨by omega, b2, fun r hr => ⟨fun h0 => ?_, fun h => hC r h.1 h.2⟩⟩
    constructor
    · by_contra hc
      have := hA r (by omega)
      omega
    · by_contra hc
      have := hD r (by omega) hr
      omega
  · dsimp only
    omega
  · unfold leftJoin.Inv
    dsimp only
    refine ⟨by omega, b2, fun r hr l h1 h2 => ?_, fun r hr l h1 h2 => ?_⟩
    · exact m1 j.cur.left l r (by omega) h2 (by omega) (hA r hr)
    · by_cases h : r < rb
      · have := m1 j.cur.left l r (by omega) h2 (by omega) (hA r h)
        exact Int.le_of_lt this
      · exact m2 j.cur.left l r (by omega) h2 (by omega) (by rw [hC r (by omega) hr])

/-- Draining an iterator that satisfies the invariant: one cursor per remaining left
index, in order, each obeying the law, with non-decreasing `rightEnd`; and the next call
reports exhaustion. -/
theorem drain_spec (n : Nat) (j : leftJoin) (fuel : Nat)
    (hmono : MonotoneCompare j.lenL j.lenR j.compare) (hinv : j.Inv)
    (hn : j.lenL - j.cur.left = n) (hle : j.cur.left ≤ j.lenL) (hfuel : n < fuel) :
    (j.drain fuel).1.map cursor.left = List.range' j.cur.left n ∧
    (∀ c ∈ (j.drain fuel).1, c.Joins j.lenR j.compare ∧ j.cur.rightEnd ≤ c.rightEnd) ∧
    (j.drain fuel).1.Pairwise (fun a b => a.rightEnd ≤ b.rightEnd) ∧
    (j.drain fuel).2.next.1 = none := by
  induction n generalizing j fuel with
  | zero =>
    obtain ⟨f, rfl⟩ : ∃ f, fuel = f + 1 := ⟨fuel - 1, by omega⟩
    have hnext : j.next = (none, j) := by
      unfold leftJoin.next
      rw [if_pos (by omega)]
    have hdrain : j.drain (f + 1) = ([], j) := by
      simp only [leftJoin.drain, hnext]
    rw [hdrain]
    refine ⟨rfl, fun c hc => absurd hc (List.not_mem_nil c), List.Pairwise.nil, ?_⟩
    show j.next.1 = none
    rw [hnext]
  | succ n ih =>
    obtain ⟨f, rfl⟩ : ∃ f, fuel = f + 1 := ⟨fuel - 1, by omega⟩
    obtain ⟨c, hnext, hleft, hjoin, hend, hinv1⟩ := next_spec j hmono hinv (by omega)
    generalize hj1 : leftJoin.mk j.lenL j.lenR j.compare
      (cursor.mk (j.cur.left + 1) c.rightBegin c.rightEnd) = j1 at hnext hinv1
    have e1 : j1.lenL = j.lenL := by rw [← hj1]
    have e2 : j1.lenR = j.lenR := by rw [← hj1]
    have e3 : j1.compare = j.compare := by rw [← hj1]
    have e4 : j1.cur.left = j.cur.left + 1 := by rw [← hj1]
    have e5 : j1.cur.rightEnd = c.rightEnd := by rw [← hj1]
    obtain ⟨h1, h2, h3, h4⟩ := ih j1 f (by rw [e1, e2, e3]; exact hmono) hinv1
      (by rw [e1, e4]; omega) (by rw [e1, e4]; omega) (by omega)
    have hdrain : j.drain (f + 1) = (c :: (j1.drain f).1, (j1.drain f).2) := by
      simp only [leftJoin.drain, hnext]
    rw [hdrain]
    refine ⟨?_, ?_, ?_, h4⟩
    · rw [List.map_cons, List.range'_succ, hleft, h1, e4]
    · intro c1 hc1
      rcases List.mem_cons.mp hc1 with heq | hmem
      · rw [heq]
        exact ⟨hjoin, hend⟩
      · obtain ⟨g1, g2⟩ := h2 c1 hmem
        rw [e2, e3] at g1
        rw [e5] at g2
        exact ⟨g1, Nat.le_trans hend g2⟩
    · rw [List.pairwise_cons]
      exact ⟨fun c1 hc1 => by have := (h2 c1 hc1).2; rw [e5] at this; exact this, h3⟩

/-- The comparator of two lists that are sorted under a total preorder is monotone. -/
theorem monotoneCompare_of_sorted {α : Type} (cmp : α → α → Int) (L R : List α)
    (compare : Nat → Nat → Int)
    (hanti : ∀ a b, cmp a b = - cmp b a)
    (htrans : ∀ a b c, cmp a b ≤ 0 → cmp b c ≤ 0 → cmp a c ≤ 0)
    (hL : L.Pairwise (fun a b => cmp a b ≤ 0))
    (hR : R.Pairwise (fun a b => cmp a b ≤ 0))
    (hcompare : ∀ l r (hl : l < L.length) (hr : r < R.length),
      compare l r = cmp (L.get ⟨l, hl⟩) (R.get ⟨r, hr⟩)) :
    MonotoneCompare L.length R.length compare := by
  have hrefl : ∀ a, cmp a a = 0 := fun a => by
    have := hanti a a
    omega
  have hLs : ∀ i j (hi : i < L.length) (hj : j < L.length), i ≤ j →
      cmp (L.get ⟨i, hi⟩) (L.get ⟨j, hj⟩) ≤ 0 := by
    intro i j hi hj hij
    by_cases h : i = j
    · subst h
      rw [hrefl]
    · exact (List.pairwise_iff_getElem.mp hL) i j hi hj (by omega)
  have hRs : ∀ i j (hi : i < R.length) (hj : j < R.length), i ≤ j →
      cmp (R.get ⟨i, hi⟩) (R.get ⟨j, hj⟩) ≤ 0 := by
    intro i j hi hj hij
    by_cases h : i = j
    · subst h
      rw [hrefl]
    · exact (List.pairwise_iff_getElem.mp hR) i j hi hj (by omega)
  refine ⟨fun l l' r h1 h2 h3 h4 => ?_, fun l l' r h1 h2 h3 h4 => ?_,
    fun l r r' h1 h2 h3 h4 => ?_, fun l r r' h1 h2 h3 h4 => ?_⟩
  · have hl : l < L.length := by omega
    rw [hcompare l r hl h3] at h4
    rw [hcompare l' r h2 h3]
    by_contra hc
    have := htrans _ _ _ (hLs l l' hl h2 h1) (by omega : cmp (L.get ⟨l', h2⟩) (R.get ⟨r, h3⟩) ≤ 0)
    omega
  · have hl : l < L.length := by omega
    rw [hcompare l r hl h3] at h4
    rw [hcompare l' r h2 h3]
    have h5 : cmp (R.get ⟨r, h3⟩) (L.get ⟨l, hl⟩) ≤ 0 := by
      have := hanti (R.get ⟨r, h3⟩) (L.get ⟨l, hl⟩)
      omega
    have := htrans _ _ _ h5 (hLs l l' hl h2 h1)
    have := hanti (R.get ⟨r, h3⟩) (L.get ⟨l', h2⟩)
    omega
  · have hr : r < R.length := by omega
    rw [hcompare l r h3 hr] at h4
    rw [hcompare l r' h3 h2]
    exact htrans _ _ _ h4 (hRs r r' hr h2 h1)
  · have hr : r < R.length := by omega
    rw [hcompare l r h3 hr] at h4
    rw [hcompare l r' h3 h2]
    by_contra hc
    have h5 : cmp (R.get ⟨r', h2⟩) (L.get ⟨l, h3⟩) ≤ 0 := by
      have := hanti (R.get ⟨r', h2⟩) (L.get ⟨l, h3⟩)
      omega
    have := htrans _ _ _ (hRs r r' hr h2 h1) h5
    have := hanti (R.get ⟨r, hr⟩) (L.get ⟨l, h3⟩)
    omega

/-- C12, the left-join law: for all lists `L` and `R` and every total-preorder comparator
`cmp` under which `L` and `R` are each in sorted order, calling
`leftJoin{lenL: |L|, lenR: |R|, compare: cmp}.next()` until it reports exhaustion (any
fuel above `|L|` suffices) yields exactly `|L|` cursors with `left = 0, 1, ..., |L|-1` in
that order; each cursor has `rightBegin ≤ rightEnd ≤ |R|` and `compare(left, r) == 0`
exactly for the `r` in `[rightBegin, rightEnd)`; `rightEnd` is non-decreasing across the
sequence; and the next call after the last cursor returns `ok = false`. -/
theorem leftJoin_law {α : Type} (cmp : α → α → Int) (L R : List α)
    (compare : Nat → Nat → Int) (fuel : Nat)
    (hanti : ∀ a b, cmp a b = - cmp b a)
    (htrans : ∀ a b c, cmp a b ≤ 0 → cmp b c ≤ 0 → cmp a c ≤ 0)
    (hL : L.Pairwise (fun a b => cmp a b ≤ 0))
    (hR : R.Pairwise (fun a b => cmp a b ≤ 0))
    (hcompare : ∀ l r (hl : l < L.length) (hr : r < R.length),
      compare l r = cmp (L.get ⟨l, hl⟩) (R.get ⟨r, hr⟩))
    (hfuel : L.length < fuel) :
    ((newLeftJoin L.length R.length compare).drain fuel).1.length = L.length ∧
    ((newLeftJoin L.length R.length compare).drain fuel).1.map cursor.left =
      List.range L.length ∧
    (∀ c ∈ ((newLeftJoin L.length R.length compare).drain fuel).1,
      c.Joins R.length compare) ∧
    ((newLeftJoin L.length R.length compare).drain fuel).1.Pairwise
      (fun a b => a.rightEnd ≤ b.rightEnd) ∧
    ((newLeftJoin L.length R.length compare).drain fuel).2.next.1 = none := by
  have hmono := monotoneCompare_of_sorted cmp L R compare hanti htrans hL hR hcompare
  have hinv : (newLeftJoin L.length R.length compare).Inv :=
    ⟨Nat.le_refl _, Nat.zero_le _, fun r hr => absurd hr (Nat.not_lt_zero r),
      fun r hr => absurd hr (Nat.not_lt_zero r)⟩
  obtain ⟨h1, h2, h3, h4⟩ := drain_spec L.length (newLeftJoin L.length R.length compare)
    fuel hmono hinv rfl (Nat.zero_le _) hfuel
  have hrange : ((newLeftJoin L.length R.length compare).drain fuel).1.map cursor.left =
      List.range L.length := by
    rw [h1, List.range_eq_range']
    rfl
  refine ⟨?_, hrange, fun c hc => (h2 c hc).1, h3, h4⟩
  have := congrArg List.length hrange
  simpa using this

theorem compareInt_anti (a b : Int) : compareInt a b = - compareInt b a := by
  unfold compareInt
  split_ifs <;> omega

theorem compareInt_trans (a b c : Int) (h1 : compareInt a b ≤ 0) (h2 : compareInt b c ≤ 0) :
    compareInt a c ≤ 0 := by
  unfold compareInt at *
  split_ifs at h1 h2 ⊢ <;> omega

/-- The model of `leftJoin` yields the cursors that `TestLeftJoin` expects, in both
directions of the test, and then reports exhaustion. -/
theorem testLeftJoin_expected :
    ((newLeftJoin 9 9 testLeftJoinCompare).drain 10).1 =
      [⟨0, 0, 1⟩, ⟨1, 0, 1⟩, ⟨2, 1, 1⟩, ⟨3, 1, 4⟩, ⟨4, 1, 4⟩, ⟨5, 4, 6⟩, ⟨6, 8, 9⟩,
       ⟨7, 9, 9⟩, ⟨8, 9, 9⟩] ∧
    ((newLeftJoin 9 9 testLeftJoinCompare).drain 10).2.next.1 = none ∧
    ((newLeftJoin 9 9 (fun l r => -1 * testLeftJoinCompare r l)).drain 10).1 =
      [⟨0, 0, 2⟩, ⟨1, 3, 5⟩, ⟨2, 3, 5⟩, ⟨3, 3, 5⟩, ⟨4, 5, 6⟩, ⟨5, 5, 6⟩, ⟨6, 6, 6⟩,
       ⟨7, 6, 6⟩, ⟨8, 6, 7⟩] ∧
    ((newLeftJoin 9 9 (fun l r => -1 * testLeftJoinCompare r l)).drain 10).2.next.1 = none := by
  decide

/-- Witness of C12 on the lists of `TestLeftJoin`. -/
theorem leftJoin_law_witness :
    ((newLeftJoin 9 9 testLeftJoinCompare).drain 10).1.length = 9 ∧
    ((newLeftJoin 9 9 testLeftJoinCompare).drain 10).1.map cursor.left = List.range 9 ∧
    (∀ c ∈ ((newLeftJoin 9 9 testLeftJoinCompare).drain 10).1,
      c.Joins 9 testLeftJoinCompare) ∧
    ((newLeftJoin 9 9 testLeftJoinCompare).drain 10).1.Pairwise
      (fun a b => a.rightEnd ≤ b.rightEnd) ∧
    ((newLeftJoin 9 9 testLeftJoinCompare).drain 10).2.next.1 = none :=
  leftJoin_law compareInt testLeftJoinL1 testLeftJoinL2 testLeftJoinCompare 10
    compareInt_anti compareInt_trans (by decide) (by decide)
    (fun l r hl hr => by
      unfold testLeftJoinCompare
      rw [List.getD_eq_getElem _ _ hl, List.getD_eq_getElem _ _ hr]
      rfl)
    (by decide)

/-! ## The laws of `compareAssignment`, and the byte order of assignment keys -/

theorem char_eq_of_toNat (a b : Char) (h : a.toNat = b.toNat) : a = b := by
  apply Char.ext
  apply UInt32.ext
  exact h

theorem compareChars_anti (a b : List Char) : compareChars a b = - compareChars b a := by
  induction a generalizing b with
  | nil => cases b <;> simp [compareChars]
  | cons x xs ih =>
    cases b with
    | nil => simp [compareChars]
    | cons y ys =>
      simp only [compareChars]
      split_ifs <;> first | omega | exact ih ys

theorem compareChars_eq_zero (a b : List Char) (h : compareChars a b = 0) : a = b := by
  induction a generalizing b with
  | nil =>
    cases b with
    | nil => rfl
    | cons y ys => simp [compareChars] at h
  | cons x xs ih =>
    cases b with
    | nil => simp [compareChars] at h
    | cons y ys =>
      simp only [compareChars] at h
      split_ifs at h with h1 h2
      all_goals first
        | omega
        | (have hxy : x = y := char_eq_of_toNat x y (by omega)
           rw [hxy, ih ys h])

theorem compareChars_range (a b : List Char) :
    compareChars a b = -1 ∨ compareChars a b = 0 ∨ compareChars a b = 1 := by
  induction a generalizing b with
  | nil => cases b <;> simp [compareChars]
  | cons x xs ih =>
    cases b with
    | nil => simp [compareChars]
    | cons y ys =>
      simp only [compareChars]
      split_ifs
      · exact Or.inl rfl
      · exact Or.inr (Or.inr rfl)
      · exact ih ys

theorem compareChars_trans (a b c : List Char) (h1 : compareChars a b ≤ 0)
    (h2 : compareChars b c ≤ 0) : compareChars a c ≤ 0 := by
  induction a generalizing b c with
  | nil => cases c <;> simp [compareChars]
  | cons x xs ih =>
    cases b with
    | nil => simp [compareChars] at h1
    | cons y ys =>
      cases c with
      | nil => simp [compareChars] at h2
      | cons z zs =>
        simp only [compareChars] at h1 h2 ⊢
        split_ifs at h1 h2 ⊢ <;> first | omega | exact ih ys zs h1 h2

theorem compareString_refl (a : String) : compareString a a = 0 := by
  have := compareChars_anti a.data a.data
  unfold compareString
  omega

theorem compareString_eq_zero (a b : String) (h : compareString a b = 0) : a = b := by
  have := compareChars_eq_zero a.data b.data h
  cases a; cases b
  simp_all

/-- A strict step followed by a weak one is strict. -/
theorem compareString_lt_of_lt_of_le (a b c : String) (h1 : compareString a b < 0)
    (h2 : compareString b c ≤ 0) : compareString a c < 0 := by
  have ht := compareChars_trans a.data b.data c.data (Int.le_of_lt h1) h2
  by_contra hc
  have h0 : compareString a c = 0 := by unfold compareString at *; omega
  have hac := compareString_eq_zero a c h0
  subst hac
  have := compareChars_anti a.data b.data
  unfold compareString at *
  omega

theorem compareString_lt_of_le_of_lt (a b c : String) (h1 : compareString a b ≤ 0)
    (h2 : compareString b c < 0) : compareString a c < 0 := by
  have ht := compareChars_trans a.data b.data c.data h1 (Int.le_of_lt h2)
  by_contra hc
  have h0 : compareString a c = 0 := by unfold compareString at *; omega
  have hac := compareString_eq_zero a c h0
  subst hac
  have := compareChars_anti a.data b.data
  unfold compareString at *
  omega

/-- Transitivity passes through one level of a lexicographic comparison. -/
theorem lex_step_trans (a b c : String) (x y z : Int)
    (hrest : x ≤ 0 → y ≤ 0 → z ≤ 0)
    (h1 : (if compareString a b ≠ 0 then compareString a b else x) ≤ 0)
    (h2 : (if compareString b c ≠ 0 then compareString b c else y) ≤ 0) :
    (if compareString a c ≠ 0 then compareString a c else z) ≤ 0 := by
  by_cases hab : compareString a b = 0
  · have := compareString_eq_zero a b hab
    subst this
    rw [if_neg (by simpa using hab)] at h1
    by_cases hbc : compareString a c = 0
    · rw [if_neg (by simpa using hbc)] at h2 ⊢
      exact hrest h1 h2
    · rw [if_pos hbc] at h2 ⊢
      exact h2
  · rw [if_pos hab] at h1
    have hlt : compareString a b < 0 := by omega
    by_cases hbc : compareString b c = 0
    · have := compareString_eq_zero b c hbc
      subst this
      rw [if_pos hab]
      exact h1
    · rw [if_pos hbc] at h2
      have := compareString_lt_of_lt_of_le a b c hlt h2
      rw [if_pos (by omega)]
      omega

/-- The laws of `compareAssignment`: it returns -1, 0 or 1, ignores the slot, is zero on
equal arguments, antisymmetric and transitive. -/
theorem compareAssignment_laws (a b c : Assignment) :
    (compareAssignment a b = -1 ∨ compareAssignment a b = 0 ∨ compareAssignment a b = 1) ∧
    (∀ slot, compareAssignment { a with Slot := slot } b = compareAssignment a b) ∧
    (∀ slot, compareAssignment a { b with Slot := slot } = compareAssignment a b) ∧
    compareAssignment a a = 0 ∧
    compareAssignment a b = - compareAssignment b a ∧
    (compareAssignment a b ≤ 0 → compareAssignment b c ≤ 0 → compareAssignment a c ≤ 0) := by
  refine ⟨?_, fun _ => rfl, fun _ => rfl, ?_, ?_, ?_⟩
  · unfold compareAssignment
    split_ifs
    · exact compareChars_range _ _
    · exact compareChars_range _ _
    · exact compareChars_range _ _
  · simp [compareAssignment, compareString_refl]
  · have h1 := compareChars_anti a.ItemID.data b.ItemID.data
    have h2 := compareChars_anti a.MemberZone.data b.MemberZone.data
    have h3 := compareChars_anti a.MemberSuffix.data b.MemberSuffix.data
    unfold compareAssignment compareString
    split_ifs <;> omega
  · intro h1 h2
    unfold compareAssignment at h1 h2 ⊢
    exact lex_step_trans _ _ _ _ _ _
      (fun g1 g2 => lex_step_trans _ _ _ _ _ _
        (fun k1 k2 => compareChars_trans _ _ _ k1 k2) g1 g2) h1 h2

/-- A common prefix does not take part in the comparison. -/
theorem compareChars_append_left (p a b : List Char) :
    compareChars (p ++ a) (p ++ b) = compareChars a b := by
  induction p with
  | nil => rfl
  | cons x xs ih => simp [compareChars, ih]

theorem compareChars_self (a : List Char) : compareChars a a = 0 := by
  have := compareChars_anti a a
  omega

/-- Two fields that compare unequal and are separator-safe compare the same way once each is
followed by the separator and the rest of its key. -/
theorem compareChars_separator (x y r s : List Char) (hsafe : separatorSafe x y = true)
    (hne : compareChars x y ≠ 0) :
    compareChars (x ++ '/' :: r) (y ++ '/' :: s) = compareChars x y := by
  induction x generalizing y with
  | nil =>
    cases y with
    | nil => simp [compareChars] at hne
    | cons c ys =>
      have hc : '/'.toNat < c.toNat := by simpa [separatorSafe] using hsafe
      simp only [List.nil_append, List.cons_append, compareChars, if_pos hc]
  | cons a as ih =>
    cases y with
    | nil =>
      have hc : '/'.toNat < a.toNat := by simpa [separatorSafe] using hsafe
      have hn : ¬ a.toNat < '/'.toNat := by omega
      simp only [List.nil_append, List.cons_append, compareChars, if_pos hc, if_neg hn]
    | cons b bs =>
      simp only [List.cons_append, compareChars] at hne ⊢
      by_cases h1 : a.toNat < b.toNat
      · simp [h1]
      · by_cases h2 : b.toNat < a.toNat
        · simp [h1, h2]
        · have hab : a = b := char_eq_of_toNat a b (by omega)
          simp only [h1, h2, if_false] at hne ⊢
          apply ih
          · simpa [separatorSafe, hab] using hsafe
          · exact hne

/-- The characters of an assignment key. -/
theorem assignmentKey_data (ks : KeySpace) (a : Assignment) :
    (AssignmentKey ks a).data =
      (ks.Root.data ++ "/assign/".data) ++ (a.ItemID.data ++ '/' :: (a.MemberZone.data ++
        '/' :: (a.MemberSuffix.data ++ '/' :: (toString a.Slot).data))) := by
  simp [AssignmentKey, String.data_append]

/-- One field of the key: the comparison of two keys from a field on is that of the field,
or that of the rest of the keys when the fields are equal. -/
theorem compareChars_field (x y r s : List Char) (hsafe : separatorSafe x y = true) :
    compareChars (x ++ '/' :: r) (y ++ '/' :: s) =
      if compareChars x y ≠ 0 then compareChars x y else compareChars r s := by
  by_cases h : compareChars x y = 0
  · have hxy := compareChars_eq_zero x y h
    subst hxy
    rw [if_neg (by simpa using h), compareChars_append_left]
    simp [compareChars]
  · rw [if_pos h]
    exact compareChars_separator x y r s hsafe h

/-- On separator-safe assignments the byte order of the keys is the assignment order,
refined by the order of the slots. -/
theorem assignmentKey_compare (ks : KeySpace) (a b : Assignment)
    (hitem : separatorSafe a.ItemID.data b.ItemID.data = true)
    (hzone : separatorSafe a.MemberZone.data b.MemberZone.data = true)
    (hsuffix : separatorSafe a.MemberSuffix.data b.MemberSuffix.data = true) :
    compareString (AssignmentKey ks a) (AssignmentKey ks b) =
      if compareAssignment a b ≠ 0 then compareAssignment a b
      else compareString (toString a.Slot) (toString b.Slot) := by
  unfold compareString
  rw [assignmentKey_data, assignmentKey_data, compareChars_append_left,
    compareChars_field _ _ _ _ hitem, compareChars_field _ _ _ _ hzone,
    compareChars_field _ _ _ _ hsuffix]
  unfold compareAssignment compareString
  split_ifs <;> rfl

/-- Assignments compare as equal exactly when they agree on the item, the zone and the
suffix. -/
theorem compareAssignment_eq_zero_iff (a b : Assignment) :
    compareAssignment a b = 0 ↔
      a.ItemID = b.ItemID ∧ a.MemberZone = b.MemberZone ∧ a.MemberSuffix = b.MemberSuffix := by
  constructor
  · intro h
    unfold compareAssignment at h
    split_ifs at h with h1 h2
    · exact absurd h h1
    · exact absurd h h2
    · exact ⟨compareString_eq_zero _ _ (by simpa using h1),
        compareString_eq_zero _ _ (by simpa using h2), compareString_eq_zero _ _ h⟩
  · rintro ⟨h1, h2, h3⟩
    simp [compareAssignment, h1, h2, h3, compareString_refl]

/-- C13, counterexample: `compareAssignment` orders the assignment of item `item` before that
of item `item-1` (same member, same slot), while the key of the first,
`/root/assign/item/us-east/foo/0`, sorts after the key of the second,
`/root/assign/item-1/us-east/foo/0`, in byte order, because `-` sorts before `/`.  The two
halves of the claim exclude each other on this pair whatever the comparison is: no function
both orders assignments by their ItemID first and agrees with the byte order of the keys. -/
theorem compareAssignment_key_order_counterexample :
    compareAssignment
      { ItemID := "item", MemberZone := "us-east", MemberSuffix := "foo", Slot := 0 }
      { ItemID := "item-1", MemberZone := "us-east", MemberSuffix := "foo", Slot := 0 } = -1 ∧
    AssignmentKey fixtureKeySpace
        { ItemID := "item", MemberZone := "us-east", MemberSuffix := "foo", Slot := 0 } =
      "/root/assign/item/us-east/foo/0" ∧
    AssignmentKey fixtureKeySpace
        { ItemID := "item-1", MemberZone := "us-east", MemberSuffix := "foo", Slot := 0 } =
      "/root/assign/item-1/us-east/foo/0" ∧
    compareString "/root/assign/item/us-east/foo/0" "/root/assign/item-1/us-east/foo/0" = 1 ∧
    ¬ ∃ cmp : Assignment → Assignment → Int,
      (∀ a b, compareString a.ItemID b.ItemID < 0 → cmp a b < 0) ∧
      (∀ a b, cmp a b < 0 →
        compareString (AssignmentKey fixtureKeySpace a) (AssignmentKey fixtureKeySpace b) < 0) := by
  refine ⟨by decide, by decide, by decide, by decide, ?_⟩
  rintro ⟨cmp, h1, h2⟩
  have h := h2 { ItemID := "item", MemberZone := "us-east", MemberSuffix := "foo", Slot := 0 }
    { ItemID := "item-1", MemberZone := "us-east", MemberSuffix := "foo", Slot := 0 }
    (h1 _ _ (by decide))
  revert h
  decide

/-- C13, amended: `compareAssignment` is the three-way lexicographic comparison of
`(ItemID, MemberZone, MemberSuffix)`, in that order of significance: it returns -1, 0 or 1,
is zero exactly on equal triples, ignores the slot, is zero on equal arguments, antisymmetric
and transitive; and it agrees with the byte order of the assignment keys for every pair of
assignments that is separator-safe in each of the three fields: there a nonzero comparison
is the comparison of the keys, and a zero comparison leaves the keys in the order of their
slots. -/
theorem compareAssignment_key_order (ks : KeySpace) (a b c : Assignment) :
    (compareAssignment a b = -1 ∨ compareAssignment a b = 0 ∨ compareAssignment a b = 1) ∧
    (compareAssignment a b = 0 ↔
      a.ItemID = b.ItemID ∧ a.MemberZone = b.MemberZone ∧ a.MemberSuffix = b.MemberSuffix) ∧
    (∀ slot, compareAssignment { a with Slot := slot } b = compareAssignment a b) ∧
    (∀ slot, compareAssignment a { b with Slot := slot } = compareAssignment a b) ∧
    (compareString a.ItemID b.ItemID ≠ 0 →
      compareAssignment a b = compareString a.ItemID b.ItemID) ∧
    (a.ItemID = b.ItemID → compareString a.MemberZone b.MemberZone ≠ 0 →
      compareAssignment a b = compareString a.MemberZone b.MemberZone) ∧
    (a.ItemID = b.ItemID → a.MemberZone = b.MemberZone →
      compareAssignment a b = compareString a.MemberSuffix b.MemberSuffix) ∧
    compareAssignment a a = 0 ∧
    compareAssignment a b = - compareAssignment b a ∧
    (compareAssignment a b ≤ 0 → compareAssignment b c ≤ 0 → compareAssignment a c ≤ 0) ∧
    (separatorSafe a.ItemID.data b.ItemID.data = true →
      separatorSafe a.MemberZone.data b.MemberZone.data = true →
      separatorSafe a.MemberSuffix.data b.MemberSuffix.data = true →
      (compareAssignment a b ≠ 0 →
        compareString (AssignmentKey ks a) (AssignmentKey ks b) = compareAssignment a b) ∧
      (compareAssignment a b = 0 →
        compareString (AssignmentKey ks a) (AssignmentKey ks b) =
          compareString (toString a.Slot) (toString b.Slot))) := by
  obtain ⟨l1, l2, l3, l4, l5, l6⟩ := compareAssignment_laws a b c
  refine ⟨l1, compareAssignment_eq_zero_iff a b, l2, l3, ?_, ?_, ?_, l4, l5, l6, ?_⟩
  · intro h
    simp [compareAssignment, h]
  · intro h1 h
    simp [compareAssignment, h1, compareString_refl, h]
  · intro h1 h2
    simp [compareAssignment, h1, h2, compareString_refl]
  · intro h1 h2 h3
    have hk := assignmentKey_compare ks a b h1 h2 h3
    constructor
    · intro h
      rw [hk, if_pos h]
    · intro h
      rw [hk, if_neg (by simpa using h)]

/-- Witness of the amended C13: item `item` against item `item1`, where the longer ItemID
continues with the byte `1`, above the separator; the assignment order is the key order. -/
theorem compareAssignment_key_order_witness :
    compareAssignment
      { ItemID := "item", MemberZone := "us-east", MemberSuffix := "foo", Slot := 0 }
      { ItemID := "item1", MemberZone := "us-east", MemberSuffix := "foo", Slot := 0 } = -1 ∧
    compareString
      (AssignmentKey fixtureKeySpace
        { ItemID := "item", MemberZone := "us-east", MemberSuffix := "foo", Slot := 0 })
      (AssignmentKey fixtureKeySpace
        { ItemID := "item1", MemberZone := "us-east", MemberSuffix := "foo", Slot := 0 }) =
      compareAssignment
        { ItemID := "item", MemberZone := "us-east", MemberSuffix := "foo", Slot := 0 }
        { ItemID := "item1", MemberZone := "us-east", MemberSuffix := "foo", Slot := 0 } :=
  ⟨by decide,
   ((compareAssignment_key_order fixtureKeySpace
      { ItemID := "item", MemberZone := "us-east", MemberSuffix := "foo", Slot := 0 }
      { ItemID := "item1", MemberZone := "us-east", MemberSuffix := "foo", Slot := 0 }
      { ItemID := "item1", MemberZone := "us-east", MemberSuffix := "foo", Slot := 0 }
      ).2.2.2.2.2.2.2.2.2.2 (by decide) (by decide) (by decide)).1 (by decide)⟩

/-- On the keys of the allocator test fixture, in key order, `compareAssignment` does match
the key order, as `TestAssignmentCompare` checks: the model of the key reproduces each
fixture key and consecutive assignments compare as -1. -/
theorem testAssignmentCompare_fixture :
    fixtureKeySpace.Assignments.all
      (fun kv => decide (AssignmentKey fixtureKeySpace kv.Decoded = kv.Raw.Key)) = true ∧
    (fixtureKeySpace.Assignments.zip (fixtureKeySpace.Assignments.drop 1)).all
      (fun p => decide (compareAssignment p.1.Decoded p.2.Decoded = -1) &&
        decide (compareString p.1.Raw.Key p.2.Raw.Key = -1)) = true := by
  decide

/-! ## Panics in the request paths -/

/-- On a router whose replica route for the journal satisfies the Route invariant,
`Router.resolve` returns: no index into `Route.Brokers` is out of range. -/
theorem resolve_returns (rtr : Router) (journal : Journal)
    (requirePrimary mayProxy : Bool) (rnd : Nat)
    (hvalid : ∀ p, mapGet rtr.replicas journal = some p → (rtr.heap p).route.Valid) :
    ∃ res status, rtr.resolve journal requirePrimary mayProxy rnd = some (res, status) := by
  by_cases hok : (rtr.lookup journal).2 = true
  swap
  · exact ⟨_, _, resolve_not_found rtr journal _ _ _ (by simpa using hok)⟩
  by_cases hp : requirePrimary = true ∧ (rtr.lookup journal).1.route.Primary = -1
  · exact ⟨_, _, resolve_no_primary rtr journal _ _ _ hok hp.1 hp.2⟩
  by_cases hb : (rtr.lookup journal).1.route.Brokers = []
  · exact ⟨_, _, resolve_no_brokers rtr journal _ _ _ hok hp hb⟩
  have hroute : (rtr.lookup journal).1.route.Valid := by
    cases hm : mapGet rtr.replicas journal with
    | none =>
      rw [lookup_remote rtr journal hm]
      exact keyspaceRoute_valid rtr journal
    | some p =>
      rw [lookup_local rtr journal p hm]
      exact hvalid p hm
  rw [resolve_passed rtr journal _ _ _ hok hp hb]
  split
  · exact ⟨_, _, rfl⟩
  · split
    · exact ⟨_, _, rfl⟩
    · split
      · next hrp =>
        have hne : (rtr.lookup journal).1.route.Primary ≠ -1 := fun h => hp ⟨hrp, h⟩
        obtain ⟨v1, v2⟩ := hroute
        have h0 : 0 ≤ (rtr.lookup journal).1.route.Primary := by omega
        have hlt : (rtr.lookup journal).1.route.Primary.toNat <
            (rtr.lookup journal).1.route.Brokers.length := by omega
        have hsome : brokerAt (rtr.lookup journal).1.route =
            some ((rtr.lookup journal).1.route.Brokers.get
              ⟨(rtr.lookup journal).1.route.Primary.toNat, hlt⟩) := by
          unfold brokerAt
          rw [if_pos h0, List.getElem?_eq_getElem hlt]
          rfl
        rw [hsome]
        exact ⟨_, _, rfl⟩
      · obtain ⟨b, hb2⟩ := randomReplica_isSome (rtr.lookup journal).1.route rtr.id.Zone rnd hb
        rw [hb2]
        exact ⟨_, _, rfl⟩

/-- A request with a non-empty URL path is parsed without a panic. -/
theorem parse_request_returns (decodeRead : Request → (Int × Bool) × Option Error)
    (validateRead : ReadRequest → Option Error) (decodeAppend : Request → Option Error)
    (validateAppend : AppendRequest → Option Error) (r : Request) (h : r.Path ≠ "") :
    (∃ out, parseReadRequest decodeRead validateRead r = some out) ∧
    (∃ out, parseAppendRequest decodeAppend validateAppend r = some out) := by
  have hsome : ∃ journal, sliceFrom1 r.Path = some journal := by
    unfold sliceFrom1
    cases hd : r.Path.data with
    | nil =>
      exfalso
      apply h
      cases hp : r.Path with
      | mk data =>
        rw [hp] at hd
        simp only at hd
        rw [hd]
    | cons c rest => exact ⟨_, rfl⟩
  obtain ⟨journal, hj⟩ := hsome
  constructor
  · simp only [parseReadRequest, hj]
    exact ⟨_, rfl⟩
  · simp only [parseAppendRequest, hj]
    exact ⟨_, rfl⟩

/-- C14, the code at the failing input: for a request whose URL path is empty, whatever
its method and query and whatever the form decoder and the validation return,
`HTTPAPI.parseReadRequest` and `HTTPAPI.parseAppendRequest` panic on the slice expression
`r.URL.Path[1:]` and return neither a request nor an error. -/
theorem parse_request_empty_path_panics
    (decodeRead : Request → (Int × Bool) × Option Error)
    (validateRead : ReadRequest → Option Error) (decodeAppend : Request → Option Error)
    (validateAppend : AppendRequest → Option Error) (method query : String) :
    parseReadRequest decodeRead validateRead
      { Method := method, Path := "", RawQuery := query } = none ∧
    parseAppendRequest decodeAppend validateAppend
      { Method := method, Path := "", RawQuery := query } = none := by
  constructor
  · simp [parseReadRequest, sliceFrom1]
  · simp [parseAppendRequest, sliceFrom1]

/-! ## Cached connections of the route-scoped dialer -/

theorem find?_filter_other (l : List (BrokerSpec_ID × ClientConn)) (id other : BrokerSpec_ID)
    (h : id ≠ other) :
    (l.filter (fun x => x.1 != other)).find? (fun e => e.1 == id) =
      l.find? (fun e => e.1 == id) := by
  induction l with
  | nil => rfl
  | cons e rest ih =>
    by_cases he : e.1 = id
    · have h1 : (e.1 != other) = true := by simp [he, h]
      have h2 : (e.1 == id) = true := by simp [he]
      simp only [List.filter_cons, h1, if_true, List.find?_cons, h2]
    · have h2 : (e.1 == id) = false := by simpa using he
      by_cases h1 : (e.1 != other) = true
      · simp only [List.filter_cons, h1, if_true, List.find?_cons, h2, ih]
      · simp only [List.filter_cons, h1, List.find?_cons, h2, ih]
        simp [ih]

theorem find?_dropLast {α : Type} (p : α → Bool) (l : List α) :
    l.dropLast.find? p = l.find? p ∨ l.dropLast.find? p = none := by
  induction l with
  | nil => exact Or.inl rfl
  | cons a rest ih =>
    cases rest with
    | nil => exact Or.inr rfl
    | cons b rest2 =>
      rw [List.dropLast_cons₂]
      simp only [List.find?_cons]
      cases p a
      · exact ih
      · exact Or.inl rfl

theorem mem_dropLast {α : Type} (l : List α) (a : α) (h : a ∈ l.dropLast) : a ∈ l :=
  (List.dropLast_sublist l).subset h

/-- The cache after `Get`: the same keys, and for every key the same cached value. -/
theorem cache_get_peek (c : Cache) (key other : BrokerSpec_ID) :
    (c.Get key).2.Peek other = c.Peek other ∧
    (∀ k, k ∈ (c.Get key).2.entries.map Prod.fst ↔ k ∈ c.entries.map Prod.fst) ∧
    (∀ e ∈ (c.Get key).2.entries, e ∈ c.entries) ∧
    (c.Get key).1 = c.Peek key := by
  unfold Cache.Get Cache.Peek
  cases hf : c.entries.find? (fun e => e.1 == key) with
  | none => exact ⟨rfl, fun k => Iff.rfl, fun e he => he, rfl⟩
  | some e =>
    have hk : e.1 = key := by simpa using List.find?_some hf
    have hmem : e ∈ c.entries := List.mem_of_find?_eq_some hf
    refine ⟨?_, fun k => ?_, fun x hx => ?_, rfl⟩
    · dsimp only
      by_cases ho : other = key
      · subst ho
        rw [hf]
        simp [List.find?_cons, hk]
      · have h2 : (e.1 == other) = false := by
          rw [hk]
          simpa using fun h => ho h.symm
        rw [List.find?_cons, h2, find?_filter_other _ _ _ ho]
    · dsimp only
      simp only [List.map_cons, List.mem_cons, List.mem_map, List.mem_filter]
      constructor
      · rintro (h | ⟨x, ⟨hx, -⟩, hxk⟩)
        · exact ⟨e, hmem, h.symm⟩
        · exact ⟨x, hx, hxk⟩
      · rintro ⟨x, hx, hxk⟩
        by_cases hxe : x.1 = key
        · left
          rw [← hxk, hxe, hk]
        · right
          exact ⟨x, ⟨hx, by simpa using hxe⟩, hxk⟩
    · dsimp only at hx
      rcases List.mem_cons.mp hx with h | h
      · rw [h]; exact hmem
      · exact (List.mem_filter.mp h).1

/-- The cache after `Add` of a key that it does not hold: the entries are the new entry
followed by the old ones, the oldest being dropped when the capacity is exceeded. -/
theorem cache_add_new (c : Cache) (key : BrokerSpec_ID) (value : ClientConn)
    (hnew : c.Peek key = none) :
    (c.Add key value).entries =
      if c.entries.length + 1 > c.size then ((key, value) :: c.entries).dropLast
      else (key, value) :: c.entries := by
  have hany : c.entries.any (fun e => e.1 == key) = false := by
    unfold Cache.Peek at hnew
    rw [Option.map_eq_none', List.find?_eq_none] at hnew
    rw [List.any_eq_false]
    intro e he
    simpa using hnew e he
  unfold Cache.Add
  rw [if_neg (by simp [hany])]
  dsimp only
  simp only [List.length_cons]
  split
  · unfold Cache.removeOldest
    dsimp only
    split
    · next hl => simp at hl
    · rfl
  · rfl

/-- The outcomes of `dialer.dial`: an invalid route is an error that leaves the dialer
alone; on a valid route a cached connection is returned, and otherwise the endpoint of the
identity is dialed and the connection, if any, is added to the cache. -/
theorem dial_cases (d : dialer) (id : BrokerSpec_ID) (route : Route)
    (urlHost : Endpoint → String) (grpcDial : String → Except Error ClientConn) :
    ((id ∉ route.Brokers ∨ route.Endpoints.length ≠ route.Brokers.length) →
      ∃ err, d.dial id route urlHost grpcDial = (.error err, d)) ∧
    (id ∈ route.Brokers → route.Endpoints.length = route.Brokers.length →
      (∀ v, d.cache.Peek id = some v →
        d.dial id route urlHost grpcDial = (.ok v, { cache := (d.cache.Get id).2 })) ∧
      (d.cache.Peek id = none →
        (∀ c, grpcDial (urlHost (route.Endpoints.getD
            (scanBrokers route.Brokers id 0) "")) = .ok c →
          d.dial id route urlHost grpcDial = (.ok c, { cache := d.cache.Add id c })) ∧
        (∀ err, grpcDial (urlHost (route.Endpoints.getD
            (scanBrokers route.Brokers id 0) "")) = .error err →
          d.dial id route urlHost grpcDial = (.error err, d)))) := by
  have hscan := scanBrokers_eq_length_iff route.Brokers id 0
  simp only [Nat.zero_add] at hscan
  constructor
  · intro hbad
    by_cases hmem : id ∈ route.Brokers
    · rcases hbad with h | h
      · exact absurd hmem h
      · have hne : scanBrokers route.Brokers id 0 ≠ route.Brokers.length :=
          fun h2 => (hscan.mp h2) hmem
        exact ⟨.missingRouteEndpoints id route, by simp [dialer.dial, hne, h]⟩
    · exact ⟨.noSuchBrokerInRoute id route, by simp [dialer.dial, hscan.mpr hmem]⟩
  · intro hmem hlen
    have hne : scanBrokers route.Brokers id 0 ≠ route.Brokers.length :=
      fun h2 => (hscan.mp h2) hmem
    have hget := (cache_get_peek d.cache id id).2.2.2
    constructor
    · intro v hv
      rw [hv] at hget
      unfold dialer.dial
      simp only [hne, hlen, if_false, ne_eq, not_true_eq_false]
      split
      · next w cache hg =>
        rw [hg] at hget
        simp only [Option.some.injEq] at hget
        rw [hget, hg]
      · next cache hg =>
        rw [hg] at hget
        cases hget
    · intro hnone
      rw [hnone] at hget
      have hmiss : d.cache.Get id = (none, d.cache) := by
        unfold Cache.Get
        unfold Cache.Peek at hnone
        rw [Option.map_eq_none'] at hnone
        rw [hnone]
      constructor
      · intro c hc
        simp only [dialer.dial, hne, hlen, if_false, ne_eq, not_true_eq_false, hmiss, hc]
      · intro err hc
        simp only [dialer.dial, hne, hlen, if_false, ne_eq, not_true_eq_false, hmiss, hc]

theorem peek_mem (c : Cache) (key : BrokerSpec_ID) (v : ClientConn)
    (h : c.Peek key = some v) : (key, v) ∈ c.entries := by
  unfold Cache.Peek at h
  cases hf : c.entries.find? (fun e => e.1 == key) with
  | none => rw [hf] at h; cases h
  | some e =>
    rw [hf] at h
    simp only [Option.map_some', Option.some.injEq] at h
    have hk : e.1 = key := by simpa using List.find?_some hf
    rw [← hk, ← h]
    exact List.mem_of_find?_eq_some hf

theorem freshDial_ok (fails : String → Option Error) (n : Nat) (host : String)
    (v : ClientConn) (h : freshDial fails n host = .ok v) : v = n := by
  unfold freshDial at h
  split at h
  · cases h
  · cases h
    rfl

/-- What one call of `dial` does to the cache: every entry it leaves was there before or
was just dialed for the identity; a returned connection was cached for the identity or was
just dialed; a connection cached for another identity stays cached for it unless it is
evicted; and with a positive capacity a returned connection is cached afterwards. -/
theorem dial_step (d : dialer) (id : BrokerSpec_ID) (route : Route)
    (urlHost : Endpoint → String) (grpcDial : String → Except Error ClientConn) :
    (∀ e ∈ (d.dial id route urlHost grpcDial).2.cache.entries,
      e ∈ d.cache.entries ∨ (e.1 = id ∧ (d.dial id route urlHost grpcDial).1 = .ok e.2)) ∧
    (∀ v, (d.dial id route urlHost grpcDial).1 = .ok v →
      (id, v) ∈ d.cache.entries ∨ ∃ host, grpcDial host = .ok v) ∧
    (∀ other conn, d.cache.Peek other = some conn →
      (d.dial id route urlHost grpcDial).2.cache.Peek other = some conn ∨
      (d.dial id route urlHost grpcDial).2.cache.Peek other = none) ∧
    (∀ v, (d.dial id route urlHost grpcDial).1 = .ok v → 0 < d.cache.size →
      (d.dial id route urlHost grpcDial).2.cache.Peek id = some v) := by
  obtain ⟨hbad, hgood⟩ := dial_cases d id route urlHost grpcDial
  by_cases hvalid : id ∈ route.Brokers ∧ route.Endpoints.length = route.Brokers.length
  swap
  · obtain ⟨err, herr⟩ := hbad (by
      by_cases h1 : id ∈ route.Brokers
      · exact Or.inr (fun h2 => hvalid ⟨h1, h2⟩)
      · exact Or.inl h1)
    rw [herr]
    exact ⟨fun e he => Or.inl he, fun v hv => (by cases hv), fun other conn h => Or.inl h,
      fun v hv => (by cases hv)⟩
  obtain ⟨hhit, hmiss⟩ := hgood hvalid.1 hvalid.2
  cases hpeek : d.cache.Peek id with
  | some w =>
    rw [hhit w hpeek]
    obtain ⟨g1, -, g3, -⟩ := cache_get_peek d.cache id id
    refine ⟨fun e he => Or.inl (g3 e he), fun v hv => ?_, fun other conn h => ?_,
      fun v hv _ => ?_⟩
    · cases hv
      exact Or.inl (peek_mem _ _ _ hpeek)
    · left
      show (d.cache.Get id).2.Peek other = some conn
      rw [(cache_get_peek d.cache id other).1]
      exact h
    · cases hv
      show (d.cache.Get id).2.Peek id = some w
      rw [g1]
      exact hpeek
  | none =>
    obtain ⟨hok, herr⟩ := hmiss hpeek
    cases hd : grpcDial (urlHost (route.Endpoints.getD (scanBrokers route.Brokers id 0) ""))
      with
    | error err =>
      rw [herr err hd]
      exact ⟨fun e he => Or.inl he, fun v hv => (by cases hv), fun other conn h => Or.inl h,
        fun v hv => (by cases hv)⟩
    | ok c =>
      rw [hok c hd]
      have hadd := cache_add_new d.cache id c hpeek
      refine ⟨fun e he => ?_, fun v hv => ?_, fun other conn h => ?_, fun v hv hsize => ?_⟩
      · have hmem : e ∈ (id, c) :: d.cache.entries := by
          change e ∈ (d.cache.Add id c).entries at he
          rw [hadd] at he
          split at he
          · exact mem_dropLast _ _ he
          · exact he
        rcases List.mem_cons.mp hmem with h | h
        · right
          rw [h]
          exact ⟨rfl, rfl⟩
        · exact Or.inl h
      · cases hv
        exact Or.inr ⟨_, hd⟩
      · have hne : other ≠ id := by
          intro heq
          rw [heq, hpeek] at h
          cases h
        have hhead : (((id, c) :: d.cache.entries).find? (fun e => e.1 == other)).map
            Prod.snd = some conn := by
          have : ((id, c).1 == other) = false := by simpa using fun h2 => hne h2.symm
          rw [List.find?_cons, this]
          exact h
        show ((d.cache.Add id c).entries.find? (fun e => e.1 == other)).map Prod.snd =
            some conn ∨
          ((d.cache.Add id c).entries.find? (fun e => e.1 == other)).map Prod.snd = none
        rw [hadd]
        split
        · rcases find?_dropLast (fun e => e.1 == other) ((id, c) :: d.cache.entries) with
            h2 | h2
          · left
            rw [h2]
            exact hhead
          · right
            rw [h2]
            rfl
        · exact Or.inl hhead
      · cases hv
        show ((d.cache.Add id c).entries.find? (fun e => e.1 == id)).map Prod.snd = some c
        rw [hadd]
        split
        · next hfull =>
          have hne : d.cache.entries ≠ [] := by
            intro h
            rw [h] at hfull
            simp at hfull
            omega
          rw [List.dropLast_cons_of_ne_nil hne]
          simp [List.find?_cons]
        · simp [List.find?_cons]

/-- A connection belongs to one identity only, along every run of `dial` on a transport
that allocates connections: given a log of the connections handed out so far that covers
the cache, lies below the next free handle and gives each connection one identity, the
log together with the results of the run still gives each connection one identity. -/
theorem dials_fresh (urlHost : Endpoint → String) (calls : List DialCall) (d : dialer)
    (n : Nat) (log : List (BrokerSpec_ID × ClientConn))
    (hcover : ∀ e ∈ d.cache.entries, e ∈ log)
    (hbelow : ∀ e ∈ log, e.2 < n)
    (hfun : ∀ e1 ∈ log, ∀ e2 ∈ log, e1.2 = e2.2 → e1.1 = e2.1) :
    ∀ id1 c1 id2 c2,
      ((id1, c1) ∈ log ∨ (id1, Except.ok c1) ∈ (d.dials urlHost n calls).1) →
      ((id2, c2) ∈ log ∨ (id2, Except.ok c2) ∈ (d.dials urlHost n calls).1) →
      c1 = c2 → id1 = id2 := by
  induction calls generalizing d n log with
  | nil =>
    intro id1 c1 id2 c2 h1 h2 hc
    simp only [dialer.dials, List.not_mem_nil, or_false] at h1 h2
    exact hfun _ h1 _ h2 hc
  | cons call rest ih =>
    obtain ⟨s1, s2, -, -⟩ :=
      dial_step d call.id call.route urlHost (freshDial call.fails n)
    generalize hres : d.dial call.id call.route urlHost (freshDial call.fails n) = res
      at s1 s2
    obtain ⟨r, d1⟩ := res
    dsimp only at s1 s2
    -- the log after this call
    have hlog : ∃ log1 : List (BrokerSpec_ID × ClientConn),
        (∀ e ∈ log, e ∈ log1) ∧ (∀ v, r = .ok v → (call.id, v) ∈ log1) ∧
        (∀ e ∈ d1.cache.entries, e ∈ log1) ∧ (∀ e ∈ log1, e.2 < n + 1) ∧
        (∀ e1 ∈ log1, ∀ e2 ∈ log1, e1.2 = e2.2 → e1.1 = e2.1) := by
      cases r with
      | error err =>
        refine ⟨log, fun e he => he, fun v hv => (by cases hv), fun e he => ?_,
          fun e he => Nat.lt_succ_of_lt (hbelow e he), hfun⟩
        rcases s1 e he with h | ⟨-, h⟩
        · exact hcover e h
        · cases h
      | ok v =>
        have hv : (call.id, v) ∈ log ∨ v = n := by
          rcases s2 v rfl with h | ⟨host, h⟩
          · exact Or.inl (hcover _ h)
          · exact Or.inr (freshDial_ok _ _ _ _ h)
        refine ⟨(call.id, v) :: log, fun e he => List.mem_cons_of_mem _ he,
          fun w hw => ?_, fun e he => ?_, fun e he => ?_, fun e1 h1 e2 h2 hc => ?_⟩
        · cases hw
          exact List.mem_cons_self _ _
        · rcases s1 e he with h | ⟨h1, h2⟩
          · exact List.mem_cons_of_mem _ (hcover e h)
          · cases h2
            have : e = (call.id, e.2) := by rw [← h1]
            rw [this]
            exact List.mem_cons_self _ _
        · rcases List.mem_cons.mp he with h | h
          · rw [h]
            rcases hv with g | g
            · exact Nat.lt_succ_of_lt (hbelow _ g)
            · rw [g]
              exact Nat.lt_succ_self n
          · exact Nat.lt_succ_of_lt (hbelow e h)
        · have hone : ∀ e ∈ log, e.2 = v → e.1 = call.id := by
            intro e he hev
            rcases hv with g | g
            · exact hfun e he (call.id, v) g hev
            · have hlt := hbelow e he
              rw [hev, g] at hlt
              exact absurd hlt (Nat.lt_irrefl n)
          rcases List.mem_cons.mp h1 with g1 | g1 <;> rcases List.mem_cons.mp h2 with g2 | g2
          · rw [g1, g2]
          · rw [g1] at hc ⊢
            exact (hone e2 g2 hc.symm).symm
          · rw [g2] at hc ⊢
            exact hone e1 g1 hc
          · exact hfun e1 g1 e2 g2 hc
    obtain ⟨log1, l1, l2, l3, l4, l5⟩ := hlog
    intro id1 c1 id2 c2 h1 h2 hc
    have key := ih d1 (n + 1) log1 l3 l4 l5 id1 c1 id2 c2
    simp only [dialer.dials, hres, List.mem_cons, Prod.mk.injEq] at h1 h2
    refine key ?_ ?_ hc
    · rcases h1 with h | ⟨h, hr⟩ | h
      · exact Or.inl (l1 _ h)
      · exact Or.inl (by rw [h]; exact l2 c1 hr.symm)
      · exact Or.inr h
    · rcases h2 with h | ⟨h, hr⟩ | h
      · exact Or.inl (l1 _ h)
      · exact Or.inl (by rw [h]; exact l2 c2 hr.symm)
      · exact Or.inr h

/-- C15: for every dialer and broker id: (1) once `dial(id, route)` has succeeded, the
connection is cached for `id` (the capacity being positive); (2) whatever is dialed
afterwards, `id` keeps that connection cached until its entry is evicted; (3) while it is
cached, every `dial(id, route')` with a valid `route'` containing `id` returns the same
connection whatever the transport would answer, that is without dialing again, and leaves
the set of cached identities unchanged; and (4) along every run of dials on a transport
that allocates connections, dials of two different identities return different
connections. -/
theorem dial_cached_connection (urlHost : Endpoint → String) :
    (∀ (d : dialer) (id : BrokerSpec_ID) (route : Route)
        (grpcDial : String → Except Error ClientConn) (conn : ClientConn),
      0 < d.cache.size → (d.dial id route urlHost grpcDial).1 = .ok conn →
      (d.dial id route urlHost grpcDial).2.cache.Peek id = some conn) ∧
    (∀ (d : dialer) (id : BrokerSpec_ID) (conn : ClientConn),
      d.cache.Peek id = some conn →
      ∀ (id2 : BrokerSpec_ID) (route2 : Route) (grpcDial : String → Except Error ClientConn),
        (d.dial id2 route2 urlHost grpcDial).2.cache.Peek id = some conn ∨
        (d.dial id2 route2 urlHost grpcDial).2.cache.Peek id = none) ∧
    (∀ (d : dialer) (id : BrokerSpec_ID) (conn : ClientConn) (route' : Route)
        (grpcDial : String → Except Error ClientConn),
      d.cache.Peek id = some conn → id ∈ route'.Brokers →
      route'.Endpoints.length = route'.Brokers.length →
      (d.dial id route' urlHost grpcDial).1 = .ok conn ∧
      (d.dial id route' urlHost grpcDial).2.cache.Peek id = some conn ∧
      (∀ k, k ∈ (d.dial id route' urlHost grpcDial).2.cache.entries.map Prod.fst ↔
        k ∈ d.cache.entries.map Prod.fst)) ∧
    (∀ (size : Nat) (calls : List DialCall) (id1 id2 : BrokerSpec_ID) (c1 c2 : ClientConn),
      (id1, Except.ok c1) ∈ ((newDialer size).dials urlHost 0 calls).1 →
      (id2, Except.ok c2) ∈ ((newDialer size).dials urlHost 0 calls).1 →
      id1 ≠ id2 → c1 ≠ c2) := by
  refine ⟨fun d id route grpcDial conn hsize hok => ?_, fun d id conn hpeek id2 route2 grpcDial => ?_,
    fun d id conn route' grpcDial hpeek hmem hlen => ?_,
    fun size calls id1 id2 c1 c2 h1 h2 hne hc => ?_⟩
  · exact (dial_step d id route urlHost grpcDial).2.2.2 conn hok hsize
  · exact (dial_step d id2 route2 urlHost grpcDial).2.2.1 id conn hpeek
  · have hhit := ((dial_cases d id route' urlHost grpcDial).2 hmem hlen).1 conn hpeek
    rw [hhit]
    obtain ⟨g1, g2, -, -⟩ := cache_get_peek d.cache id id
    exact ⟨rfl, g1.trans hpeek, g2⟩
  · exact hne (dials_fresh urlHost calls (newDialer size) 0 []
      (fun e he => he) (fun e he => absurd he (List.not_mem_nil e))
      (fun e1 h => absurd h (List.not_mem_nil e1)) id1 c1 id2 c2 (Or.inr h1) (Or.inr h2) hc)

/-- Witness of C15 on the calls of `TestDialer`: the two peers get the connections 0 and
1, which differ, and the second dial of the first peer returns connection 0 again. -/
theorem dial_cached_connection_witness :
    ((newDialer 8).dials (fun e => e) 0 testDialerCalls).1 =
      [({ Zone := "zone-a", Suffix := "member-1" }, .ok 0),
       ({ Zone := "zone-b", Suffix := "member-2" }, .ok 1),
       ({ Zone := "zone-a", Suffix := "member-1" }, .ok 0)] ∧
    (0 : ClientConn) ≠ 1 ∧
    (testDialer.dial { Zone := "zone-a", Suffix := "member-1" } testDialerRoute
      (fun e => e) fixtureDialFails).1 = .ok 1 :=
  ⟨rfl,
   (dial_cached_connection (fun e => e)).2.2.2 8 testDialerCalls
     { Zone := "zone-a", Suffix := "member-1" } { Zone := "zone-b", Suffix := "member-2" } 0 1
     (by simp [show ((newDialer 8).dials (fun e => e) 0 testDialerCalls).1 =
        [({ Zone := "zone-a", Suffix := "member-1" }, Except.ok 0),
         ({ Zone := "zone-b", Suffix := "member-2" }, Except.ok 1),
         ({ Zone := "zone-a", Suffix := "member-1" }, Except.ok 0)] from rfl])
     (by simp [show ((newDialer 8).dials (fun e => e) 0 testDialerCalls).1 =
        [({ Zone := "zone-a", Suffix := "member-1" }, Except.ok 0),
         ({ Zone := "zone-b", Suffix := "member-2" }, Except.ok 1),
         ({ Zone := "zone-a", Suffix := "member-1" }, Except.ok 0)] from rfl])
     (by decide),
   ((dial_cached_connection (fun e => e)).2.2.1 testDialer
     { Zone := "zone-a", Suffix := "member-1" } 1 testDialerRoute fixtureDialFails
     (by decide) (by decide) (by decide)).1⟩

/-! ## Failures of the first stage in the HTTP handlers -/

/-- The first stage of `serveWrite` fails when the peer connection cannot be obtained, the
Append stream cannot be opened, or the metadata frame cannot be sent. -/
theorem firstStage_append_fails (rtr : Router) (broker : BrokerSpec_ID)
    (urlHost : Endpoint → String) (grpcDial : String → Except Error ClientConn)
    (peerAppend : ClientConn → PeerAppend)
    (hfail : (∃ err, (rtr.peerConn broker urlHost grpcDial).1 = .error err) ∨
      (∃ conn, (rtr.peerConn broker urlHost grpcDial).1 = .ok conn ∧
        ((peerAppend conn).openErr ≠ none ∨ (peerAppend conn).sendMsgErr ≠ none))) :
    ∃ err, firstStage rtr broker urlHost grpcDial (startAppend peerAppend) =
      (.error err, (rtr.peerConn broker urlHost grpcDial).2) := by
  unfold firstStage
  rcases hfail with ⟨err, h⟩ | ⟨conn, h, hstream⟩
  · generalize rtr.peerConn broker urlHost grpcDial = out at h ⊢
    obtain ⟨res, rtr1⟩ := out
    dsimp only at h
    subst h
    exact ⟨err, rfl⟩
  · generalize rtr.peerConn broker urlHost grpcDial = out at h ⊢
    obtain ⟨res, rtr1⟩ := out
    dsimp only at h
    subst h
    dsimp only
    unfold startAppend
    cases ho : (peerAppend conn).openErr with
    | some err => exact ⟨err, rfl⟩
    | none =>
      cases hs : (peerAppend conn).sendMsgErr with
      | some err => exact ⟨err, rfl⟩
      | none =>
        rcases hstream with h1 | h1
        · exact absurd ho h1
        · exact absurd hs h1

/-- C16, the code at the failing input: for every HTTP PUT whose request parses and whose
journal resolves with status OK, if obtaining the peer connection, opening the Append
stream or sending the metadata frame fails, `HTTPAPI.serveWrite` returns with the response
writer exactly as it received it: no call of `http.Error` or `WriteHeader` is made, so no
status 500 is written and the failure is not surfaced to the HTTP caller. -/
theorem serveWrite_drops_first_stage_failure (rtr : Router) (decode : Request → Option Error)
    (validate : AppendRequest → Option Error) (errText : Error → String)
    (compactText : Route → String) (rnd : Nat)
    (urlHost : Endpoint → String) (grpcDial : String → Except Error ClientConn)
    (peerAppend : ClientConn → PeerAppend)
    (w : ResponseWriter) (r : Request) (body : List BodyRead)
    (req : AppendRequest) (res : resolution)
    (hparse : parseAppendRequest decode validate r = some (req, none))
    (hres : rtr.resolve req.Journal true true rnd = some (res, Status.OK))
    (hfail : (∃ err, (rtr.peerConn res.broker urlHost grpcDial).1 = .error err) ∨
      (∃ conn, (rtr.peerConn res.broker urlHost grpcDial).1 = .ok conn ∧
        ((peerAppend conn).openErr ≠ none ∨ (peerAppend conn).sendMsgErr ≠ none))) :
    serveWrite rtr decode validate errText compactText rnd urlHost grpcDial peerAppend
        w r body = some (w, (rtr.peerConn res.broker urlHost grpcDial).2) ∧
    ∀ out, serveWrite rtr decode validate errText compactText rnd urlHost grpcDial
        peerAppend w r body = some out → writtenCodes out.1 = writtenCodes w := by
  obtain ⟨err, hstage⟩ := firstStage_append_fails rtr res.broker urlHost grpcDial peerAppend
    hfail
  have hserve : serveWrite rtr decode validate errText compactText rnd urlHost grpcDial
      peerAppend w r body = some (w, (rtr.peerConn res.broker urlHost grpcDial).2) := by
    simp only [serveWrite, hparse, hres, hstage, ne_eq, not_true_eq_false, if_false]
  refine ⟨hserve, fun out hout => ?_⟩
  rw [hserve] at hout
  cases hout
  rfl

/-- The sibling path: for the same failures of the first stage (the peer connection, the
Read stream or its first response), `HTTPAPI.serveRead` calls `http.Error` with status
500. -/
theorem serveRead_surfaces_first_stage_failure (rtr : Router)
    (decode : Request → (Int × Bool) × Option Error)
    (validate : ReadRequest → Option Error) (errText : Error → String)
    (compactText : Route → String) (formatTime : Int → String) (rnd : Nat)
    (urlHost : Endpoint → String) (grpcDial : String → Except Error ClientConn)
    (peerRead : ClientConn → ReadRequest → PeerRead)
    (w : ResponseWriter) (r : Request) (req : ReadRequest) (res : resolution) (err : Error)
    (hparse : parseReadRequest decode validate r = some (req, none))
    (hres : rtr.resolve req.Journal false true rnd = some (res, Status.OK))
    (hfail : (firstStage rtr res.broker urlHost grpcDial (startRead peerRead req)).1 =
      .error err) :
    ∃ out, serveReadHead rtr decode validate errText compactText formatTime rnd urlHost
        grpcDial peerRead w r = some out ∧
      writtenCodes out.1 = writtenCodes w ++ [500] := by
  generalize hst : firstStage rtr res.broker urlHost grpcDial (startRead peerRead req) = st
    at hfail
  obtain ⟨first, rtr1⟩ := st
  dsimp only at hfail
  subst hfail
  refine ⟨(httpError w (errText err) 500, rtr1), ?_, writtenCodes_httpError _ _ _⟩
  simp only [serveReadHead, hparse, hres, hst, ne_eq, not_true_eq_false, if_false]

/-- Witness of C16 on the fixture: a PUT of `/item-two` resolves to the peer `us-east/bar`
whose dial fails, and `serveWrite` returns without a single call on the response writer,
while `serveRead` writes status 500 for the GET of the same journal. -/
theorem serveWrite_drops_first_stage_failure_witness :
    (serveWrite fixtureRouter (fun _ => none) (fun _ => none) fixtureErrText
        (fun _ => "") 0 (fun e => e) fixtureDialFails fixturePeerAppend [] fixturePut
        [BodyRead.chunk "hello"]).map Prod.fst = some [] ∧
    (serveReadHead fixtureRouter (fun _ => ((0, false), none)) (fun _ => none)
        fixtureErrText (fun _ => "") (fun _ => "") 0 (fun e => e) fixtureDialFails
        fixturePeerRead [] fixtureGet).map (fun out => writtenCodes out.1) = some [500] :=
  ⟨by
    rw [(serveWrite_drops_first_stage_failure fixtureRouter (fun _ => none) (fun _ => none)
      fixtureErrText (fun _ => "") 0 (fun e => e) fixtureDialFails fixturePeerAppend []
      fixturePut [BodyRead.chunk "hello"] { Journal := "item-two", Content := "" }
      { route := fixtureRouter.keyspaceRoute "item-two",
        broker := { Zone := "us-east", Suffix := "bar" }, replica := none }
      rfl (by decide) (Or.inl ⟨_, rfl⟩)).1]
    rfl,
   by decide⟩

end Gazette
